import Mathlib

/-!
# The Note entity of the notes application (libqtevernote/note.cpp)

A shallow embedding of `Note` (src/libqtevernote/note.cpp, note.h): the object is a
record of its member variables, every method is a function from the state before
the call to the state after it, the file system is passed explicitly and the
signals an object emits are appended to a log kept with the object.

Conventions.
* `qint32` / `qint64` members are `Int`; the conversions the C++ performs when an
  unsigned value is stored into a signed member are written out (`wrapInt32`,
  `wrapInt64`).
* `QString` is `String`; one `Char` stands for one `QChar`.
* `QDateTime` is `Option Int` (milliseconds since the epoch), `none` being the null
  date-time.
* Code of the repository that is not part of the sources at hand (EnmlDocument,
  Resource, NotesStore) and the Qt conversions on strings are collected in `Env`.
-/

namespace NotesApp

/-! ## Machine integers -/

/-- Conversion of an integer value to `qint32` (two's complement, 32 bits). -/
def wrapInt32 (i : Int) : Int := (i + 2 ^ 31) % 2 ^ 32 - 2 ^ 31

/-- Conversion of an integer value to `qint64` (two's complement, 64 bits). -/
def wrapInt64 (i : Int) : Int := (i + 2 ^ 63) % 2 ^ 64 - 2 ^ 63

/-- Conversion of a `qint32` to `quint32`, as done when `m_updateSequenceNumber` is
passed to the `quint32` parameter of the constructor. -/
def toUInt32 (i : Int) : Nat := (i % 2 ^ 32).toNat

/-! ## Basic Qt value types -/

/-- `QDateTime`: `none` is the null date-time, `some ms` a point in time. -/
abbrev QDateTime := Option Int

/-- `QByteArray`: a sequence of bytes. -/
abbrev QByteArray := List Nat

/-- `QString::left(n)`: the first `n` characters, the whole string when it is shorter. -/
def left (s : String) (n : Nat) : String := String.mk (s.data.take n)

/-- `QVariant`, restricted to the types the Note stores in its info file. -/
inductive QVariant where
  | invalid
  | bool (b : Bool)
  | int (i : Int)
  | longlong (i : Int)
  | string (s : String)
  | stringList (l : List String)
  | dateTime (d : QDateTime)
deriving DecidableEq, Repr

/-! ## Signals -/

/-- The signals declared in note.h. -/
inductive Signal where
  | guidChanged
  | createdChanged
  | titleChanged
  | updatedChanged
  | notebookGuidChanged
  | tagGuidsChanged
  | contentChanged
  | resourcesChanged
  | reminderChanged
  | reminderTimeChanged
  | reminderDoneChanged
  | isSearchResultChanged
  | updateSequenceNumberChanged
  | loadedChanged
  | deletedChanged
  | loadingChanged
  | syncedChanged
  | syncErrorChanged
  | conflictingChanged
  | conflictingNoteChanged
  | renderWidthChanged
deriving DecidableEq, Repr

/-! ## Resource and EnmlDocument -/

/-- Modelled from the spec: `Resource` (resource.h / resource.cpp are not among the
sources). "An attachment: content hash, original filename, MIME type, optional
binary payload"; an empty `data` is an absent payload. -/
structure Resource where
  hash : String
  fileName : String
  type : String
  data : QByteArray
deriving DecidableEq, Repr

/-- Modelled from the spec: `Resource::setData` "updates its payload in place". -/
def Resource.setData (r : Resource) (data : QByteArray) : Resource :=
  { r with data := data }

/-- Modelled from the spec: the state of an `EnmlDocument` (utils/enmldocument.h is
not among the sources): the canonical source and the `renderWidth` rendering hint. -/
structure EnmlDocument where
  enml : String
  renderWidth : Int
deriving DecidableEq, Repr

/-- Modelled from the spec: a default-constructed `EnmlDocument` has no content and
the default render width -1 ("Set this to -1 (the default) to keep the original
size", note.h). -/
def EnmlDocument.empty : EnmlDocument := { enml := "", renderWidth := -1 }

/-- Modelled from the spec: `EnmlDocument::setEnml` "replaces the canonical source". -/
def EnmlDocument.setEnml (d : EnmlDocument) (enml : String) : EnmlDocument :=
  { d with enml := enml }

/-- Modelled from the spec: `EnmlDocument::setRenderWidth`; the hint "does not affect
canonical source". -/
def EnmlDocument.setRenderWidth (d : EnmlDocument) (w : Int) : EnmlDocument :=
  { d with renderWidth := w }

/-! ## The file system -/

/-- The content of a file: raw text, or the key/value pairs of a `QSettings` file in
`IniFormat` (keys are written with their group path, `resources/<hash>/fileName`). -/
inductive FileData where
  | text (s : String)
  | settings (kv : List (String × QVariant))
deriving DecidableEq, Repr

/-- The file system: a map from path to content. -/
abbrev FS := String → Option FileData

namespace FS

/-- `QFile::exists`: no file has the empty name. -/
def fileExists (fs : FS) (path : String) : Bool :=
  path != "" && (fs path).isSome

/-- Store `data` at `path`. -/
def put (fs : FS) (path : String) (data : FileData) : FS :=
  fun p => if p = path then some data else fs p

/-- `QFile::remove`. -/
def remove (fs : FS) (path : String) : FS :=
  fun p => if p = path then none else fs p

/-- `QFile::rename`: fails, changing nothing, when the source is missing or a file
with the new name exists already. The flag tells whether the file was renamed. -/
def rename (fs : FS) (old new : String) : FS × Bool :=
  if fileExists fs old && new != "" && !fileExists fs new then
    (fun p => if p = new then fs old else if p = old then none else fs p, true)
  else (fs, false)

/-- The key/value pairs `QSettings` finds in the file at `path`. -/
def settingsOf (fs : FS) (path : String) : List (String × QVariant) :=
  if path = "" then [] else
  match fs path with
  | some (FileData.settings kv) => kv
  | _ => []

/-- `QSettings::value(key)`, `none` when the key is absent. -/
def value (fs : FS) (path key : String) : Option QVariant :=
  (settingsOf fs path).lookup key

/-- `QSettings::setValue(key, v)` followed by the write-back of the settings object. -/
def setValue (fs : FS) (path key : String) (v : QVariant) : FS :=
  if path = "" then fs else
  put fs path (FileData.settings
    (((settingsOf fs path).filter (fun kv => kv.1 != key)) ++ [(key, v)]))

end FS

/-- Whether `pre` is an initial segment of `l`. -/
def startsWith : List Char → List Char → Bool
  | [], _ => true
  | _ :: _, [] => false
  | a :: pre, b :: l => a == b && startsWith pre l

/-- The child group a key belongs to below the group `grp`: for the key
`grp/<name>/<rest>` it is `<name>`. -/
def childGroupOf (grp : String) (key : String) : Option String :=
  let pre := grp.data ++ ['/']
  if startsWith pre key.data then
    let rest := key.data.drop pre.length
    let name := rest.takeWhile (fun c => c != '/')
    if name.length < rest.length then some (String.mk name) else none
  else none

/-- `QSettings::childGroups()` inside the group `grp`. -/
def childGroups (fs : FS) (path grp : String) : List String :=
  ((FS.settingsOf fs path).filterMap (fun kv => childGroupOf grp kv.1)).eraseDups

/-! ## The environment -/

/-- What the Note uses and the sources at hand do not define: the storage root of
`NotesStore`, the projections and edits of `EnmlDocument`, the `Resource` built from
an imported file and `Resource::isCached`, the permissions of the host file system,
the text `QSettings` writes for a list of keys and the string conversions of
`QVariant`. -/
structure Env where
  storageLocation : String
  toPlaintext : EnmlDocument → String
  toRichText : EnmlDocument → String → String
  setRichText : EnmlDocument → String → EnmlDocument
  insertText : EnmlDocument → Int → String → EnmlDocument
  insertLink : EnmlDocument → Int → String → EnmlDocument
  attachFile : EnmlDocument → Int → String → String → EnmlDocument
  markTodo : EnmlDocument → String → Bool → EnmlDocument
  resourceFromFile : String → Option FileData → Resource
  importFile : FS → String → FS
  canOpenRead : String → Bool
  canOpenWrite : String → Bool
  resourceIsCached : FS → Resource → Bool
  settingsText : List (String × QVariant) → String
  stringToUInt : String → Nat
  stringToULongLong : String → Nat
  stringToDateTime : String → QDateTime
  dateTimeToString : QDateTime → String

namespace QVariant

/-- `QVariant::toBool`. -/
def toBool : QVariant → Bool
  | bool b => b
  | int i => i != 0
  | longlong i => i != 0
  | string s => !(s.toLower == "" || s.toLower == "0" || s.toLower == "false")
  | _ => false

/-- `QVariant::toString`. -/
def toString (env : Env) : QVariant → String
  | string s => s
  | bool b => if b then "true" else "false"
  | int i => ToString.toString i
  | longlong i => ToString.toString i
  | stringList [s] => s
  | dateTime d => env.dateTimeToString d
  | _ => ""

/-- `QVariant::toStringList`. -/
def toStringList : QVariant → List String
  | stringList l => l
  | string s => [s]
  | _ => []

/-- `QVariant::toUInt`. -/
def toUInt (env : Env) : QVariant → Nat
  | bool b => if b then 1 else 0
  | int i => (i % 2 ^ 32).toNat
  | longlong i => (i % 2 ^ 32).toNat
  | string s => env.stringToUInt s % 2 ^ 32
  | _ => 0

/-- `QVariant::toULongLong`. -/
def toULongLong (env : Env) : QVariant → Nat
  | bool b => if b then 1 else 0
  | int i => (i % 2 ^ 64).toNat
  | longlong i => (i % 2 ^ 64).toNat
  | string s => env.stringToULongLong s % 2 ^ 64
  | _ => 0

/-- `QVariant::toDateTime`. -/
def toDateTime (env : Env) : QVariant → QDateTime
  | dateTime d => d
  | string s => env.stringToDateTime s
  | _ => none

end QVariant

/-! ## The Note -/

/-- `QHash<QString, Resource*>`: the entries in some order, one per key. -/
abbrev ResourceMap := List (String × Resource)

namespace ResourceMap

/-- `QHash::contains`. -/
def contains (m : ResourceMap) (k : String) : Bool := m.any (fun e => e.1 == k)

/-- `QHash::value`: `none` stands for the null pointer returned for a missing key. -/
def value (m : ResourceMap) (k : String) : Option Resource := m.lookup k

/-- `QHash::insert`: replaces the value of a key that is present already. -/
def insert (m : ResourceMap) (k : String) (r : Resource) : ResourceMap :=
  if contains m k then m.map (fun e => if e.1 = k then (e.1, r) else e) else m ++ [(k, r)]

/-- A change made through the pointer stored under `k`. -/
def modify (m : ResourceMap) (k : String) (f : Resource → Resource) : ResourceMap :=
  m.map (fun e => if e.1 = k then (e.1, f e.2) else e)

end ResourceMap

/-- The member variables of `Note` (note.h), and the log of the signals the object
has emitted, oldest first. `m_cacheFile` holds the file name of the `QFile` member,
`m_conflictingNote` the address of the owned snapshot (`none`: null pointer). -/
structure Note where
  m_guid : String
  m_notebookGuid : String
  m_created : QDateTime
  m_updated : QDateTime
  m_title : String
  m_tagGuids : List String
  m_content : EnmlDocument
  m_tagline : String
  m_reminderOrder : Int
  m_reminderTime : QDateTime
  m_reminderDoneTime : QDateTime
  m_deleted : Bool
  m_isSearchResult : Bool
  m_resources : ResourceMap
  m_updateSequenceNumber : Int
  m_lastSyncedSequenceNumber : Int
  m_cacheFile : String
  m_infoFile : String
  m_loading : Bool
  m_loaded : Bool
  m_synced : Bool
  m_needsContentSync : Bool
  m_syncError : Bool
  m_conflicting : Bool
  m_conflictingNote : Option Nat
  emitted : List Signal
deriving DecidableEq, Repr

namespace Note

/-- The statement `emit s`. -/
def emit (n : Note) (s : Signal) : Note := { n with emitted := n.emitted ++ [s] }

/-- How often the object has emitted `s`. -/
def emissions (n : Note) (s : Signal) : Nat := n.emitted.count s

/-! ### Getters -/

def loading (n : Note) : Bool := n.m_loading
def synced (n : Note) : Bool := n.m_synced
def syncError (n : Note) : Bool := n.m_syncError
def guid (n : Note) : String := n.m_guid
def notebookGuid (n : Note) : String := n.m_notebookGuid
def created (n : Note) : QDateTime := n.m_created
def updated (n : Note) : QDateTime := n.m_updated
def title (n : Note) : String := n.m_title
def tagGuids (n : Note) : List String := n.m_tagGuids
def enmlContent (n : Note) : String := n.m_content.enml
def plaintextContent (env : Env) (n : Note) : String := env.toPlaintext n.m_content
def tagline (n : Note) : String := n.m_tagline
def reminder (n : Note) : Bool := decide (n.m_reminderOrder > 0)
def reminderOrder (n : Note) : Int := n.m_reminderOrder
def reminderTime (n : Note) : QDateTime := n.m_reminderTime
def reminderDoneTime (n : Note) : QDateTime := n.m_reminderDoneTime
def deleted (n : Note) : Bool := n.m_deleted
def isSearchResult (n : Note) : Bool := n.m_isSearchResult
def updateSequenceNumber (n : Note) : Int := n.m_updateSequenceNumber
def lastSyncedSequenceNumber (n : Note) : Int := n.m_lastSyncedSequenceNumber
def resources (n : Note) : List Resource := n.m_resources.map Prod.snd
def resource (n : Note) (hash : String) : Option Resource := n.m_resources.value hash
def conflictingNote (n : Note) : Option Nat := n.m_conflictingNote
def renderWidth (n : Note) : Int := n.m_content.renderWidth
def loaded (n : Note) : Bool := n.m_loaded
def conflicting (n : Note) : Bool := n.m_conflicting
def needsContentSync (n : Note) : Bool := n.m_needsContentSync
def isCached (fs : FS) (n : Note) : Bool := fs.fileExists n.m_cacheFile

/-! ### Persistence -/

/-- `Note::syncToInfoFile`. -/
def syncToInfoFile (fs : FS) (n : Note) : FS :=
  let p := n.m_infoFile
  let fs := fs.setValue p "created" (QVariant.dateTime n.m_created)
  let fs := fs.setValue p "title" (QVariant.string n.m_title)
  let fs := fs.setValue p "updated" (QVariant.dateTime n.m_updated)
  let fs := fs.setValue p "needsContentSync" (QVariant.bool n.m_needsContentSync)
  let fs := fs.setValue p "notebookGuid" (QVariant.string n.m_notebookGuid)
  let fs := fs.setValue p "tagGuids" (QVariant.stringList n.m_tagGuids)
  let fs := fs.setValue p "reminderOrder" (QVariant.longlong n.m_reminderOrder)
  let fs := fs.setValue p "reminderTime" (QVariant.dateTime n.m_reminderTime)
  let fs := fs.setValue p "reminderDoneTime" (QVariant.dateTime n.m_reminderDoneTime)
  let fs := fs.setValue p "deleted" (QVariant.bool n.m_deleted)
  fs.setValue p "lastSyncedSequenceNumber" (QVariant.int n.m_lastSyncedSequenceNumber)

/-- `Note::syncToCacheFile`: the tagline goes to the info file, the canonical source
to the cache file when it can be opened for writing. -/
def syncToCacheFile (env : Env) (fs : FS) (n : Note) : FS :=
  let fs := fs.setValue n.m_infoFile "tagline" (QVariant.string n.m_tagline)
  if n.m_cacheFile != "" && env.canOpenWrite n.m_cacheFile then
    fs.put n.m_cacheFile (FileData.text n.m_content.enml)
  else fs

/-- `Note::setGuid`. -/
def setGuid (env : Env) (fs : FS) (n : Note) (guid : String) : Note × FS :=
  if n.m_guid != guid then
    let syncToFile := n.m_infoFile != ""
    let fs := if syncToFile then fs.remove n.m_infoFile else fs
    let n := { n with m_guid := guid }
    let newCacheFileName := env.storageLocation ++ "note-" ++ guid ++ ".enml"
    let r : Note × FS :=
      if fs.fileExists n.m_cacheFile then
        let res := fs.rename n.m_cacheFile newCacheFileName
        (if res.2 then { n with m_cacheFile := newCacheFileName } else n, res.1)
      else ({ n with m_cacheFile := newCacheFileName }, fs)
    let n := { r.1 with m_infoFile := env.storageLocation ++ "note-" ++ guid ++ ".info" }
    let fs := r.2
    let fs := if syncToFile then syncToCacheFile env (syncToInfoFile fs n) n else fs
    (n.emit Signal.guidChanged, fs)
  else (n, fs)

/-! ### Resources -/

/-- `Note::addResource`. A new resource is also recorded in the info file. -/
def addResource (fs : FS) (n : Note) (hash fileName type : String) (data : QByteArray) :
    Note × FS :=
  let r : Note × FS :=
    if n.m_resources.contains hash then
      (if !data.isEmpty then
        { n with m_resources := n.m_resources.modify hash (fun r => r.setData data) }
       else n, fs)
    else
      let resource : Resource := { hash := hash, fileName := fileName, type := type, data := data }
      let n := { n with m_resources := n.m_resources.insert hash resource }
      let fs := fs.setValue n.m_infoFile ("resources/" ++ hash ++ "/fileName") (QVariant.string fileName)
      let fs := fs.setValue n.m_infoFile ("resources/" ++ hash ++ "/type") (QVariant.string type)
      (n, fs)
  ((r.1.emit Signal.resourcesChanged).emit Signal.contentChanged, r.2)

/-! ### Construction -/

/-- The object after the member initialisers of the constructor have run. The
members the initialiser list leaves out (`m_reminderOrder`,
`m_lastSyncedSequenceNumber`, `m_synced`) are given a placeholder; the constructor
body assigns them before they are read. -/
def initial (updateSequenceNumber : Nat) : Note :=
  { m_guid := "", m_notebookGuid := "", m_created := none, m_updated := none, m_title := "",
    m_tagGuids := [], m_content := EnmlDocument.empty, m_tagline := "", m_reminderOrder := 0,
    m_reminderTime := none, m_reminderDoneTime := none, m_deleted := false,
    m_isSearchResult := false, m_resources := [],
    m_updateSequenceNumber := wrapInt32 updateSequenceNumber,
    m_lastSyncedSequenceNumber := 0, m_cacheFile := "", m_infoFile := "", m_loading := false,
    m_loaded := false, m_synced := false, m_needsContentSync := false, m_syncError := false,
    m_conflicting := false, m_conflictingNote := none, emitted := [] }

/-- One round of the loop of the constructor over the resource groups of the info
file: `addResource(hash, value("fileName"), value("type"))` inside the group `hash`. -/
def addStoredResource (env : Env) (s : Note × FS) (hash : String) : Note × FS :=
  let p := s.1.m_infoFile
  let grp := "resources/" ++ hash ++ "/"
  let fileName := ((s.2.value p (grp ++ "fileName")).getD QVariant.invalid).toString env
  let type := ((s.2.value p (grp ++ "type")).getD QVariant.invalid).toString env
  addResource s.2 s.1 hash fileName type []

/-- The loop of the constructor over the resource groups of the info file. -/
def addStoredResources (env : Env) (hashes : List String) (s : Note × FS) : Note × FS :=
  hashes.foldl (addStoredResource env) s

/-- `Note::Note(guid, updateSequenceNumber)`: the members are read from the info file
the guid designates, in the order of the constructor body. -/
def new (env : Env) (fs : FS) (guid : String) (updateSequenceNumber : Nat) : Note × FS :=
  let s := setGuid env fs (initial updateSequenceNumber) guid
  let fs := s.2
  let p := s.1.m_infoFile
  let get := fun (key : String) => (fs.value p key).getD QVariant.invalid
  let lastSynced := ((fs.value p "lastSyncedSequenceNumber").getD (QVariant.int 0)).toUInt env
  let needsSync := ((fs.value p "needsContentSync").getD (QVariant.bool false)).toBool
  let n : Note := { s.1 with
    m_cacheFile := env.storageLocation ++ "note-" ++ guid ++ ".enml"
    m_created := (get "created").toDateTime env
    m_title := (get "title").toString env
    m_updated := (get "updated").toDateTime env
    m_notebookGuid := (get "notebookGuid").toString env
    m_tagGuids := (get "tagGuids").toStringList
    m_reminderOrder := wrapInt64 ((get "reminderOrder").toULongLong env)
    m_reminderTime := (get "reminderTime").toDateTime env
    m_reminderDoneTime := (get "reminderDoneTime").toDateTime env
    m_deleted := (get "deleted").toBool
    m_tagline := (get "tagline").toString env
    m_lastSyncedSequenceNumber := wrapInt32 lastSynced
    m_needsContentSync := needsSync
    m_synced := decide (wrapInt32 lastSynced = s.1.m_updateSequenceNumber) }
  addStoredResources env (childGroups fs p "resources") (n, fs)

end Note

namespace Note

/-! ### Setters of the metadata -/

/-- `Note::setNotebookGuid`. -/
def setNotebookGuid (n : Note) (notebookGuid : String) : Note :=
  if n.m_notebookGuid != notebookGuid then
    { n with m_notebookGuid := notebookGuid }.emit Signal.notebookGuidChanged
  else n

/-- `Note::setCreated`. -/
def setCreated (n : Note) (created : QDateTime) : Note :=
  if n.m_created != created then { n with m_created := created }.emit Signal.createdChanged
  else n

/-- `Note::setUpdated`. -/
def setUpdated (n : Note) (updated : QDateTime) : Note :=
  if n.m_updated != updated then { n with m_updated := updated }.emit Signal.updatedChanged
  else n

/-- `Note::setTitle`. -/
def setTitle (n : Note) (title : String) : Note :=
  if n.m_title != title then { n with m_title := title }.emit Signal.titleChanged else n

/-- `Note::setTagGuids`. -/
def setTagGuids (n : Note) (tagGuids : List String) : Note :=
  if n.m_tagGuids != tagGuids then { n with m_tagGuids := tagGuids }.emit Signal.tagGuidsChanged
  else n

/-- `Note::setDeleted`. -/
def setDeleted (n : Note) (deleted : Bool) : Note :=
  if n.m_deleted != deleted then { n with m_deleted := deleted }.emit Signal.deletedChanged
  else n

/-- `Note::setIsSearchResult`. -/
def setIsSearchResult (n : Note) (isSearchResult : Bool) : Note :=
  if n.m_isSearchResult != isSearchResult then
    { n with m_isSearchResult := isSearchResult }.emit Signal.isSearchResultChanged
  else n

/-- `Note::setLoading`. -/
def setLoading (n : Note) (loading : Bool) : Note :=
  if n.m_loading != loading then { n with m_loading := loading }.emit Signal.loadingChanged
  else n

/-- `Note::setSyncError`. -/
def setSyncError (n : Note) (syncError : Bool) : Note :=
  if n.m_syncError != syncError then
    { n with m_syncError := syncError }.emit Signal.syncErrorChanged
  else n

/-- `Note::setConflicting`. -/
def setConflicting (n : Note) (conflicting : Bool) : Note :=
  if n.m_conflicting != conflicting then
    { n with m_conflicting := conflicting }.emit Signal.conflictingChanged
  else n

/-- `Note::setConflictingNote`: the previous snapshot is handed to `deleteLater`, the
new one becomes a child of this object. -/
def setConflictingNote (n : Note) (note : Option Nat) : Note :=
  { n with m_conflictingNote := note }.emit Signal.conflictingNoteChanged

/-! ### Reminder -/

/-- `Note::setReminder`; `now` is the value `QDateTime::currentMSecsSinceEpoch()`
returns during the call. -/
def setReminder (n : Note) (reminder : Bool) (now : Int) : Note :=
  if reminder && n.m_reminderOrder == 0 then
    { n with m_reminderOrder := now }.emit Signal.reminderChanged
  else if !reminder && decide (n.m_reminderOrder > 0) then
    { n with m_reminderOrder := 0 }.emit Signal.reminderChanged
  else n

/-- `Note::setReminderOrder`. -/
def setReminderOrder (n : Note) (reminderOrder : Int) : Note :=
  if n.m_reminderOrder != reminderOrder then
    { n with m_reminderOrder := reminderOrder }.emit Signal.reminderChanged
  else n

/-- `Note::setReminderTime`. -/
def setReminderTime (n : Note) (reminderTime : QDateTime) : Note :=
  if n.m_reminderTime != reminderTime then
    { n with m_reminderTime := reminderTime }.emit Signal.reminderTimeChanged
  else n

/-- `Note::setReminderDoneTime`. -/
def setReminderDoneTime (n : Note) (reminderDoneTime : QDateTime) : Note :=
  if n.m_reminderDoneTime != reminderDoneTime then
    { n with m_reminderDoneTime := reminderDoneTime }.emit Signal.reminderDoneChanged
  else n

/-! ### Sequence numbers -/

/-- `Note::setUpdateSequenceNumber`. -/
def setUpdateSequenceNumber (n : Note) (updateSequenceNumber : Int) : Note :=
  if n.m_updateSequenceNumber != updateSequenceNumber then
    let n := { n with m_updateSequenceNumber := updateSequenceNumber }
    let n := { n with m_synced := decide (n.m_updateSequenceNumber = n.m_lastSyncedSequenceNumber) }
    let n := if n.m_synced then { n with m_needsContentSync := false } else n
    n.emit Signal.syncedChanged
  else n

/-- `Note::setLastSyncedSequenceNumber`. -/
def setLastSyncedSequenceNumber (n : Note) (lastSyncedSequenceNumber : Int) : Note :=
  if n.m_lastSyncedSequenceNumber != lastSyncedSequenceNumber then
    let n := { n with m_lastSyncedSequenceNumber := lastSyncedSequenceNumber }
    let n := { n with m_synced := decide (n.m_updateSequenceNumber = n.m_lastSyncedSequenceNumber) }
    let n := if n.m_synced then { n with m_needsContentSync := false } else n
    n.emit Signal.syncedChanged
  else n

/-! ### Content -/

/-- `Note::setEnmlContent`. -/
def setEnmlContent (env : Env) (n : Note) (enmlContent : String) : Note :=
  let n :=
    if n.m_content.enml != enmlContent then
      let n := { n with m_content := n.m_content.setEnml enmlContent }
      let n := { n with m_tagline := left (env.toPlaintext n.m_content) 100 }
      let n := n.emit Signal.contentChanged
      if n.m_loaded then { n with m_needsContentSync := true } else n
    else n
  { n with m_loaded := true }

/-- `Note::richTextContent`. -/
def richTextContent (env : Env) (n : Note) : String := env.toRichText n.m_content n.m_guid

/-- `Note::setRichTextContent`. -/
def setRichTextContent (env : Env) (n : Note) (richTextContent : String) : Note :=
  if env.toRichText n.m_content n.m_guid != richTextContent then
    let n := { n with m_content := env.setRichText n.m_content richTextContent }
    let n := { n with m_tagline := left (env.toPlaintext n.m_content) 100 }
    let n := n.emit Signal.contentChanged
    { n with m_needsContentSync := true }
  else n

/-- `Note::markTodo`. -/
def markTodo (env : Env) (n : Note) (todoId : String) (checked : Bool) : Note :=
  { n with m_content := env.markTodo n.m_content todoId checked }

/-- `Note::attachFile`; `fileName` is the path of the url passed in. -/
def attachFile (env : Env) (fs : FS) (n : Note) (position : Int) (fileName : String) :
    Note × FS :=
  if !fs.fileExists fileName then (n, fs)
  else
    let resource := env.resourceFromFile fileName (fs fileName)
    let fs := env.importFile fs fileName
    let n := { n with m_resources := n.m_resources.insert resource.hash resource }
    let n := { n with
      m_content := env.attachFile n.m_content position resource.hash resource.type }
    let grp := "resources/" ++ resource.hash ++ "/"
    let fs := fs.setValue n.m_infoFile (grp ++ "fileName") (QVariant.string resource.fileName)
    let fs := fs.setValue n.m_infoFile (grp ++ "type") (QVariant.string resource.type)
    let n := (n.emit Signal.resourcesChanged).emit Signal.contentChanged
    let fs := fs.remove fileName
    ({ n with m_needsContentSync := true }, fs)

/-- `Note::insertText`. -/
def insertText (env : Env) (n : Note) (position : Int) (text : String) : Note :=
  let n := { n with m_content := env.insertText n.m_content position text }
  let n := { n with m_tagline := left (env.toPlaintext n.m_content) 100 }
  n.emit Signal.contentChanged

/-- `Note::insertLink`. -/
def insertLink (env : Env) (n : Note) (position : Int) (url : String) : Note :=
  let n := { n with m_content := env.insertLink n.m_content position url }
  let n := { n with m_tagline := left (env.toPlaintext n.m_content) 100 }
  n.emit Signal.contentChanged

/-- `Note::setRenderWidth`. -/
def setRenderWidth (n : Note) (renderWidth : Int) : Note :=
  if n.m_content.renderWidth != renderWidth then
    { n with m_content := n.m_content.setRenderWidth renderWidth }.emit Signal.contentChanged
  else n

/-! ### clone -/

/-- One round of the loop of `clone()` over the resources of the original. -/
def cloneResource (s : Note × FS) (r : Resource) : Note × FS :=
  addResource s.2 s.1 r.hash r.fileName r.type r.data

/-- The loop of `clone()` over the resources of the original. -/
def cloneResources (rl : List Resource) (s : Note × FS) : Note × FS :=
  rl.foldl cloneResource s

/-- `Note::clone`: the clone is built by the constructor, which reads the info file
of the guid, and is then updated through the setters. -/
def clone (env : Env) (fs : FS) (n : Note) : Note × FS :=
  let s := Note.new env fs n.m_guid (toUInt32 n.m_updateSequenceNumber)
  let note := s.1
  let note := note.setCreated n.m_created
  let note := note.setNotebookGuid n.m_notebookGuid
  let note := note.setTitle n.m_title
  let note := note.setUpdated n.m_updated
  let note := note.setEnmlContent env n.m_content.enml
  let note := note.setReminderOrder n.m_reminderOrder
  let note := note.setReminderTime n.m_reminderTime
  let note := note.setReminderDoneTime n.m_reminderDoneTime
  let note := note.setIsSearchResult n.m_isSearchResult
  let note := note.setTagGuids n.m_tagGuids
  let note := note.setUpdateSequenceNumber n.m_updateSequenceNumber
  let note := note.setDeleted n.m_deleted
  let s := cloneResources n.resources (note, s.2)
  ({ s.1 with m_needsContentSync := n.m_needsContentSync }, s.2)

end Note

/-! ## Sequences of calls -/

/-- A call of one of the two sequence-number setters. -/
inductive SeqCall where
  | setUpdateSequenceNumber (v : Int)
  | setLastSyncedSequenceNumber (v : Int)
deriving DecidableEq, Repr

/-- The effect of one call. -/
def SeqCall.run (n : Note) : SeqCall → Note
  | SeqCall.setUpdateSequenceNumber v => n.setUpdateSequenceNumber v
  | SeqCall.setLastSyncedSequenceNumber v => n.setLastSyncedSequenceNumber v

/-- The effect of a sequence of calls, first call first. -/
def runSeqCalls (n : Note) (calls : List SeqCall) : Note := calls.foldl SeqCall.run n

/-- A call of one of the four content edits that recompute the tagline. -/
inductive ContentCall where
  | setEnmlContent (enml : String)
  | setRichTextContent (richText : String)
  | insertText (position : Int) (text : String)
  | insertLink (position : Int) (url : String)
deriving DecidableEq, Repr

/-- The effect of one call. -/
def ContentCall.run (env : Env) (n : Note) : ContentCall → Note
  | ContentCall.setEnmlContent e => n.setEnmlContent env e
  | ContentCall.setRichTextContent t => n.setRichTextContent env t
  | ContentCall.insertText p t => n.insertText env p t
  | ContentCall.insertLink p u => n.insertLink env p u

/-- The effect of a sequence of calls, first call first. -/
def runContentCalls (env : Env) (n : Note) (calls : List ContentCall) : Note :=
  calls.foldl (ContentCall.run env) n

/-! ## A sample environment

Used to evaluate the definitions on concrete inputs. The plaintext of a document is
its source without the tags; an edit splices its text into the source at the given
offset; a media reference is an empty `en-media` element. -/

/-- The text outside of tags; `inTag` tells whether a tag is open. -/
def stripTags : Bool → List Char → List Char
  | _, [] => []
  | inTag, c :: cs =>
    if c = '<' then stripTags true cs
    else if c = '>' then stripTags false cs
    else if inTag then stripTags inTag cs
    else c :: stripTags inTag cs

/-- The string `s` with `t` spliced in at offset `pos`. -/
def insertAt (s : String) (pos : Int) (t : String) : String :=
  String.mk (s.data.take pos.toNat ++ t.data ++ s.data.drop pos.toNat)

/-- The sample environment. -/
def sampleEnv : Env :=
  { storageLocation := "/store/"
    toPlaintext := fun d => String.mk (stripTags false d.enml.data)
    toRichText := fun d _ => d.enml
    setRichText := fun d t => d.setEnml t
    insertText := fun d pos t => d.setEnml (insertAt d.enml pos t)
    insertLink := fun d pos u => d.setEnml (insertAt d.enml pos ("<a>" ++ u ++ "</a>"))
    attachFile := fun d pos _ _ => d.setEnml (insertAt d.enml pos "<en-media/>")
    markTodo := fun d _ _ => d
    resourceFromFile := fun path _ =>
      { hash := "d41d8cd9", fileName := path, type := "image/png", data := [] }
    importFile := fun fs _ => fs
    canOpenRead := fun _ => true
    canOpenWrite := fun _ => true
    resourceIsCached := fun _ r => !r.data.isEmpty
    settingsText := fun _ => ""
    stringToUInt := fun _ => 0
    stringToULongLong := fun _ => 0
    stringToDateTime := fun _ => none
    dateTimeToString := fun _ => "" }

/-- The file system without any file. -/
def emptyFS : FS := fun _ => none

/-- A freshly constructed note: guid `g`, update sequence number 0, no file on disk. -/
def sampleNote : Note := (Note.new sampleEnv emptyFS "g" 0).1

/-- A short sequence of edits. -/
def sampleCalls : List ContentCall :=
  [ContentCall.setEnmlContent "<en-note>note</en-note>",
   ContentCall.insertText 9 "my ",
   ContentCall.setRichTextContent "<en-note>my first note</en-note>",
   ContentCall.insertLink 9 "http://x.org"]

/-- A file system holding the info file of the note `g`, with a stored tagline, and an
image to attach. -/
def staleFS : FS :=
  (emptyFS.put "/store/note-g.info"
    (FileData.settings [("tagline", QVariant.string "summer plans")])).put
    "/home/u/a.png" (FileData.text "")

/-- The sample note with one resource. -/
def noteWithResource : Note :=
  (sampleNote.addResource emptyFS "0a1b" "a.png" "image/png" [1, 2]).1

/-- A note in which the sync state set by the store differs from the defaults. -/
def conflictedNote : Note :=
  ((((sampleNote.setConflicting true).setSyncError true).setConflictingNote
    (some 1)).setRenderWidth 300)

/-! ## Loading -/

/-- `QChar::isSpace`: the ASCII white space characters, U+0085, U+00A0 and the
Unicode separators. -/
def isSpace (c : Char) : Bool :=
  let k := c.toNat
  k == 32 || (9 ≤ k && k ≤ 13) || k == 0x85 || k == 0xA0 || k == 0x1680 ||
    (0x2000 ≤ k && k ≤ 0x200A) || k == 0x2028 || k == 0x2029 || k == 0x202F ||
    k == 0x205F || k == 0x3000

/-- `QString::trimmed`: the string without the white space at its start and end. -/
def trimmed (s : String) : String :=
  String.mk (((s.data.dropWhile isSpace).reverse.dropWhile isSpace).reverse)

/-- `QFile::readAll` followed by `QString::fromUtf8`: the text of the file at `path`. -/
def readAll (env : Env) (fs : FS) (path : String) : String :=
  match fs path with
  | some (FileData.text t) => t
  | some (FileData.settings kv) => env.settingsText kv
  | none => ""

/-- `FetchNoteJob::LoadWhat`. -/
inductive LoadWhat where
  | LoadContent
  | LoadResources
deriving DecidableEq, Repr

/-- `EvernoteJob::JobPriority`. -/
inductive JobPriority where
  | JobPriorityHigh
  | JobPriorityMedium
  | JobPriorityLow
deriving DecidableEq, Repr

/-- Modelled from the spec: the order of the job priorities (evernotejob.h is not among
the sources), `JobPriorityHigh` above `JobPriorityMedium` above `JobPriorityLow`; a
higher rank is served first. -/
def JobPriority.rank : JobPriority → Nat
  | JobPriority.JobPriorityHigh => 2
  | JobPriority.JobPriorityMedium => 1
  | JobPriority.JobPriorityLow => 0

/-- A call of `NotesStore::refreshNoteContent(guid, what, priority)`. -/
structure FetchRequest where
  guid : String
  what : LoadWhat
  priority : JobPriority
deriving DecidableEq, Repr

namespace Note

/-- `Note::loadFromCacheFile`. -/
def loadFromCacheFile (env : Env) (fs : FS) (n : Note) : Note :=
  let n :=
    if fs.fileExists n.m_cacheFile && env.canOpenRead n.m_cacheFile then
      let content := n.m_content.setEnml (trimmed (readAll env fs n.m_cacheFile))
      { n with m_content := content, m_tagline := left (env.toPlaintext content) 100 }
    else n
  { n with m_loaded := true }

/-- The priority `load` gives to a content fetch. -/
def contentPriority (priorityHigh : Bool) : JobPriority :=
  if priorityHigh then JobPriority.JobPriorityHigh else JobPriority.JobPriorityMedium

/-- The priority `load` gives to a resources-only fetch. -/
def resourcesPriority (priorityHigh : Bool) : JobPriority :=
  if priorityHigh then JobPriority.JobPriorityHigh else JobPriority.JobPriorityLow

/-- The loop of `load` over the resources: the first resource that is not cached
triggers a request and ends the loop. -/
def loadResources (env : Env) (fs : FS) (guid : String) (priorityHigh : Bool) :
    List Resource → List FetchRequest
  | [] => []
  | r :: rest =>
    if !env.resourceIsCached fs r then
      [{ guid := guid, what := LoadWhat.LoadResources,
         priority := resourcesPriority priorityHigh }]
    else loadResources env fs guid priorityHigh rest

/-- The note after the cache check at the start of `load`. -/
def loadCheck (env : Env) (fs : FS) (n : Note) : Note :=
  if !n.m_loaded && n.isCached fs then n.loadFromCacheFile env fs else n

/-- `Note::load`: the note after the call and the requests passed to
`NotesStore::refreshNoteContent`, in order. -/
def load (env : Env) (fs : FS) (n : Note) (priorityHigh : Bool) : Note × List FetchRequest :=
  let n := loadCheck env fs n
  if !n.m_loaded then
    (n, [{ guid := n.m_guid, what := LoadWhat.LoadContent,
           priority := contentPriority priorityHigh }])
  else (n, loadResources env fs n.m_guid priorityHigh n.resources)

/-- `Note::deleteFromCache`. -/
def deleteFromCache (fs : FS) (n : Note) : FS :=
  let fs := if fs.fileExists n.m_cacheFile then fs.remove n.m_cacheFile else fs
  if fs.fileExists n.m_infoFile then fs.remove n.m_infoFile else fs

end Note

/-- The cache-file path of a guid: storage root, `note-`, the guid, `.enml`. -/
def cacheFilePath (env : Env) (guid : String) : String :=
  env.storageLocation ++ "note-" ++ guid ++ ".enml"

/-- The info-file path of a guid: storage root, `note-`, the guid, `.info`. -/
def infoFilePath (env : Env) (guid : String) : String :=
  env.storageLocation ++ "note-" ++ guid ++ ".info"

/-! ## The converter from rich text to ENML (utils/html2enmlconverter.cpp)

`QXmlStreamReader` and `QXmlStreamWriter` belong to Qt. The input of the converter
is the sequence of tokens `readNext()` returns for the document, its output the
sequence of items the writer is asked to write. -/

/-- `QXmlStreamAttribute`: qualified name and value. -/
structure Attribute where
  name : String
  value : String
deriving DecidableEq, Repr

/-- A token of `QXmlStreamReader`, with the part of it the converter reads. -/
inductive Token where
  | invalid
  | startDocument
  | endDocument
  | startElement (name : String) (attributes : List Attribute)
  | endElement (name : String)
  | characters (text : String)
  | comment (text : String)
  | dtd (text : String)
  | entityReference (name : String)
  | processingInstruction (target : String)
deriving DecidableEq, Repr

/-- What `QXmlStreamWriter` has been asked to write. -/
inductive Written where
  | startDocument
  | dtd (text : String)
  | startElement (name : String)
  | attributes (attributes : List Attribute)
  | characters (text : String)
  | endElement (name : String)
deriving DecidableEq, Repr

/-- The list `supportedTags`. -/
def supportedTags : List String :=
  ["a", "abbr", "acronym", "address", "area", "b", "bdo", "big",
   "blockquote", "br", "caption", "center", "cite", "code", "col",
   "colgroup", "dd", "del", "dfn", "div", "dl", "dt", "em",
   "en-crypt", "en-media", "en-todo", "font", "h1", "h2", "h3",
   "h4", "h5", "h6", "hr", "i", "img", "ins", "kbd", "li",
   "map", "ol", "p", "pre", "q", "s", "samp", "small", "span",
   "strike", "strong", "sub", "sup", "table", "tbody", "td",
   "tfoot", "th", "thead", "tr", "tt", "u", "ul", "var"]

/-- The allow-list as the specification gives it. -/
def specAllowList : List String :=
  ["a", "abbr", "acronym", "address", "area", "b", "bdo", "big", "blockquote", "br",
   "caption", "center", "cite", "code", "col", "colgroup", "dd", "del", "dfn", "div", "dl",
   "dt", "em", "en-crypt", "en-media", "en-todo", "font", "h1", "h2", "h3", "h4", "h5", "h6",
   "hr", "i", "img", "ins", "kbd", "li", "map", "ol", "p", "pre", "q", "s", "samp", "small",
   "span", "strike", "strong", "sub", "sup", "table", "tbody", "td", "tfoot", "th", "thead",
   "tr", "tt", "u", "ul", "var"]

/-- The state of the conversion: what the writer has written, the elements the writer
has open (innermost first) and the flag `isBody`. -/
structure Converter where
  written : List Written
  openTags : List String
  isBody : Bool
deriving DecidableEq, Repr

namespace Converter

/-- `QXmlStreamWriter::writeStartElement`. -/
def writeStartElement (c : Converter) (name : String) : Converter :=
  { c with written := c.written ++ [Written.startElement name], openTags := name :: c.openTags }

/-- `QXmlStreamWriter::writeAttributes`. -/
def writeAttributes (c : Converter) (attributes : List Attribute) : Converter :=
  { c with written := c.written ++ [Written.attributes attributes] }

/-- `QXmlStreamWriter::writeCharacters`. -/
def writeCharacters (c : Converter) (text : String) : Converter :=
  { c with written := c.written ++ [Written.characters text] }

/-- `QXmlStreamWriter::writeEndElement`: closes the innermost open element, and does
nothing when no element is open. -/
def writeEndElement (c : Converter) : Converter :=
  match c.openTags with
  | [] => c
  | name :: rest => { c with written := c.written ++ [Written.endElement name], openTags := rest }

/-- `QXmlStreamWriter::writeEndDocument`: closes all elements still open. -/
def writeEndDocument (c : Converter) : Converter :=
  { c with written := c.written ++ c.openTags.map Written.endElement, openTags := [] }

/-- The converter after `writeStartDocument` and `writeDTD`. -/
def start : Converter :=
  { written := [Written.startDocument,
      Written.dtd "<!DOCTYPE en-note SYSTEM \"http://xml.evernote.com/pub/enml2.dtd\">"],
    openTags := [], isBody := false }

/-- One round of the loop of `html2enml` for the token read; the flag tells whether
the loop ends with this round (the `break` at the end of the body, or the reader
being at its end or in error after the token). -/
def step (c : Converter) : Token → Converter × Bool
  | Token.startDocument => (c, false)
  | Token.startElement name attributes =>
    if !c.isBody then
      if name == "body" then ({ c.writeStartElement "en-note" with isBody := true }, false)
      else (c, false)
    else if supportedTags.contains name then
      ((c.writeStartElement name).writeAttributes attributes, false)
    else (c, false)
  | Token.characters text => if c.isBody then (c.writeCharacters text, false) else (c, false)
  | Token.endElement name =>
    if name == "body" then ({ c.writeEndElement with isBody := false }, true)
    else if supportedTags.contains name then (c.writeEndElement, false)
    else (c, false)
  | Token.endDocument => (c, true)
  | Token.invalid => (c, true)
  | _ => (c, false)

/-- The loop of `html2enml`: the converter when the loop is left, and whether it was
left before all tokens were read. -/
def run (c : Converter) : List Token → Converter × Bool
  | [] => (c, false)
  | token :: rest =>
    if (c.step token).2 then ((c.step token).1, true) else run (c.step token).1 rest

/-- The converter after the loop of `html2enml`. -/
def loop (c : Converter) (tokens : List Token) : Converter := (c.run tokens).1

end Converter

/-- `Html2EnmlConverter::html2enml`, from the tokens of the input to what is written
to the output. -/
def html2enml (tokens : List Token) : List Written :=
  ((Converter.start.loop tokens).writeEndDocument).written

/-- What the loop writes for the tokens between the opening and the closing tag of the
body: the allow-listed elements with their attributes and all text. -/
def bodyWritten : List Token → List Written
  | [] => []
  | Token.startElement name attributes :: rest =>
    if supportedTags.contains name then
      Written.startElement name :: Written.attributes attributes :: bodyWritten rest
    else bodyWritten rest
  | Token.characters text :: rest => Written.characters text :: bodyWritten rest
  | Token.endElement name :: rest =>
    if supportedTags.contains name then Written.endElement name :: bodyWritten rest
    else bodyWritten rest
  | _ :: rest => bodyWritten rest

/-- Whether the tokens are the content of an element of a well-formed document:
every end tag closes the innermost element open, given in `opened`, and all elements
are closed at the end; no element is named `body`. -/
def wellNested : List String → List Token → Bool
  | opened, [] => opened.isEmpty
  | opened, Token.startElement name _ :: rest => name != "body" && wellNested (name :: opened) rest
  | [], Token.endElement _ :: _ => false
  | top :: opened, Token.endElement name :: rest =>
    name == top && name != "body" && wellNested opened rest
  | _, Token.endDocument :: _ => false
  | _, Token.invalid :: _ => false
  | opened, _ :: rest => wellNested opened rest

/-- Whether a token can stand before the opening tag of the body in a well-formed
document: it is no tag of an element named `body` and does not end the document. -/
def beforeBody : Token → Bool
  | Token.startElement name _ => name != "body"
  | Token.endElement name => name != "body"
  | Token.endDocument => false
  | Token.invalid => false
  | _ => true

/-- Whether an item written is no tag, or a tag of the root `en-note` or of an element on
the allow-list. -/
def Written.tagAllowed : Written → Bool
  | Written.startElement name => name == "en-note" || supportedTags.contains name
  | Written.endElement name => name == "en-note" || supportedTags.contains name
  | _ => true

/-- A document with text and elements before, inside and after the body; the body
holds a `script` element around text and an allow-listed child. -/
def sampleTokens : List Token :=
  [Token.startDocument, Token.startElement "html" [], Token.startElement "head" [],
   Token.startElement "b" [], Token.characters "title", Token.endElement "b",
   Token.endElement "head",
   Token.startElement "body" [{ name := "class", value := "x" }],
   Token.startElement "p" [{ name := "style", value := "color:red" }],
   Token.characters "Hello ",
   Token.startElement "script" [], Token.characters "alert(1)",
   Token.startElement "b" [], Token.characters "bold", Token.endElement "b",
   Token.endElement "script", Token.endElement "p",
   Token.endElement "body", Token.characters "after", Token.endElement "html",
   Token.endDocument]

/-- A file system holding the cache file of the note `g`. -/
def cachedFS : FS :=
  emptyFS.put "/store/note-g.enml" (FileData.text "<en-note>kept</en-note>")

/-- The note `g` constructed while its cache file exists; it is not loaded yet. -/
def cachedNote : Note := (Note.new sampleEnv cachedFS "g" 0).1

/-- The note `g` after its content was loaded from the cache file. -/
def loadedNote : Note := (cachedNote.load sampleEnv cachedFS false).1

/-- The loaded note with a resource whose payload is not cached. -/
def uncachedNote : Note :=
  (loadedNote.addResource cachedFS "0a1b" "a.png" "image/png" []).1

/-- The file system `cachedFS` with a cache file for the guid `h` as well. -/
def crowdedFS : FS := cachedFS.put "/store/note-h.enml" (FileData.text "<en-note>other</en-note>")

/-- The sample environment on a file system on which no file can be opened for
reading. -/
def lockedEnv : Env := { sampleEnv with canOpenRead := fun _ => false }

/-- The members of a note after `setGuid` renamed its cache file: the new guid and the
two paths of the new guid. -/
def Note.regrouped (env : Env) (n : Note) (guid : String) : Note :=
  { n with m_guid := guid, m_cacheFile := cacheFilePath env guid,
           m_infoFile := infoFilePath env guid }

/-! ## Resources as objects

`m_resources` holds pointers. To tell what a call on one note does to the resources
of another, the `Resource` objects are placed on a heap and the map holds their
addresses. -/

/-- The `Resource` objects allocated so far; the address of an object is its index. -/
abbrev ResourceHeap := List Resource

/-- `QHash<QString, Resource*>`, the pointers written as addresses. -/
abbrev PointerMap := List (String × Nat)

namespace PointerMap

/-- `QHash::contains`. -/
def contains (m : PointerMap) (k : String) : Bool := m.any (fun e => e.1 == k)

/-- `QHash::value`. -/
def value (m : PointerMap) (k : String) : Option Nat := m.lookup k

/-- The objects the pointers of the map lead to: for every key the resource found at
its address, `none` for a dangling pointer. -/
def objects (heap : ResourceHeap) (m : PointerMap) : List (String × Option Resource) :=
  m.map (fun e => (e.1, heap[e.2]?))

/-- The map with the resources in place of the pointers. -/
def deref (heap : ResourceHeap) (m : PointerMap) : ResourceMap :=
  m.filterMap (fun e => (heap[e.2]?).map (fun r => (e.1, r)))

end PointerMap

/-- The call `resource->setData(data)` through the pointer `a`. -/
def ResourceHeap.setData (heap : ResourceHeap) (a : Nat) (data : QByteArray) : ResourceHeap :=
  match heap[a]? with
  | some r => heap.set a (r.setData data)
  | none => heap

/-- What `Note::addResource` does to the heap and to the map of the note: it writes
through the pointer the map holds for the hash, or allocates a new `Resource` and
inserts its address. -/
def addResourceOnHeap (s : ResourceHeap × PointerMap) (hash fileName type : String)
    (data : QByteArray) : ResourceHeap × PointerMap :=
  if s.2.contains hash then
    (if !data.isEmpty then
      match s.2.value hash with
      | some a => s.1.setData a data
      | none => s.1
     else s.1, s.2)
  else
    (s.1 ++ [{ hash := hash, fileName := fileName, type := type, data := data }],
     s.2 ++ [(hash, s.1.length)])

/-- The arguments of a call of `addResource`. -/
structure ResourceCall where
  hash : String
  fileName : String
  type : String
  data : QByteArray
deriving DecidableEq, Repr

/-- A sequence of `addResource` calls on one note, first call first. -/
def addResourcesOnHeap (calls : List ResourceCall) (s : ResourceHeap × PointerMap) :
    ResourceHeap × PointerMap :=
  calls.foldl (fun s c => addResourceOnHeap s c.hash c.fileName c.type c.data) s

/-- What `Note::addResource` does to `m_resources`. -/
def ResourceMap.addResource (m : ResourceMap) (hash fileName type : String)
    (data : QByteArray) : ResourceMap :=
  if m.contains hash then
    (if !data.isEmpty then m.modify hash (fun r => r.setData data) else m)
  else m.insert hash { hash := hash, fileName := fileName, type := type, data := data }

/-- A sequence of `addResource` calls, seen on `m_resources`. -/
def ResourceMap.addResources (calls : List ResourceCall) (m : ResourceMap) : ResourceMap :=
  calls.foldl (fun m c => m.addResource c.hash c.fileName c.type c.data) m

/-- The pointers are valid and no two entries of the map share a key or an address. -/
def HeapInv (s : ResourceHeap × PointerMap) : Prop :=
  (∀ e ∈ s.2, e.2 < s.1.length) ∧ (s.2.map Prod.fst).Nodup ∧ (s.2.map Prod.snd).Nodup

/-- A heap with two resources and the map of a note that holds both. -/
def sampleHeap : ResourceHeap :=
  [{ hash := "0a1b", fileName := "a.png", type := "image/png", data := [1, 2] },
   { hash := "7f3c", fileName := "b.png", type := "image/png", data := [] }]

/-- The map of the note that owns the resources of `sampleHeap`. -/
def samplePointers : PointerMap := [("0a1b", 0), ("7f3c", 1)]

/-- A note whose resources are the objects of `sampleHeap`. -/
def heapNote : Note :=
  { sampleNote with m_resources := PointerMap.deref sampleHeap samplePointers }

/-- The resources of `b` are those of `a` after some calls of `addResource`. -/
def GrowsBy (a b : Note) : Prop :=
  ∃ calls : List ResourceCall, b.m_resources = ResourceMap.addResources calls a.m_resources

/-! ## Notifications of the store -/

/-- `QStringList::indexOf`: the position of the first occurrence of `s`, -1 when there
is none. -/
def indexOf : List String → String → Int
  | [], _ => -1
  | x :: rest, s => if x = s then 0 else if indexOf rest s = -1 then -1 else indexOf rest s + 1

/-- `QList::replace(i, value)`. -/
def replace (l : List String) (i : Int) (value : String) : List String := l.set i.toNat value

namespace Note

/-- `Note::slotNotebookGuidChanged`. -/
def slotNotebookGuidChanged (n : Note) (oldGuid newGuid : String) : Note :=
  if n.m_notebookGuid == oldGuid then
    { n with m_notebookGuid := newGuid }.emit Signal.notebookGuidChanged
  else n

/-- `Note::slotTagGuidChanged`. -/
def slotTagGuidChanged (n : Note) (oldGuid newGuid : String) : Note :=
  let idx := indexOf n.m_tagGuids oldGuid
  if idx != -1 then
    { n with m_tagGuids := replace n.m_tagGuids idx newGuid }.emit Signal.tagGuidsChanged
  else n

end Note

/-! ## Tokens copied and tokens read -/

/-- What the writer is asked to write when a token is copied as it is: a start tag
with its attributes, a text run, an end tag. -/
def Token.copied : Token → List Written
  | Token.startElement name attributes =>
    [Written.startElement name, Written.attributes attributes]
  | Token.characters text => [Written.characters text]
  | Token.endElement name => [Written.endElement name]
  | _ => []

/-- Whether the tokens are tags of allow-listed elements and text runs only. -/
def onlyAllowed : List Token → Bool
  | [] => true
  | Token.startElement name _ :: rest => supportedTags.contains name && onlyAllowed rest
  | Token.endElement name :: rest => supportedTags.contains name && onlyAllowed rest
  | Token.characters _ :: rest => onlyAllowed rest
  | _ :: _ => false

/-- The tokens a reader finds in what was written: a start tag with the attributes
written after it, text runs and end tags. -/
def tokensOf : List Written → List Token
  | [] => []
  | Written.startElement name :: Written.attributes attributes :: rest =>
    Token.startElement name attributes :: tokensOf rest
  | Written.startElement name :: rest => Token.startElement name [] :: tokensOf rest
  | Written.characters text :: rest => Token.characters text :: tokensOf rest
  | Written.endElement name :: rest => Token.endElement name :: tokensOf rest
  | _ :: rest => tokensOf rest

/-- Whether the tokens are what `QXmlStreamReader` delivers for some input string, well
formed or not: every end tag closes the innermost element open (given in `opened`),
since the reader reports a tag that does not match as an error, and no token follows
an error or the end of the document. -/
def readerTokens : List String → List Token → Bool
  | _, [] => true
  | opened, Token.startElement name _ :: rest => readerTokens (name :: opened) rest
  | [], Token.endElement _ :: _ => false
  | top :: opened, Token.endElement name :: rest => name == top && readerTokens opened rest
  | _, Token.endDocument :: rest => rest.isEmpty
  | _, Token.invalid :: rest => rest.isEmpty
  | opened, _ :: rest => readerTokens opened rest

/-- The elements open after the items `w`, written while the elements `opened` were
open (innermost first): every end tag closes the innermost element open, and nothing
is written once the last element is closed. `none` when that fails. -/
def scan : List String → List Written → Option (List String)
  | opened, [] => some opened
  | [], _ :: _ => none
  | top :: opened, Written.endElement name :: rest =>
    if name = top then scan opened rest else none
  | top :: opened, Written.startElement name :: rest => scan (name :: top :: opened) rest
  | top :: opened, _ :: rest => scan (top :: opened) rest

/-- Whether the items written after the header are nothing at all, or one root
element, named `root`, with balanced and properly nested tags. -/
def singleRoot (root : String) : List Written → Bool
  | [] => true
  | Written.startElement name :: rest => name == root && scan [name] rest == some []
  | _ :: _ => false

/-- Whether a start tag of an element named `body` is among the tokens. -/
def hasBody : List Token → Bool
  | [] => false
  | Token.startElement name _ :: rest => name == "body" || hasBody rest
  | _ :: rest => hasBody rest

/-- The content of a body that holds allow-listed elements and text only. -/
def allowedBody : List Token :=
  [Token.startElement "p" [{ name := "style", value := "color:red" }],
   Token.characters "Hello ",
   Token.startElement "b" [], Token.characters "bold", Token.endElement "b",
   Token.startElement "br" [], Token.endElement "br",
   Token.endElement "p"]

/-- A body in which another element named `body` is nested, followed by an
allow-listed element and text. -/
def nestedBodyTokens : List Token :=
  [Token.startDocument, Token.startElement "html" [], Token.startElement "body" [],
   Token.characters "one ",
   Token.startElement "body" [], Token.characters "two ", Token.endElement "body",
   Token.startElement "b" [], Token.characters "three", Token.endElement "b",
   Token.characters " four",
   Token.endElement "body", Token.endElement "html", Token.endDocument]

/-! ## What the info file holds -/

/-- The keys `syncToInfoFile` writes, with the values it writes for the note, in the
order of the calls of `setValue`. -/
def Note.infoEntries (n : Note) : List (String × QVariant) :=
  [("created", QVariant.dateTime n.m_created), ("title", QVariant.string n.m_title),
   ("updated", QVariant.dateTime n.m_updated),
   ("needsContentSync", QVariant.bool n.m_needsContentSync),
   ("notebookGuid", QVariant.string n.m_notebookGuid),
   ("tagGuids", QVariant.stringList n.m_tagGuids),
   ("reminderOrder", QVariant.longlong n.m_reminderOrder),
   ("reminderTime", QVariant.dateTime n.m_reminderTime),
   ("reminderDoneTime", QVariant.dateTime n.m_reminderDoneTime),
   ("deleted", QVariant.bool n.m_deleted),
   ("lastSyncedSequenceNumber", QVariant.int n.m_lastSyncedSequenceNumber)]

/-- The info-file path the constructor leaves for a guid: the call of `setGuid` in the
constructor does nothing for the empty guid. -/
def constructedInfoFile (env : Env) (guid : String) : String :=
  if guid = "" then "" else infoFilePath env guid

/-- What `QSettings` finds for a value once the file has been written and is parsed
again, as in a later run of the application: `IniFormat` keeps a number or a boolean as
its text, a string list of one entry as that entry and an empty list as an invalid
value; a date-time is written in a form that is read back as the date-time. -/
def QVariant.reread (env : Env) : QVariant → QVariant
  | QVariant.bool b => QVariant.string ((QVariant.bool b).toString env)
  | QVariant.int i => QVariant.string ((QVariant.int i).toString env)
  | QVariant.longlong i => QVariant.string ((QVariant.longlong i).toString env)
  | QVariant.stringList [] => QVariant.invalid
  | QVariant.stringList [s] => QVariant.string s
  | v => v

/-- The file as it is parsed again. -/
def FileData.reread (env : Env) : FileData → FileData
  | FileData.settings kv => FileData.settings (kv.map (fun e => (e.1, e.2.reread env)))
  | d => d

/-- The file system as a later run of the application finds it. -/
def FS.reread (env : Env) (fs : FS) : FS := fun p => (fs p).map (FileData.reread env)

/-- `QString::toUInt` and `QString::toULongLong` on the text of a number: the value of
a sequence of decimal digits, and 0, the result of a failed conversion, for any other
text, a text with a minus sign included. -/
def parseUnsigned (s : String) : Nat :=
  if s.data.all Char.isDigit && !s.data.isEmpty then
    s.data.foldl (fun acc c => 10 * acc + (c.toNat - 48)) 0
  else 0

/-- The sample environment with the conversions of `QString` to unsigned numbers. -/
def qtEnv : Env :=
  { sampleEnv with stringToUInt := parseUnsigned, stringToULongLong := parseUnsigned }

/-- The sample note after the store has set a negative reminder order and a negative
last synced sequence number. -/
def negativeNote : Note :=
  (sampleNote.setReminderOrder (-5)).setLastSyncedSequenceNumber (-3)

/-- The file system after a resource was added to the sample note. -/
def resourceFS : FS := (sampleNote.addResource emptyFS "0a1b" "a.png" "image/png" [1, 2]).2

/-- The sample note with its resource after its guid was changed to `h`, and the file
system then. -/
def renamedNote : Note × FS := noteWithResource.setGuid sampleEnv resourceFS "h"

/-- The sample note holding a source that ends with a line break. -/
def spacedNote : Note := sampleNote.setEnmlContent sampleEnv "<en-note>kept</en-note>\n"

/-! ## Paths of a note -/

/-- The paths a note holds are those the constructor and `setGuid` assign: the cache
file is the cache file of some guid, the info file that of some guid or not set. -/
def PathsInv (env : Env) (n : Note) : Prop :=
  (∃ g, n.m_cacheFile = cacheFilePath env g) ∧
  (n.m_infoFile = "" ∨ ∃ g, n.m_infoFile = infoFilePath env g)

/-! ## Invariants and frames -/

/-- The note `b` differs from `a` at most in its resources and in its signal log. -/
def ResourcesOnly (a b : Note) : Prop :=
  ∃ rs em, b = { a with m_resources := rs, emitted := em }

/-- The synced flag agrees with the two sequence numbers. -/
def SyncedInv (n : Note) : Prop :=
  n.m_synced = decide (n.m_updateSequenceNumber = n.m_lastSyncedSequenceNumber)

/-- The tagline is the first 100 characters of the plaintext of the content. -/
def TaglineInv (env : Env) (n : Note) : Prop :=
  n.m_tagline = left (env.toPlaintext n.m_content) 100

/-- The members no setter called by `clone()` assigns are the same in `b` as in `a`,
and `b` is loaded when `a` is. -/
def CloneFrame (a b : Note) : Prop :=
  b.m_guid = a.m_guid ∧ b.m_lastSyncedSequenceNumber = a.m_lastSyncedSequenceNumber ∧
  b.m_cacheFile = a.m_cacheFile ∧ b.m_infoFile = a.m_infoFile ∧ b.m_loading = a.m_loading ∧
  b.m_syncError = a.m_syncError ∧ b.m_conflicting = a.m_conflicting ∧
  b.m_conflictingNote = a.m_conflictingNote ∧
  b.m_content.renderWidth = a.m_content.renderWidth ∧
  (a.m_loaded = true → b.m_loaded = true)

/-- All tags written and all elements open are the root or on the allow-list. -/
def TagsAllowed (c : Converter) : Prop :=
  (∀ w ∈ c.written, w.tagAllowed = true) ∧
  (∀ n ∈ c.openTags, n = "en-note" ∨ n ∈ supportedTags)

/-- The converter is inside the body, `opened` being the elements the reader has
open: the writer has written the header, the root `en-note` and items `w` that leave
open, inside `en-note`, the allow-listed elements opened since the body began. -/
def InBody (c : Converter) (opened : List String) : Prop :=
  c.isBody = true ∧ ∃ (w : List Written) (inner outer : List String),
    c.written = Converter.start.written ++ Written.startElement "en-note" :: w ∧
    scan ["en-note"] w = some c.openTags ∧ opened = inner ++ "body" :: outer ∧
    c.openTags = inner.filter (fun n => supportedTags.contains n) ++ ["en-note"]

/-- The converter has not reached the body: nothing but the header is written. -/
def BeforeBody (c : Converter) (opened : List String) : Prop :=
  c.isBody = false ∧ c.written = Converter.start.written ∧ c.openTags = [] ∧ "body" ∉ opened

/-- The output of the converter left in the state `d` is the header and one complete
element `en-note`. -/
def Rooted (d : Converter) : Prop :=
  ∃ w : List Written,
    d.writeEndDocument.written = Converter.start.written ++ Written.startElement "en-note" :: w ∧
    scan ["en-note"] w = some []

/-- The note `b` has the members of `a` apart from the content, the tagline and the
signal log: the sync state, the sequence numbers, the resources, the metadata and the
members the store manages are the same. -/
def ContentEditFrame (a b : Note) : Prop :=
  b.needsContentSync = a.needsContentSync ∧ b.loaded = a.loaded ∧ b.synced = a.synced ∧
  b.updateSequenceNumber = a.updateSequenceNumber ∧
  b.lastSyncedSequenceNumber = a.lastSyncedSequenceNumber ∧
  b.m_resources = a.m_resources ∧ b.guid = a.guid ∧ b.notebookGuid = a.notebookGuid ∧
  b.created = a.created ∧ b.updated = a.updated ∧ b.title = a.title ∧
  b.tagGuids = a.tagGuids ∧ b.reminderOrder = a.reminderOrder ∧
  b.reminderTime = a.reminderTime ∧ b.reminderDoneTime = a.reminderDoneTime ∧
  b.deleted = a.deleted ∧ b.isSearchResult = a.isSearchResult ∧
  b.m_cacheFile = a.m_cacheFile ∧ b.m_infoFile = a.m_infoFile ∧ b.loading = a.loading ∧
  b.syncError = a.syncError ∧ b.conflicting = a.conflicting ∧
  b.conflictingNote = a.conflictingNote

/-! ## Lemmas -/

theorem resourcesOnly_refl (a : Note) : ResourcesOnly a a := ⟨a.m_resources, a.emitted, rfl⟩

theorem resourcesOnly_trans {a b c : Note} (h1 : ResourcesOnly a b) (h2 : ResourcesOnly b c) :
    ResourcesOnly a c := by
  obtain ⟨rs, em, rfl⟩ := h1
  obtain ⟨rs2, em2, rfl⟩ := h2
  exact ⟨rs2, em2, rfl⟩

theorem addResource_frame (fs : FS) (n : Note) (hash fileName type : String)
    (data : QByteArray) :
    ResourcesOnly n (Note.addResource fs n hash fileName type data).1 := by
  unfold Note.addResource
  by_cases hc : ResourceMap.contains n.m_resources hash = true
  · by_cases hd : data.isEmpty = true
    · exact ⟨n.m_resources, n.emitted ++ [Signal.resourcesChanged] ++ [Signal.contentChanged],
        by simp [hc, hd, Note.emit]⟩
    · exact ⟨n.m_resources.modify hash (fun r => r.setData data),
        n.emitted ++ [Signal.resourcesChanged] ++ [Signal.contentChanged],
        by simp [hc, hd, Note.emit]⟩
  · exact ⟨n.m_resources.insert hash ⟨hash, fileName, type, data⟩,
      n.emitted ++ [Signal.resourcesChanged] ++ [Signal.contentChanged],
      by simp [hc, Note.emit]⟩

theorem foldl_frame {α : Type} (f : Note × FS → α → Note × FS)
    (hf : ∀ s x, ResourcesOnly s.1 (f s x).1) (l : List α) (s : Note × FS) :
    ResourcesOnly s.1 (l.foldl f s).1 := by
  induction l generalizing s with
  | nil => exact resourcesOnly_refl s.1
  | cons x rest ih => exact resourcesOnly_trans (hf s x) (ih (f s x))

theorem addStoredResources_frame (env : Env) (hashes : List String) (s : Note × FS) :
    ResourcesOnly s.1 (Note.addStoredResources env hashes s).1 :=
  foldl_frame (Note.addStoredResource env)
    (fun s h => addResource_frame s.2 s.1 h _ _ []) hashes s

theorem cloneResources_frame (rl : List Resource) (s : Note × FS) :
    ResourcesOnly s.1 (Note.cloneResources rl s).1 :=
  foldl_frame Note.cloneResource
    (fun s r => addResource_frame s.2 s.1 r.hash r.fileName r.type r.data) rl s

theorem new_syncedInv (env : Env) (fs : FS) (guid : String) (usn : Nat) :
    SyncedInv (Note.new env fs guid usn).1 := by
  unfold Note.new
  obtain ⟨rs, em, h⟩ := addStoredResources_frame env
    (childGroups (Note.setGuid env fs (Note.initial usn) guid).2
      (Note.setGuid env fs (Note.initial usn) guid).1.m_infoFile "resources")
    _
  simp only [] at h ⊢
  rw [h]
  simp [SyncedInv, eq_comm]

theorem setUpdateSequenceNumber_syncedInv (n : Note) (v : Int) (h : SyncedInv n) :
    SyncedInv (n.setUpdateSequenceNumber v) := by
  unfold Note.setUpdateSequenceNumber
  by_cases hv : n.m_updateSequenceNumber = v
  · simpa [hv] using h
  · by_cases hs : n.m_lastSyncedSequenceNumber = v
    · simp [hv, hs, SyncedInv, Note.emit]
    · have hs2 : ¬ v = n.m_lastSyncedSequenceNumber := fun e => hs e.symm
      simp [hv, hs2, SyncedInv, Note.emit]

theorem setLastSyncedSequenceNumber_syncedInv (n : Note) (v : Int) (h : SyncedInv n) :
    SyncedInv (n.setLastSyncedSequenceNumber v) := by
  unfold Note.setLastSyncedSequenceNumber
  by_cases hv : n.m_lastSyncedSequenceNumber = v
  · simpa [hv] using h
  · by_cases hs : n.m_updateSequenceNumber = v
    · simp [hv, hs, SyncedInv, Note.emit]
    · simp [hv, hs, SyncedInv, Note.emit]

theorem runSeqCalls_syncedInv (calls : List SeqCall) (n : Note) (h : SyncedInv n) :
    SyncedInv (runSeqCalls n calls) := by
  induction calls generalizing n with
  | nil => exact h
  | cons c rest ih =>
    cases c with
    | setUpdateSequenceNumber v => exact ih _ (setUpdateSequenceNumber_syncedInv n v h)
    | setLastSyncedSequenceNumber v => exact ih _ (setLastSyncedSequenceNumber_syncedInv n v h)

theorem left_length (s : String) (k : Nat) : (left s k).length = min k s.length := by
  show (s.data.take k).length = min k s.data.length
  exact List.length_take k s.data

theorem left_of_length_le (s : String) (k : Nat) (h : s.length ≤ k) : left s k = s := by
  unfold left
  rw [List.take_of_length_le h]

theorem ContentCall.run_taglineInv (env : Env) (n : Note) (c : ContentCall)
    (h : TaglineInv env n) : TaglineInv env (c.run env n) := by
  cases c with
  | setEnmlContent e =>
    simp only [ContentCall.run, Note.setEnmlContent]
    by_cases he : n.m_content.enml = e
    · simpa [he, TaglineInv] using h
    · by_cases hl : n.m_loaded = true <;> simp [he, hl, TaglineInv, Note.emit]
  | setRichTextContent t =>
    simp only [ContentCall.run, Note.setRichTextContent]
    by_cases he : env.toRichText n.m_content n.m_guid = t
    · simpa [he, TaglineInv] using h
    · simp [he, TaglineInv, Note.emit]
  | insertText p t => simp [ContentCall.run, Note.insertText, TaglineInv, Note.emit]
  | insertLink p u => simp [ContentCall.run, Note.insertLink, TaglineInv, Note.emit]

theorem runContentCalls_taglineInv (env : Env) (calls : List ContentCall) (n : Note)
    (h : TaglineInv env n) : TaglineInv env (runContentCalls env n calls) := by
  induction calls generalizing n with
  | nil => exact h
  | cons c rest ih => exact ih _ (ContentCall.run_taglineInv env n c h)

/-! ### Resource map -/

theorem ResourceMap.contains_eq_isSome (m : ResourceMap) (k : String) :
    m.contains k = (m.value k).isSome := by
  induction m with
  | nil => rfl
  | cons e rest ih =>
    obtain ⟨a, b⟩ := e
    have ih2 : rest.any (fun e => e.1 == k) = (List.lookup k rest).isSome := ih
    show ((a, b) :: rest).any (fun e => e.1 == k) = (List.lookup k ((a, b) :: rest)).isSome
    rw [List.lookup_cons, List.any_cons, ih2]
    by_cases h : k = a
    · subst h; simp
    · have h1 : (k == a) = false := by simpa using h
      have h2 : (a == k) = false := by simpa using (fun e : a = k => h e.symm)
      simp [h1, h2]

theorem ResourceMap.value_modify (m : ResourceMap) (k : String) (f : Resource → Resource) :
    (m.modify k f).value k = (m.value k).map f := by
  induction m with
  | nil => rfl
  | cons e rest ih =>
    obtain ⟨a, b⟩ := e
    have ih2 : List.lookup k (rest.map (fun e => if e.1 = k then (e.1, f e.2) else e))
        = (List.lookup k rest).map f := ih
    show List.lookup k (((a, b) :: rest).map (fun e => if e.1 = k then (e.1, f e.2) else e))
        = (List.lookup k ((a, b) :: rest)).map f
    rw [List.map_cons, List.lookup_cons, List.lookup_cons, ih2]
    by_cases h : k = a
    · subst h; simp
    · have h1 : (k == a) = false := by simpa using h
      have h2 : ¬ a = k := fun e => h e.symm
      simp [h1, h2]

theorem ResourceMap.value_append_new (m : ResourceMap) (k : String) (r : Resource)
    (h : m.value k = none) : ResourceMap.value (m ++ [(k, r)]) k = some r := by
  induction m with
  | nil => simp [ResourceMap.value, List.lookup_cons]
  | cons e rest ih =>
    obtain ⟨a, b⟩ := e
    have h0 : List.lookup k ((a, b) :: rest) = none := h
    rw [List.lookup_cons] at h0
    show List.lookup k ((a, b) :: (rest ++ [(k, r)])) = some r
    rw [List.lookup_cons]
    by_cases h1 : k = a
    · subst h1; simp at h0
    · have h2 : (k == a) = false := by simpa using h1
      rw [h2] at h0 ⊢
      exact ih h0

/-! ### The setters as record updates -/

theorem setCreated_eq (n : Note) (v : QDateTime) :
    ∃ em, n.setCreated v = { n with m_created := v, emitted := em } := by
  unfold Note.setCreated
  by_cases h : n.m_created = v
  · exact ⟨n.emitted, by subst h; simp⟩
  · exact ⟨n.emitted ++ [Signal.createdChanged], by simp [h, Note.emit]⟩

theorem setNotebookGuid_eq (n : Note) (v : String) :
    ∃ em, n.setNotebookGuid v = { n with m_notebookGuid := v, emitted := em } := by
  unfold Note.setNotebookGuid
  by_cases h : n.m_notebookGuid = v
  · exact ⟨n.emitted, by subst h; simp⟩
  · exact ⟨n.emitted ++ [Signal.notebookGuidChanged], by simp [h, Note.emit]⟩

theorem setTitle_eq (n : Note) (v : String) :
    ∃ em, n.setTitle v = { n with m_title := v, emitted := em } := by
  unfold Note.setTitle
  by_cases h : n.m_title = v
  · exact ⟨n.emitted, by subst h; simp⟩
  · exact ⟨n.emitted ++ [Signal.titleChanged], by simp [h, Note.emit]⟩

theorem setUpdated_eq (n : Note) (v : QDateTime) :
    ∃ em, n.setUpdated v = { n with m_updated := v, emitted := em } := by
  unfold Note.setUpdated
  by_cases h : n.m_updated = v
  · exact ⟨n.emitted, by subst h; simp⟩
  · exact ⟨n.emitted ++ [Signal.updatedChanged], by simp [h, Note.emit]⟩

theorem setReminderOrder_eq (n : Note) (v : Int) :
    ∃ em, n.setReminderOrder v = { n with m_reminderOrder := v, emitted := em } := by
  unfold Note.setReminderOrder
  by_cases h : n.m_reminderOrder = v
  · exact ⟨n.emitted, by subst h; simp⟩
  · exact ⟨n.emitted ++ [Signal.reminderChanged], by simp [h, Note.emit]⟩

theorem setReminderTime_eq (n : Note) (v : QDateTime) :
    ∃ em, n.setReminderTime v = { n with m_reminderTime := v, emitted := em } := by
  unfold Note.setReminderTime
  by_cases h : n.m_reminderTime = v
  · exact ⟨n.emitted, by subst h; simp⟩
  · exact ⟨n.emitted ++ [Signal.reminderTimeChanged], by simp [h, Note.emit]⟩

theorem setReminderDoneTime_eq (n : Note) (v : QDateTime) :
    ∃ em, n.setReminderDoneTime v = { n with m_reminderDoneTime := v, emitted := em } := by
  unfold Note.setReminderDoneTime
  by_cases h : n.m_reminderDoneTime = v
  · exact ⟨n.emitted, by subst h; simp⟩
  · exact ⟨n.emitted ++ [Signal.reminderDoneChanged], by simp [h, Note.emit]⟩

theorem setIsSearchResult_eq (n : Note) (v : Bool) :
    ∃ em, n.setIsSearchResult v = { n with m_isSearchResult := v, emitted := em } := by
  unfold Note.setIsSearchResult
  by_cases h : n.m_isSearchResult = v
  · exact ⟨n.emitted, by subst h; simp⟩
  · exact ⟨n.emitted ++ [Signal.isSearchResultChanged], by simp [h, Note.emit]⟩

theorem setTagGuids_eq (n : Note) (v : List String) :
    ∃ em, n.setTagGuids v = { n with m_tagGuids := v, emitted := em } := by
  unfold Note.setTagGuids
  by_cases h : n.m_tagGuids = v
  · exact ⟨n.emitted, by subst h; simp⟩
  · exact ⟨n.emitted ++ [Signal.tagGuidsChanged], by simp [h, Note.emit]⟩

theorem setDeleted_eq (n : Note) (v : Bool) :
    ∃ em, n.setDeleted v = { n with m_deleted := v, emitted := em } := by
  unfold Note.setDeleted
  by_cases h : n.m_deleted = v
  · exact ⟨n.emitted, by subst h; simp⟩
  · exact ⟨n.emitted ++ [Signal.deletedChanged], by simp [h, Note.emit]⟩

theorem setUpdateSequenceNumber_eq (n : Note) (v : Int) :
    ∃ sy ncs em, n.setUpdateSequenceNumber v
      = { n with m_updateSequenceNumber := v, m_synced := sy, m_needsContentSync := ncs,
                 emitted := em } := by
  unfold Note.setUpdateSequenceNumber
  by_cases h : n.m_updateSequenceNumber = v
  · exact ⟨n.m_synced, n.m_needsContentSync, n.emitted, by subst h; simp⟩
  · by_cases hs : n.m_lastSyncedSequenceNumber = v
    · exact ⟨true, false, n.emitted ++ [Signal.syncedChanged], by simp [h, hs, Note.emit]⟩
    · have hs2 : ¬ v = n.m_lastSyncedSequenceNumber := fun e => hs e.symm
      exact ⟨false, n.m_needsContentSync, n.emitted ++ [Signal.syncedChanged],
        by simp [h, hs2, Note.emit]⟩

theorem setEnmlContent_eq (env : Env) (n : Note) (e : String) :
    ∃ tl ncs em, n.setEnmlContent env e
      = { n with m_content := n.m_content.setEnml e, m_tagline := tl,
                 m_needsContentSync := ncs, m_loaded := true, emitted := em } := by
  unfold Note.setEnmlContent
  by_cases h : n.m_content.enml = e
  · exact ⟨n.m_tagline, n.m_needsContentSync, n.emitted,
      by subst h; simp [EnmlDocument.setEnml]⟩
  · by_cases hl : n.m_loaded = true
    · exact ⟨left (env.toPlaintext (n.m_content.setEnml e)) 100, true,
        n.emitted ++ [Signal.contentChanged], by simp [h, hl, Note.emit]⟩
    · exact ⟨left (env.toPlaintext (n.m_content.setEnml e)) 100, n.m_needsContentSync,
        n.emitted ++ [Signal.contentChanged], by simp [h, hl, Note.emit]⟩

theorem cloneFrame_refl (a : Note) : CloneFrame a a :=
  ⟨rfl, rfl, rfl, rfl, rfl, rfl, rfl, rfl, rfl, fun h => h⟩

theorem cloneFrame_trans {a b c : Note} (h1 : CloneFrame a b) (h2 : CloneFrame b c) :
    CloneFrame a c := by
  obtain ⟨a1, a2, a3, a4, a5, a6, a7, a8, a9, a10⟩ := h1
  obtain ⟨b1, b2, b3, b4, b5, b6, b7, b8, b9, b10⟩ := h2
  exact ⟨b1.trans a1, b2.trans a2, b3.trans a3, b4.trans a4, b5.trans a5, b6.trans a6,
    b7.trans a7, b8.trans a8, b9.trans a9, fun h => b10 (a10 h)⟩

theorem resourcesOnly_cloneFrame {a b : Note} (h : ResourcesOnly a b) : CloneFrame a b := by
  obtain ⟨rs, em, rfl⟩ := h
  exact ⟨rfl, rfl, rfl, rfl, rfl, rfl, rfl, rfl, rfl, fun h => h⟩

theorem setCreated_frame (n : Note) (v : QDateTime) : CloneFrame n (n.setCreated v) := by
  obtain ⟨em, h⟩ := setCreated_eq n v
  rw [h]; exact ⟨rfl, rfl, rfl, rfl, rfl, rfl, rfl, rfl, rfl, fun h => h⟩

theorem setNotebookGuid_frame (n : Note) (v : String) :
    CloneFrame n (n.setNotebookGuid v) := by
  obtain ⟨em, h⟩ := setNotebookGuid_eq n v
  rw [h]; exact ⟨rfl, rfl, rfl, rfl, rfl, rfl, rfl, rfl, rfl, fun h => h⟩

theorem setTitle_frame (n : Note) (v : String) : CloneFrame n (n.setTitle v) := by
  obtain ⟨em, h⟩ := setTitle_eq n v
  rw [h]; exact ⟨rfl, rfl, rfl, rfl, rfl, rfl, rfl, rfl, rfl, fun h => h⟩

theorem setUpdated_frame (n : Note) (v : QDateTime) : CloneFrame n (n.setUpdated v) := by
  obtain ⟨em, h⟩ := setUpdated_eq n v
  rw [h]; exact ⟨rfl, rfl, rfl, rfl, rfl, rfl, rfl, rfl, rfl, fun h => h⟩

theorem setReminderOrder_frame (n : Note) (v : Int) :
    CloneFrame n (n.setReminderOrder v) := by
  obtain ⟨em, h⟩ := setReminderOrder_eq n v
  rw [h]; exact ⟨rfl, rfl, rfl, rfl, rfl, rfl, rfl, rfl, rfl, fun h => h⟩

theorem setReminderTime_frame (n : Note) (v : QDateTime) :
    CloneFrame n (n.setReminderTime v) := by
  obtain ⟨em, h⟩ := setReminderTime_eq n v
  rw [h]; exact ⟨rfl, rfl, rfl, rfl, rfl, rfl, rfl, rfl, rfl, fun h => h⟩

theorem setReminderDoneTime_frame (n : Note) (v : QDateTime) :
    CloneFrame n (n.setReminderDoneTime v) := by
  obtain ⟨em, h⟩ := setReminderDoneTime_eq n v
  rw [h]; exact ⟨rfl, rfl, rfl, rfl, rfl, rfl, rfl, rfl, rfl, fun h => h⟩

theorem setIsSearchResult_frame (n : Note) (v : Bool) :
    CloneFrame n (n.setIsSearchResult v) := by
  obtain ⟨em, h⟩ := setIsSearchResult_eq n v
  rw [h]; exact ⟨rfl, rfl, rfl, rfl, rfl, rfl, rfl, rfl, rfl, fun h => h⟩

theorem setTagGuids_frame (n : Note) (v : List String) : CloneFrame n (n.setTagGuids v) := by
  obtain ⟨em, h⟩ := setTagGuids_eq n v
  rw [h]; exact ⟨rfl, rfl, rfl, rfl, rfl, rfl, rfl, rfl, rfl, fun h => h⟩

theorem setDeleted_frame (n : Note) (v : Bool) : CloneFrame n (n.setDeleted v) := by
  obtain ⟨em, h⟩ := setDeleted_eq n v
  rw [h]; exact ⟨rfl, rfl, rfl, rfl, rfl, rfl, rfl, rfl, rfl, fun h => h⟩

theorem setUpdateSequenceNumber_frame (n : Note) (v : Int) :
    CloneFrame n (n.setUpdateSequenceNumber v) := by
  obtain ⟨sy, ncs, em, h⟩ := setUpdateSequenceNumber_eq n v
  rw [h]; exact ⟨rfl, rfl, rfl, rfl, rfl, rfl, rfl, rfl, rfl, fun h => h⟩

theorem setEnmlContent_frame (env : Env) (n : Note) (e : String) :
    CloneFrame n (n.setEnmlContent env e) ∧ (n.setEnmlContent env e).m_loaded = true := by
  obtain ⟨tl, ncs, em, h⟩ := setEnmlContent_eq env n e
  rw [h]; exact ⟨⟨rfl, rfl, rfl, rfl, rfl, rfl, rfl, rfl, rfl, fun _ => rfl⟩, rfl⟩

/-- The clone keeps what the constructor produced in every member `clone()` does not
assign, and it is marked as loaded. -/
theorem clone_frame (env : Env) (fs : FS) (n : Note) :
    CloneFrame (Note.new env fs n.m_guid (toUInt32 n.m_updateSequenceNumber)).1
      (n.clone env fs).1 ∧ (n.clone env fs).1.m_loaded = true := by
  unfold Note.clone
  generalize (Note.new env fs n.m_guid (toUInt32 n.m_updateSequenceNumber)) = s
  obtain ⟨c0, fs0⟩ := s
  dsimp only []
  have e1 := setCreated_frame c0 n.m_created
  generalize c0.setCreated n.m_created = c1 at e1 ⊢
  have e2 := setNotebookGuid_frame c1 n.m_notebookGuid
  generalize c1.setNotebookGuid n.m_notebookGuid = c2 at e2 ⊢
  have e3 := setTitle_frame c2 n.m_title
  generalize c2.setTitle n.m_title = c3 at e3 ⊢
  have e4 := setUpdated_frame c3 n.m_updated
  generalize c3.setUpdated n.m_updated = c4 at e4 ⊢
  have e5 := setEnmlContent_frame env c4 n.m_content.enml
  generalize c4.setEnmlContent env n.m_content.enml = c5 at e5 ⊢
  have e6 := setReminderOrder_frame c5 n.m_reminderOrder
  generalize c5.setReminderOrder n.m_reminderOrder = c6 at e6 ⊢
  have e7 := setReminderTime_frame c6 n.m_reminderTime
  generalize c6.setReminderTime n.m_reminderTime = c7 at e7 ⊢
  have e8 := setReminderDoneTime_frame c7 n.m_reminderDoneTime
  generalize c7.setReminderDoneTime n.m_reminderDoneTime = c8 at e8 ⊢
  have e9 := setIsSearchResult_frame c8 n.m_isSearchResult
  generalize c8.setIsSearchResult n.m_isSearchResult = c9 at e9 ⊢
  have e10 := setTagGuids_frame c9 n.m_tagGuids
  generalize c9.setTagGuids n.m_tagGuids = c10 at e10 ⊢
  have e11 := setUpdateSequenceNumber_frame c10 n.m_updateSequenceNumber
  generalize c10.setUpdateSequenceNumber n.m_updateSequenceNumber = c11 at e11 ⊢
  have e12 := setDeleted_frame c11 n.m_deleted
  generalize c11.setDeleted n.m_deleted = c12 at e12 ⊢
  have e13 := resourcesOnly_cloneFrame (cloneResources_frame n.resources (c12, fs0))
  generalize (Note.cloneResources n.resources (c12, fs0)) = s13 at e13 ⊢
  obtain ⟨c13, fs13⟩ := s13
  have e14 : CloneFrame c13 { c13 with m_needsContentSync := n.m_needsContentSync } :=
    ⟨rfl, rfl, rfl, rfl, rfl, rfl, rfl, rfl, rfl, fun h => h⟩
  have late : CloneFrame c5 { c13 with m_needsContentSync := n.m_needsContentSync } :=
    cloneFrame_trans e6 (cloneFrame_trans e7 (cloneFrame_trans e8 (cloneFrame_trans e9
      (cloneFrame_trans e10 (cloneFrame_trans e11 (cloneFrame_trans e12
        (cloneFrame_trans e13 e14)))))))
  have early : CloneFrame c0 c5 :=
    cloneFrame_trans e1 (cloneFrame_trans e2 (cloneFrame_trans e3 (cloneFrame_trans e4 e5.1)))
  exact ⟨cloneFrame_trans early late, late.2.2.2.2.2.2.2.2.2 e5.2⟩

/-- The constructor's call of `setGuid` assigns the guid and the two file names and
leaves the file system as it is. -/
theorem setGuid_initial (env : Env) (fs : FS) (guid : String) (usn : Nat) :
    (∃ cf inf em, (Note.setGuid env fs (Note.initial usn) guid).1
      = { Note.initial usn with m_guid := guid, m_cacheFile := cf, m_infoFile := inf,
                                emitted := em }) ∧
    (Note.setGuid env fs (Note.initial usn) guid).2 = fs := by
  unfold Note.setGuid
  by_cases h : guid = ""
  · subst h
    exact ⟨⟨"", "", [], by simp [Note.initial]⟩, by simp [Note.initial]⟩
  · have h2 : ¬ "" = guid := fun e => h e.symm
    exact ⟨⟨env.storageLocation ++ "note-" ++ guid ++ ".enml",
        env.storageLocation ++ "note-" ++ guid ++ ".info", [Signal.guidChanged],
        by simp [Note.initial, h2, FS.fileExists, Note.emit]⟩,
      by simp [Note.initial, h2, FS.fileExists]⟩

/-- The members the constructor leaves at the value of its initialiser list. -/
theorem new_defaults (env : Env) (fs : FS) (guid : String) (usn : Nat) :
    (Note.new env fs guid usn).1.m_guid = guid ∧
    (Note.new env fs guid usn).1.m_loading = false ∧
    (Note.new env fs guid usn).1.m_loaded = false ∧
    (Note.new env fs guid usn).1.m_syncError = false ∧
    (Note.new env fs guid usn).1.m_conflicting = false ∧
    (Note.new env fs guid usn).1.m_conflictingNote = none ∧
    (Note.new env fs guid usn).1.m_content = EnmlDocument.empty ∧
    (Note.new env fs guid usn).1.m_updateSequenceNumber = wrapInt32 usn := by
  unfold Note.new
  obtain ⟨⟨cf, inf, em, h1⟩, _⟩ := setGuid_initial env fs guid usn
  generalize Note.setGuid env fs (Note.initial usn) guid = s at h1 ⊢
  obtain ⟨c, fs1⟩ := s
  dsimp only [] at h1 ⊢
  subst h1
  obtain ⟨rs, em2, h2⟩ := addStoredResources_frame env
    (childGroups fs1 inf "resources") _
  rw [h2]
  simp [Note.initial]

/-- The last synced sequence number of a fresh note is the one the info file holds. -/
theorem new_lastSynced (env : Env) (fs : FS) (guid : String) (usn : Nat) :
    (Note.new env fs guid usn).1.m_lastSyncedSequenceNumber
      = wrapInt32 (((fs.value (Note.new env fs guid usn).1.m_infoFile
          "lastSyncedSequenceNumber").getD (QVariant.int 0)).toUInt env) := by
  unfold Note.new
  obtain ⟨⟨cf, inf, em, h1⟩, h0⟩ := setGuid_initial env fs guid usn
  generalize Note.setGuid env fs (Note.initial usn) guid = s at h1 h0 ⊢
  obtain ⟨c, fs1⟩ := s
  dsimp only [] at h1 h0 ⊢
  subst h1 h0
  obtain ⟨rs, em2, h2⟩ := addStoredResources_frame env
    (childGroups fs1 inf "resources") _
  rw [h2]

/-! ### Paths -/

theorem string_append_data (a b : String) : (a ++ b).data = a.data ++ b.data := rfl

theorem string_ne_of_data_ne {a b : String} (h : a.data ≠ b.data) : a ≠ b :=
  fun e => h (congrArg String.data e)

theorem string_eq_of_data_eq {a b : String} (h : a.data = b.data) : a = b := by
  cases a; cases b; simp_all

theorem cacheFilePath_ne_empty (env : Env) (guid : String) : cacheFilePath env guid ≠ "" := by
  apply string_ne_of_data_ne
  simp [cacheFilePath, string_append_data]

theorem infoFilePath_ne_empty (env : Env) (guid : String) : infoFilePath env guid ≠ "" := by
  apply string_ne_of_data_ne
  simp [infoFilePath, string_append_data]

theorem cacheFilePath_ne_infoFilePath (env : Env) (a b : String) :
    cacheFilePath env a ≠ infoFilePath env b := by
  intro e
  have h := congrArg (fun s => s.data.reverse.head?) e
  simp [cacheFilePath, infoFilePath, string_append_data] at h

theorem cacheFilePath_injective (env : Env) (a b : String)
    (h : cacheFilePath env a = cacheFilePath env b) : a = b := by
  have h2 := congrArg String.data h
  simp only [cacheFilePath, string_append_data, List.append_assoc] at h2
  have h3 := List.append_cancel_left h2
  have h4 := List.append_cancel_left h3
  exact string_eq_of_data_eq (List.append_cancel_right h4)

theorem infoFilePath_injective (env : Env) (a b : String)
    (h : infoFilePath env a = infoFilePath env b) : a = b := by
  have h2 := congrArg String.data h
  simp only [infoFilePath, string_append_data, List.append_assoc] at h2
  have h3 := List.append_cancel_left h2
  have h4 := List.append_cancel_left h3
  exact string_eq_of_data_eq (List.append_cancel_right h4)

/-! ### Writes to the file system -/

theorem setValue_apply_ne (fs : FS) (p k : String) (v : QVariant) (q : String) (h : q ≠ p) :
    fs.setValue p k v q = fs q := by
  unfold FS.setValue FS.put
  by_cases hp : p = "" <;> simp [hp, h]

theorem setValue_apply_self (fs : FS) (p k : String) (v : QVariant) (hp : p ≠ "") :
    (fs.setValue p k v p).isSome = true := by
  simp [FS.setValue, FS.put, hp]

theorem syncToInfoFile_apply_ne (fs : FS) (n : Note) (q : String) (h : q ≠ n.m_infoFile) :
    n.syncToInfoFile fs q = fs q := by
  simp only [Note.syncToInfoFile, setValue_apply_ne _ _ _ _ _ h]

theorem syncToInfoFile_apply_self (fs : FS) (n : Note) (hp : n.m_infoFile ≠ "") :
    (n.syncToInfoFile fs n.m_infoFile).isSome = true := by
  simp only [Note.syncToInfoFile]
  exact setValue_apply_self _ _ _ _ hp

theorem syncToCacheFile_apply_ne (env : Env) (fs : FS) (n : Note) (q : String)
    (h1 : q ≠ n.m_infoFile) (h2 : q ≠ n.m_cacheFile) : n.syncToCacheFile env fs q = fs q := by
  unfold Note.syncToCacheFile
  by_cases hw : (n.m_cacheFile != "" && env.canOpenWrite n.m_cacheFile) = true
  · simp [hw, FS.put, h2, setValue_apply_ne _ _ _ _ _ h1]
  · simp [hw, setValue_apply_ne _ _ _ _ _ h1]

theorem syncToCacheFile_apply_cache (env : Env) (fs : FS) (n : Note)
    (h1 : n.m_cacheFile ≠ n.m_infoFile) (h2 : n.m_cacheFile ≠ "") :
    n.syncToCacheFile env fs n.m_cacheFile
      = if env.canOpenWrite n.m_cacheFile then some (FileData.text n.m_content.enml)
        else fs n.m_cacheFile := by
  unfold Note.syncToCacheFile
  by_cases hw : env.canOpenWrite n.m_cacheFile = true
  · simp [hw, h2, FS.put]
  · simp [hw, setValue_apply_ne _ _ _ _ _ h1]

theorem put_isSome (fs : FS) (p : String) (d : FileData) (q : String)
    (h : (fs q).isSome = true) : (fs.put p d q).isSome = true := by
  unfold FS.put
  by_cases hq : q = p <;> simp [hq, h]

theorem setValue_isSome (fs : FS) (p k : String) (v : QVariant) (q : String)
    (h : (fs q).isSome = true) : (fs.setValue p k v q).isSome = true := by
  unfold FS.setValue
  by_cases hp : p = ""
  · simpa [hp] using h
  · simpa [hp] using put_isSome fs p _ q h

theorem syncToCacheFile_isSome (env : Env) (fs : FS) (n : Note) (q : String)
    (h : (fs q).isSome = true) : (n.syncToCacheFile env fs q).isSome = true := by
  unfold Note.syncToCacheFile
  have h1 := setValue_isSome fs n.m_infoFile "tagline" (QVariant.string n.m_tagline) q h
  by_cases hw : (n.m_cacheFile != "" && env.canOpenWrite n.m_cacheFile) = true
  · simpa [hw] using put_isSome _ n.m_cacheFile _ q h1
  · simpa [hw] using h1

/-! ### setGuid -/

/-- The note `setGuid` leaves when the guid changes, given the name its cache file
ends up with. -/
theorem setGuid_fst (env : Env) (fs : FS) (n : Note) (guid : String) (h : n.m_guid ≠ guid) :
    ∃ cf, (n.setGuid env fs guid).1
      = { n with m_guid := guid, m_cacheFile := cf, m_infoFile := infoFilePath env guid,
                 emitted := n.emitted ++ [Signal.guidChanged] } := by
  unfold Note.setGuid
  rw [if_pos (by simpa using h)]
  dsimp only []
  split_ifs <;> exact ⟨_, rfl⟩

theorem setGuid_same (env : Env) (fs : FS) (n : Note) : n.setGuid env fs n.m_guid = (n, fs) := by
  simp [Note.setGuid]

/-- The file system after `setGuid` for a note that has an info-file path and whose
cache file is renamed. -/
theorem setGuid_snd_renamed (env : Env) (fs : FS) (n : Note) (guid : String)
    (h : n.m_guid ≠ guid) (hi : n.m_infoFile ≠ "")
    (hex : (fs.remove n.m_infoFile).fileExists n.m_cacheFile = true)
    (hfree : (fs.remove n.m_infoFile).fileExists (cacheFilePath env guid) = false) :
    n.setGuid env fs guid
      = ((n.regrouped env guid).emit Signal.guidChanged,
         Note.syncToCacheFile env (Note.syncToInfoFile
           ((fs.remove n.m_infoFile).rename n.m_cacheFile (cacheFilePath env guid)).1
           (n.regrouped env guid)) (n.regrouped env guid)) := by
  have hr : ((fs.remove n.m_infoFile).rename n.m_cacheFile (cacheFilePath env guid)).2 = true := by
    simp [FS.rename, hex, hfree, cacheFilePath_ne_empty]
  have hi2 : (n.m_infoFile != "") = true := by simpa using hi
  unfold Note.setGuid
  rw [if_pos (by simpa using h)]
  simp only [hi2, if_true]
  rw [if_pos hex]
  simp only [cacheFilePath] at hr
  simp only [hr, if_true]
  rfl

theorem setGuid_snd_synced (env : Env) (fs : FS) (n : Note) (guid : String)
    (h : n.m_guid ≠ guid) (hi : n.m_infoFile ≠ "") :
    ∃ fs1 m, (n.setGuid env fs guid).2
      = Note.syncToCacheFile env (Note.syncToInfoFile fs1 m) m ∧
      m.m_infoFile = infoFilePath env guid := by
  have hi2 : (n.m_infoFile != "") = true := by simpa using hi
  unfold Note.setGuid
  rw [if_pos (by simpa using h)]
  simp only [hi2, if_true]
  split_ifs <;> exact ⟨_, _, rfl, rfl⟩

theorem setGuid_snd_unsynced (env : Env) (fs : FS) (n : Note) (guid : String)
    (hi : n.m_infoFile = "") (hc : fs.fileExists n.m_cacheFile = false) :
    (n.setGuid env fs guid).2 = fs := by
  unfold Note.setGuid
  by_cases h : n.m_guid = guid
  · simp [h]
  · simp [h, hi, hc]

theorem new_paths (env : Env) (fs : FS) (guid : String) (usn : Nat) :
    (Note.new env fs guid usn).1.m_cacheFile = cacheFilePath env guid ∧
    (Note.new env fs guid usn).1.m_infoFile
      = (if guid = "" then "" else infoFilePath env guid) := by
  have hinf : (Note.setGuid env fs (Note.initial usn) guid).1.m_infoFile
      = (if guid = "" then "" else infoFilePath env guid) := by
    by_cases hg : guid = ""
    · subst hg
      have := setGuid_same env fs (Note.initial usn)
      have h0 : (Note.initial usn).m_guid = "" := rfl
      rw [h0] at this
      rw [this]
      rfl
    · have h0 : (Note.initial usn).m_guid ≠ guid := fun e => hg e.symm
      obtain ⟨cf, h1⟩ := setGuid_fst env fs (Note.initial usn) guid h0
      rw [h1]
      simp [hg]
  unfold Note.new
  generalize Note.setGuid env fs (Note.initial usn) guid = s at hinf ⊢
  obtain ⟨c, fs1⟩ := s
  dsimp only [] at hinf ⊢
  obtain ⟨rs, em2, h2⟩ := addStoredResources_frame env
    (childGroups fs1 c.m_infoFile "resources") _
  rw [h2]
  exact ⟨rfl, hinf⟩

theorem fileExists_remove_ne (fs : FS) (p q : String) (h : q ≠ p) :
    (fs.remove p).fileExists q = fs.fileExists q := by
  simp [FS.fileExists, FS.remove, h]

/-! ### load -/

theorem loadResources_nil_iff (env : Env) (fs : FS) (guid : String) (priorityHigh : Bool)
    (rs : List Resource) :
    (Note.loadResources env fs guid priorityHigh rs = [] ↔
        ∀ r ∈ rs, env.resourceIsCached fs r = true) ∧
    (Note.loadResources env fs guid priorityHigh rs = [] ∨
      Note.loadResources env fs guid priorityHigh rs
        = [{ guid := guid, what := LoadWhat.LoadResources,
             priority := Note.resourcesPriority priorityHigh }]) := by
  induction rs with
  | nil => simp [Note.loadResources]
  | cons r rest ih =>
    by_cases hr : env.resourceIsCached fs r = true
    · simpa [Note.loadResources, hr] using ih
    · simp [Note.loadResources, hr]

theorem loadFromCacheFile_loaded (env : Env) (fs : FS) (n : Note) :
    (n.loadFromCacheFile env fs).m_loaded = true := rfl

theorem loadFromCacheFile_members (env : Env) (fs : FS) (n : Note) :
    (n.loadFromCacheFile env fs).m_resources = n.m_resources ∧
    (n.loadFromCacheFile env fs).m_guid = n.m_guid := by
  unfold Note.loadFromCacheFile
  by_cases h : (fs.fileExists n.m_cacheFile && env.canOpenRead n.m_cacheFile) = true <;>
    simp [h]

theorem loadCheck_members (env : Env) (fs : FS) (n : Note) :
    (n.loadCheck env fs).resources = n.resources ∧ (n.loadCheck env fs).m_guid = n.m_guid := by
  unfold Note.loadCheck
  by_cases h : (!n.m_loaded && n.isCached fs) = true
  · simp [h, Note.resources, loadFromCacheFile_members]
  · simp [h]

theorem load_request_priority (env : Env) (fs : FS) (n : Note) (priorityHigh : Bool)
    (q : FetchRequest) (hq : q ∈ (n.load env fs priorityHigh).2) :
    (q.what = LoadWhat.LoadContent → q.priority = Note.contentPriority priorityHigh) ∧
    (q.what = LoadWhat.LoadResources → q.priority = Note.resourcesPriority priorityHigh) := by
  unfold Note.load at hq
  by_cases hl : (n.loadCheck env fs).m_loaded = true
  · simp only [hl, Bool.not_true, Bool.false_eq_true, if_false] at hq
    rcases (loadResources_nil_iff env fs (n.loadCheck env fs).m_guid priorityHigh
      (n.loadCheck env fs).resources).2 with h | h
    · rw [h] at hq; simp at hq
    · rw [h] at hq
      simp only [List.mem_singleton] at hq
      subst hq
      simp
  · simp only [hl, Bool.not_false, if_true, List.mem_singleton] at hq
    subst hq
    simp

/-! ### The converter -/

theorem run_append (c : Converter) (a b : List Token) :
    c.run (a ++ b) = if (c.run a).2 then c.run a else (c.run a).1.run b := by
  induction a generalizing c with
  | nil => simp [Converter.run]
  | cons t rest ih =>
    simp only [List.cons_append, Converter.run]
    by_cases h : (c.step t).2 = true
    · simp [h]
    · simp only [h, if_false, Bool.false_eq_true]
      exact ih _

/-- A token for which a round of the loop changes nothing can be left out. -/
theorem run_skip (c : Converter) (a b : List Token) (t : Token)
    (h : ∀ d : Converter, d.step t = (d, false)) : c.run (a ++ t :: b) = c.run (a ++ b) := by
  rw [run_append, run_append]
  by_cases hs : (c.run a).2 = true
  · simp [hs]
  · simp [hs, Converter.run, h]

theorem step_startElement_supported (d : Converter) (name : String)
    (attributes : List Attribute) (h : name ∈ supportedTags) (hb : d.isBody = true) :
    d.step (Token.startElement name attributes)
      = ((d.writeStartElement name).writeAttributes attributes, false) := by
  simp [Converter.step, hb, h]

theorem step_startElement_unsupported (d : Converter) (name : String)
    (attributes : List Attribute) (h : name ∉ supportedTags)
    (hb : d.isBody = true ∨ name ≠ "body") :
    d.step (Token.startElement name attributes) = (d, false) := by
  unfold Converter.step
  by_cases hd : d.isBody = true
  · simp [hd, h]
  · rcases hb with hb | hb
    · exact absurd hb hd
    · have hb2 : (name == "body") = false := by simpa using hb
      simp [hd, hb2]

theorem step_endElement_supported (d : Converter) (name : String)
    (h : name ∈ supportedTags) :
    d.step (Token.endElement name) = (d.writeEndElement, false) := by
  have hb2 : (name == "body") = false := by
    have : name ≠ "body" := by
      intro e; subst e; revert h; decide
    simpa using this
  simp [Converter.step, hb2, h]

theorem step_endElement_unsupported (d : Converter) (name : String)
    (h : name ∉ supportedTags) (hb : name ≠ "body") :
    d.step (Token.endElement name) = (d, false) := by
  have hb2 : (name == "body") = false := by simpa using hb
  simp [Converter.step, hb2, h]

theorem step_startElement_unsupported_closed (d : Converter) (name : String)
    (attributes : List Attribute) (hn : name ≠ "body") (hb : d.isBody = false) :
    d.step (Token.startElement name attributes) = (d, false) := by
  have hb2 : (name == "body") = false := by simpa using hn
  simp [Converter.step, hb, hb2]

/-- Before the body is open and while the writer has no element open, a token that
can stand before the body changes nothing. -/
theorem step_beforeBody (d : Converter) (t : Token) (ht : beforeBody t = true)
    (hb : d.isBody = false) (ho : d.openTags = []) : d.step t = (d, false) := by
  cases t with
  | startElement name attributes =>
    have hn : name ≠ "body" := by simpa [beforeBody] using ht
    exact step_startElement_unsupported_closed d name attributes hn hb
  | endElement name =>
    have hn : name ≠ "body" := by simpa [beforeBody] using ht
    by_cases hs : name ∈ supportedTags
    · rw [step_endElement_supported d name hs]
      simp [Converter.writeEndElement, ho]
    · exact step_endElement_unsupported d name hs hn
  | characters text => simp [Converter.step, hb]
  | endDocument => simp [beforeBody] at ht
  | invalid => simp [beforeBody] at ht
  | startDocument => rfl
  | comment text => rfl
  | dtd text => rfl
  | entityReference name => rfl
  | processingInstruction target => rfl

theorem run_beforeBody (d : Converter) (pre rest : List Token)
    (hpre : ∀ t ∈ pre, beforeBody t = true) (hb : d.isBody = false) (ho : d.openTags = []) :
    d.run (pre ++ rest) = d.run rest := by
  induction pre with
  | nil => rfl
  | cons t pre ih =>
    have h1 := step_beforeBody d t (hpre t (List.mem_cons_self _ _)) hb ho
    simp only [List.cons_append, Converter.run, h1]
    exact ih (fun u hu => hpre u (List.mem_cons_of_mem _ hu))

theorem run_endBody (c : Converter) (a post : List Token) :
    c.run (a ++ Token.endElement "body" :: post) = c.run (a ++ [Token.endElement "body"]) := by
  rw [run_append, run_append]
  by_cases hs : (c.run a).2 = true
  · simp [hs]
  · simp [hs, Converter.run, Converter.step]

/-- A step that changes nothing inside well-nested tokens. -/
theorem run_cons_skip (d : Converter) (t : Token) (rest : List Token)
    (h : d.step t = (d, false)) : d.run (t :: rest) = d.run rest := by
  simp [Converter.run, h]

/-- Inside the body the loop writes `bodyWritten` for well-nested tokens and leaves the
writer with the elements open that were open before. -/
theorem run_wellNested (inner : List Token) (opened : List String) (base : List String)
    (d : Converter) (hw : wellNested opened inner = true) (hb : d.isBody = true)
    (ho : d.openTags = opened.filter (fun n => supportedTags.contains n) ++ base) :
    d.run inner = ({ d with written := d.written ++ bodyWritten inner, openTags := base },
      false) := by
  induction inner generalizing opened d with
  | nil =>
    have : opened = [] := by simpa [wellNested] using hw
    subst this
    simp at ho
    simp [Converter.run, bodyWritten, ← ho]
  | cons t rest ih =>
    cases t with
    | startElement name attributes =>
      simp only [wellNested, Bool.and_eq_true] at hw
      by_cases hs : name ∈ supportedTags
      · rw [Converter.run, step_startElement_supported d name attributes hs hb]
        simp only [Bool.false_eq_true, if_false]
        rw [ih (name :: opened) _ hw.2 (by simp [Converter.writeStartElement,
          Converter.writeAttributes, hb]) (by simp [Converter.writeStartElement,
          Converter.writeAttributes, ho, List.filter_cons, hs])]
        simp [Converter.writeStartElement, Converter.writeAttributes, bodyWritten, hs]
      · rw [run_cons_skip d _ rest
          (step_startElement_unsupported d name attributes hs (Or.inl hb))]
        rw [ih (name :: opened) d hw.2 hb (by simp [ho, List.filter_cons, hs])]
        simp [bodyWritten, hs]
    | endElement name =>
      cases opened with
      | nil => simp [wellNested] at hw
      | cons top opened =>
        simp only [wellNested, Bool.and_eq_true] at hw
        have ht : name = top := by simpa using hw.1.1
        have hnb : name ≠ "body" := by simpa using hw.1.2
        subst ht
        by_cases hs : name ∈ supportedTags
        · rw [Converter.run, step_endElement_supported d name hs]
          simp only [Bool.false_eq_true, if_false]
          have ho2 : d.openTags
              = name :: (opened.filter (fun n => supportedTags.contains n) ++ base) := by
            simp [ho, List.filter_cons, hs]
          rw [ih opened _ hw.2 (by simp [Converter.writeEndElement, ho2, hb])
            (by simp [Converter.writeEndElement, ho2])]
          simp [Converter.writeEndElement, ho2, bodyWritten, hs]
        · rw [run_cons_skip d _ rest (step_endElement_unsupported d name hs hnb)]
          rw [ih opened d hw.2 hb (by simp [ho, List.filter_cons, hs])]
          simp [bodyWritten, hs]
    | characters text =>
      have hw2 : wellNested opened rest = true := by simpa [wellNested] using hw
      have h1 : d.step (Token.characters text) = (d.writeCharacters text, false) := by
        simp [Converter.step, hb]
      rw [Converter.run, h1]
      simp only [Bool.false_eq_true, if_false]
      rw [ih opened _ hw2 (by simp [Converter.writeCharacters, hb])
        (by simp [Converter.writeCharacters, ho])]
      simp [Converter.writeCharacters, bodyWritten]
    | endDocument => simp [wellNested] at hw
    | invalid => simp [wellNested] at hw
    | startDocument =>
      have hw2 : wellNested opened rest = true := by simpa [wellNested] using hw
      rw [run_cons_skip d (Token.startDocument) rest rfl, ih opened d hw2 hb ho]
      simp [bodyWritten]
    | comment text =>
      have hw2 : wellNested opened rest = true := by simpa [wellNested] using hw
      rw [run_cons_skip d (Token.comment text) rest rfl, ih opened d hw2 hb ho]
      simp [bodyWritten]
    | dtd text =>
      have hw2 : wellNested opened rest = true := by simpa [wellNested] using hw
      rw [run_cons_skip d (Token.dtd text) rest rfl, ih opened d hw2 hb ho]
      simp [bodyWritten]
    | entityReference name =>
      have hw2 : wellNested opened rest = true := by simpa [wellNested] using hw
      rw [run_cons_skip d (Token.entityReference name) rest rfl, ih opened d hw2 hb ho]
      simp [bodyWritten]
    | processingInstruction target =>
      have hw2 : wellNested opened rest = true := by simpa [wellNested] using hw
      rw [run_cons_skip d (Token.processingInstruction target) rest rfl, ih opened d hw2 hb ho]
      simp [bodyWritten]

theorem tagsAllowed_writeEndElement (c : Converter) (h : TagsAllowed c) :
    TagsAllowed c.writeEndElement := by
  unfold Converter.writeEndElement
  cases ho : c.openTags with
  | nil => simpa using h
  | cons name rest =>
    obtain ⟨h1, h2⟩ := h
    rw [ho] at h2
    refine ⟨?_, ?_⟩
    · intro w hw
      simp only [List.mem_append, List.mem_singleton] at hw
      rcases hw with hw | hw
      · exact h1 w hw
      · subst hw
        have := h2 name (List.mem_cons_self _ _)
        simpa [Written.tagAllowed] using this
    · intro n hn
      exact h2 n (List.mem_cons_of_mem _ hn)

theorem tagsAllowed_writeStartElement (c : Converter) (name : String) (h : TagsAllowed c)
    (hn : name = "en-note" ∨ name ∈ supportedTags) :
    TagsAllowed (c.writeStartElement name) := by
  obtain ⟨h1, h2⟩ := h
  refine ⟨?_, ?_⟩
  · intro w hw
    simp only [Converter.writeStartElement, List.mem_append, List.mem_singleton] at hw
    rcases hw with hw | hw
    · exact h1 w hw
    · subst hw
      simpa [Written.tagAllowed] using hn
  · intro n hn2
    simp only [Converter.writeStartElement, List.mem_cons] at hn2
    rcases hn2 with hn2 | hn2
    · subst hn2; exact hn
    · exact h2 n hn2

theorem tagsAllowed_step (c : Converter) (t : Token) (h : TagsAllowed c) :
    TagsAllowed (c.step t).1 := by
  cases t with
  | startElement name attributes =>
    by_cases hb : c.isBody = true
    · by_cases hs : name ∈ supportedTags
      · have h2 := tagsAllowed_writeStartElement c name h (Or.inr hs)
        rw [step_startElement_supported c name attributes hs hb]
        refine ⟨?_, h2.2⟩
        intro w hw
        simp only [Converter.writeAttributes, List.mem_append, List.mem_singleton] at hw
        rcases hw with hw | hw
        · exact h2.1 w hw
        · subst hw; rfl
      · rw [step_startElement_unsupported c name attributes hs (Or.inl hb)]
        exact h
    · by_cases hn : name = "body"
      · have h2 := tagsAllowed_writeStartElement c "en-note" h (Or.inl rfl)
        simpa [Converter.step, hb, hn] using h2
      · simpa [Converter.step, hb, hn] using h
  | endElement name =>
    unfold Converter.step
    by_cases hn : name = "body"
    · simpa [hn] using tagsAllowed_writeEndElement c h
    · by_cases hs : name ∈ supportedTags
      · simpa [hn, hs] using tagsAllowed_writeEndElement c h
      · simpa [hn, hs] using h
  | characters text =>
    unfold Converter.step
    by_cases hb : c.isBody = true
    · obtain ⟨h1, h2⟩ := h
      simp only [hb, if_true]
      refine ⟨?_, h2⟩
      intro w hw
      simp only [Converter.writeCharacters, List.mem_append, List.mem_singleton] at hw
      rcases hw with hw | hw
      · exact h1 w hw
      · subst hw; rfl
    · simpa [hb] using h
  | endDocument => exact h
  | invalid => exact h
  | startDocument => exact h
  | comment text => exact h
  | dtd text => exact h
  | entityReference name => exact h
  | processingInstruction target => exact h

theorem tagsAllowed_run (tokens : List Token) (c : Converter) (h : TagsAllowed c) :
    TagsAllowed (c.run tokens).1 := by
  induction tokens generalizing c with
  | nil => exact h
  | cons t rest ih =>
    unfold Converter.run
    by_cases hs : (c.step t).2 = true
    · simpa [hs] using tagsAllowed_step c t h
    · simpa [hs] using ih _ (tagsAllowed_step c t h)

theorem tagsAllowed_html2enml (tokens : List Token) (w : Written)
    (hw : w ∈ html2enml tokens) : w.tagAllowed = true := by
  have h0 : TagsAllowed Converter.start := by
    refine ⟨?_, ?_⟩
    · intro w hw; revert hw; simp only [Converter.start]; intro hw
      simp only [List.mem_cons, List.mem_singleton, List.not_mem_nil, or_false] at hw
      rcases hw with hw | hw <;> subst hw <;> rfl
    · intro n hn; simp [Converter.start] at hn
  obtain ⟨h1, h2⟩ := tagsAllowed_run tokens _ h0
  simp only [html2enml, Converter.writeEndDocument, Converter.loop, List.mem_append,
    List.mem_map] at hw
  rcases hw with hw | ⟨n, hn, rfl⟩
  · exact h1 w hw
  · simpa [Written.tagAllowed] using h2 n hn

/-! ### What is written stays written -/

theorem step_written (c : Converter) (t : Token) :
    ∃ l, (c.step t).1.written = c.written ++ l := by
  cases t with
  | startElement name attributes =>
    unfold Converter.step
    by_cases hb : c.isBody = true
    · by_cases hs : name ∈ supportedTags
      · exact ⟨[Written.startElement name, Written.attributes attributes],
          by simp [hb, hs, Converter.writeStartElement, Converter.writeAttributes]⟩
      · exact ⟨[], by simp [hb, hs]⟩
    · by_cases hn : name = "body"
      · exact ⟨[Written.startElement "en-note"], by simp [hb, hn, Converter.writeStartElement]⟩
      · exact ⟨[], by simp [hb, hn]⟩
  | endElement name =>
    have key : ∃ l, c.writeEndElement.written = c.written ++ l := by
      unfold Converter.writeEndElement
      cases c.openTags with
      | nil => exact ⟨[], by simp⟩
      | cons n rest => exact ⟨[Written.endElement n], rfl⟩
    unfold Converter.step
    by_cases hn : name = "body"
    · simpa [hn] using key
    · by_cases hs : name ∈ supportedTags
      · simpa [hn, hs] using key
      · exact ⟨[], by simp [hn, hs]⟩
  | characters text =>
    unfold Converter.step
    by_cases hb : c.isBody = true
    · exact ⟨[Written.characters text], by simp [hb, Converter.writeCharacters]⟩
    · exact ⟨[], by simp [hb]⟩
  | endDocument => exact ⟨[], by simp [Converter.step]⟩
  | invalid => exact ⟨[], by simp [Converter.step]⟩
  | startDocument => exact ⟨[], by simp [Converter.step]⟩
  | comment text => exact ⟨[], by simp [Converter.step]⟩
  | dtd text => exact ⟨[], by simp [Converter.step]⟩
  | entityReference name => exact ⟨[], by simp [Converter.step]⟩
  | processingInstruction target => exact ⟨[], by simp [Converter.step]⟩

theorem run_written (tokens : List Token) (c : Converter) :
    ∃ l, (c.run tokens).1.written = c.written ++ l := by
  induction tokens generalizing c with
  | nil => exact ⟨[], by simp [Converter.run]⟩
  | cons t rest ih =>
    obtain ⟨l1, h1⟩ := step_written c t
    unfold Converter.run
    by_cases hs : (c.step t).2 = true
    · exact ⟨l1, by simp [hs, h1]⟩
    · obtain ⟨l2, h2⟩ := ih (c.step t).1
      exact ⟨l1 ++ l2, by simp [hs, h2, h1]⟩

/-- What the converter has written after some tokens starts the output. -/
theorem html2enml_written (pre rest : List Token) (d : Converter)
    (h : Converter.start.run pre = (d, false)) :
    ∃ l, html2enml (pre ++ rest) = (d.run rest).1.written ++ l := by
  refine ⟨(d.run rest).1.openTags.map Written.endElement, ?_⟩
  simp [html2enml, Converter.loop, Converter.writeEndDocument, run_append, h]

/-! ### Resources on the heap -/

theorem take_set_of_le {α : Type} (l : List α) (a : α) (i k : Nat) (h : k ≤ i) :
    (l.set i a).take k = l.take k := by
  apply List.ext_getElem?
  intro j
  by_cases hj : j < k
  · rw [List.getElem?_take_of_lt hj, List.getElem?_take_of_lt hj]
    exact List.getElem?_set_ne (by omega)
  · rw [List.getElem?_take_eq_none (by omega), List.getElem?_take_eq_none (by omega)]

theorem setData_take (heap : ResourceHeap) (a k : Nat) (data : QByteArray) (h : k ≤ a) :
    (heap.setData a data).take k = heap.take k := by
  unfold ResourceHeap.setData
  cases heap[a]? with
  | none => rfl
  | some r => exact take_set_of_le heap _ a k h

theorem setData_length (heap : ResourceHeap) (a : Nat) (data : QByteArray) :
    (heap.setData a data).length = heap.length := by
  unfold ResourceHeap.setData
  cases heap[a]? with
  | none => rfl
  | some r => exact List.length_set _ _ _

theorem lookup_mem {α : Type} (m : List (String × α)) (k : String) (a : α)
    (h : m.lookup k = some a) : (k, a) ∈ m := by
  induction m with
  | nil => simp at h
  | cons e rest ih =>
    obtain ⟨k1, a1⟩ := e
    by_cases hk : k = k1
    · subst hk
      simp [List.lookup] at h
      subst h
      exact List.mem_cons_self _ _
    · have hb : (k == k1) = false := by simpa using hk
      rw [List.lookup, hb] at h
      exact List.mem_cons_of_mem _ (ih h)

/-- A call of `addResource` on a note whose pointers all lie at or above the address
`k` leaves the objects below `k` as they are, and the pointers stay at or above `k`. -/
theorem addResourceOnHeap_above (s : ResourceHeap × PointerMap) (k : Nat)
    (hash fileName type : String) (data : QByteArray)
    (hk : k ≤ s.1.length) (hm : ∀ e ∈ s.2, k ≤ e.2) :
    (addResourceOnHeap s hash fileName type data).1.take k = s.1.take k ∧
    k ≤ (addResourceOnHeap s hash fileName type data).1.length ∧
    ∀ e ∈ (addResourceOnHeap s hash fileName type data).2, k ≤ e.2 := by
  obtain ⟨heap, m⟩ := s
  unfold addResourceOnHeap
  dsimp only [] at hk hm ⊢
  by_cases hc : PointerMap.contains m hash = true
  · rw [if_pos hc]
    dsimp only []
    refine ⟨?_, ?_, hm⟩
    · by_cases hd : data.isEmpty = true
      · simp [hd]
      · simp only [hd, Bool.not_false, if_true, Bool.not_eq_true] 
        cases hv : PointerMap.value m hash with
        | none => simp
        | some a =>
          have := hm _ (lookup_mem m hash a hv)
          simpa using setData_take heap a k data this
    · by_cases hd : data.isEmpty = true
      · simpa [hd] using hk
      · simp only [hd, Bool.not_false, if_true, Bool.not_eq_true]
        cases hv : PointerMap.value m hash with
        | none => simpa using hk
        | some a => simpa [setData_length] using hk
  · rw [if_neg hc]
    dsimp only []
    refine ⟨?_, ?_, ?_⟩
    · rw [List.take_append_of_le_length hk]
    · simp; omega
    · intro e he
      rcases List.mem_append.1 he with h | h
      · exact hm e h
      · simp at h
        subst h
        exact hk

theorem addResourcesOnHeap_above (calls : List ResourceCall) (s : ResourceHeap × PointerMap)
    (k : Nat) (hk : k ≤ s.1.length) (hm : ∀ e ∈ s.2, k ≤ e.2) :
    (addResourcesOnHeap calls s).1.take k = s.1.take k ∧
    k ≤ (addResourcesOnHeap calls s).1.length ∧
    ∀ e ∈ (addResourcesOnHeap calls s).2, k ≤ e.2 := by
  induction calls generalizing s with
  | nil => exact ⟨rfl, hk, hm⟩
  | cons c rest ih =>
    obtain ⟨h1, h2, h3⟩ := addResourceOnHeap_above s k c.hash c.fileName c.type c.data hk hm
    obtain ⟨i1, i2, i3⟩ := ih (addResourceOnHeap s c.hash c.fileName c.type c.data) h2 h3
    exact ⟨i1.trans h1, i2, i3⟩

theorem addResourcesOnHeap_append (a b : List ResourceCall) (s : ResourceHeap × PointerMap) :
    addResourcesOnHeap (a ++ b) s = addResourcesOnHeap b (addResourcesOnHeap a s) := by
  unfold addResourcesOnHeap
  exact List.foldl_append _ _ _ _

/-- The objects below the address `k` are found unchanged through every valid pointer. -/
theorem objects_of_take (heap heap2 : ResourceHeap) (own : PointerMap)
    (hown : ∀ e ∈ own, e.2 < heap.length) (h : heap2.take heap.length = heap) :
    PointerMap.objects heap2 own = PointerMap.objects heap own := by
  unfold PointerMap.objects
  apply List.map_congr_left
  intro e he
  have h1 : (heap2.take heap.length)[e.2]? = heap2[e.2]? :=
    List.getElem?_take_of_lt (hown e he)
  rw [h] at h1
  rw [h1]

theorem deref_contains (heap : ResourceHeap) (m : PointerMap) (k : String)
    (hv : ∀ e ∈ m, e.2 < heap.length) :
    ResourceMap.contains (PointerMap.deref heap m) k = PointerMap.contains m k := by
  induction m with
  | nil => rfl
  | cons e rest ih =>
    have h1 : e.2 < heap.length := hv e (List.mem_cons_self _ _)
    have h2 := ih (fun x hx => hv x (List.mem_cons_of_mem _ hx))
    unfold PointerMap.deref ResourceMap.contains PointerMap.contains at *
    rw [List.filterMap_cons, List.getElem?_eq_getElem h1]
    simp only [Option.map_some', List.any_cons]
    rw [h2]

theorem deref_append_new (heap : ResourceHeap) (m : PointerMap) (k : String) (r : Resource)
    (hv : ∀ e ∈ m, e.2 < heap.length) :
    PointerMap.deref (heap ++ [r]) (m ++ [(k, heap.length)])
      = PointerMap.deref heap m ++ [(k, r)] := by
  unfold PointerMap.deref
  rw [List.filterMap_append]
  congr 1
  · apply List.filterMap_congr
    intro e he
    rw [List.getElem?_append_left (hv e he)]
  · simp

theorem insert_new (m : ResourceMap) (k : String) (r : Resource)
    (h : ¬ m.contains k = true) : m.insert k r = m ++ [(k, r)] := by
  unfold ResourceMap.insert
  rw [if_neg h]

theorem deref_setData (heap : ResourceHeap) (m : PointerMap) (k : String) (a : Nat)
    (data : QByteArray) (hinv : HeapInv (heap, m)) (hmem : (k, a) ∈ m) :
    PointerMap.deref (heap.setData a data) m
      = (PointerMap.deref heap m).modify k (fun r => r.setData data) := by
  obtain ⟨hv, hk, ha⟩ := hinv
  dsimp only [] at hv hk ha
  have hlt : a < heap.length := hv _ hmem
  unfold ResourceHeap.setData ResourceMap.modify PointerMap.deref
  rw [List.getElem?_eq_getElem hlt]
  dsimp only []
  rw [List.map_filterMap]
  apply List.filterMap_congr
  intro e he
  have he2 : e.2 < heap.length := hv e he
  by_cases hea : e.2 = a
  · have heq : e = (k, a) := List.inj_on_of_nodup_map ha he hmem hea
    subst heq
    simp [hlt]
  · have hek : ¬ e.1 = k := fun h => hea (by
      have heq : e = (k, a) := List.inj_on_of_nodup_map hk he hmem h
      rw [heq])
    have hae : a ≠ e.2 := fun h => hea h.symm
    rw [List.getElem?_set_ne hae, List.getElem?_eq_getElem he2]
    simp [hek]

theorem contains_lookup {α : Type} (m : List (String × α)) (k : String)
    (h : m.any (fun e => e.1 == k) = true) : ∃ a, m.lookup k = some a := by
  induction m with
  | nil => simp at h
  | cons e rest ih =>
    obtain ⟨k1, a1⟩ := e
    by_cases hk : k = k1
    · subst hk
      exact ⟨a1, by simp [List.lookup]⟩
    · have hb : (k == k1) = false := by simpa using hk
      have hk2 : ¬ k1 = k := fun e => hk e.symm
      rw [List.lookup, hb]
      simp [hk2] at h
      exact ih (by simpa using h)

/-- On a heap with valid pointers and no shared key or address, `addResource` on the
heap is `addResource` on the map of resources, and the heap stays that way. -/
theorem addResourceOnHeap_deref (s : ResourceHeap × PointerMap)
    (hash fileName type : String) (data : QByteArray) (hinv : HeapInv s) :
    PointerMap.deref (addResourceOnHeap s hash fileName type data).1
        (addResourceOnHeap s hash fileName type data).2
      = (PointerMap.deref s.1 s.2).addResource hash fileName type data ∧
    HeapInv (addResourceOnHeap s hash fileName type data) := by
  obtain ⟨heap, m⟩ := s
  have hinv0 := hinv
  obtain ⟨hv, hk, ha⟩ := hinv
  dsimp only [] at hv hk ha ⊢
  unfold addResourceOnHeap ResourceMap.addResource
  rw [deref_contains heap m hash hv]
  dsimp only []
  by_cases hc : PointerMap.contains m hash = true
  · rw [if_pos hc, if_pos hc]
    dsimp only []
    by_cases hd : data.isEmpty = true
    · simp only [hd, Bool.not_true, Bool.false_eq_true, if_false]
      exact ⟨trivial, hinv0⟩
    · simp only [hd, Bool.not_false, if_true]
      obtain ⟨a, hva⟩ := contains_lookup m hash hc
      have hva2 : PointerMap.value m hash = some a := hva
      rw [hva2]
      dsimp only []
      refine ⟨deref_setData heap m hash a data hinv0 (lookup_mem m hash a hva), ?_, hk, ha⟩
      intro e he
      rw [setData_length]
      exact hv e he
  · rw [if_neg hc, if_neg hc]
    dsimp only []
    have hc2 : ¬ ResourceMap.contains (PointerMap.deref heap m) hash = true := by
      rw [deref_contains heap m hash hv]; exact hc
    refine ⟨?_, ?_, ?_, ?_⟩
    · rw [deref_append_new heap m hash _ hv, insert_new _ _ _ hc2]
    · intro e he
      rcases List.mem_append.1 he with h | h
      · have := hv e h
        simp; omega
      · simp at h
        subst h
        simp
    · rw [List.map_append, List.nodup_append]
      refine ⟨hk, by simp, ?_⟩
      intro x hx hx2
      simp at hx2
      subst hx2
      apply hc
      obtain ⟨e, he, rfl⟩ := List.mem_map.1 hx
      unfold PointerMap.contains
      exact List.any_eq_true.2 ⟨e, he, by simp⟩
    · rw [List.map_append, List.nodup_append]
      refine ⟨ha, by simp, ?_⟩
      intro x hx hx2
      simp at hx2
      subst hx2
      obtain ⟨e, he, hee⟩ := List.mem_map.1 hx
      have := hv e he
      omega

theorem addResourcesOnHeap_deref (calls : List ResourceCall) (s : ResourceHeap × PointerMap)
    (hinv : HeapInv s) :
    PointerMap.deref (addResourcesOnHeap calls s).1 (addResourcesOnHeap calls s).2
      = ResourceMap.addResources calls (PointerMap.deref s.1 s.2) ∧
    HeapInv (addResourcesOnHeap calls s) := by
  induction calls generalizing s with
  | nil => exact ⟨rfl, hinv⟩
  | cons c rest ih =>
    obtain ⟨h1, h2⟩ := addResourceOnHeap_deref s c.hash c.fileName c.type c.data hinv
    obtain ⟨i1, i2⟩ := ih (addResourceOnHeap s c.hash c.fileName c.type c.data) h2
    refine ⟨?_, i2⟩
    show PointerMap.deref
        (addResourcesOnHeap rest (addResourceOnHeap s c.hash c.fileName c.type c.data)).1
        (addResourcesOnHeap rest (addResourceOnHeap s c.hash c.fileName c.type c.data)).2
      = ResourceMap.addResources rest
          ((PointerMap.deref s.1 s.2).addResource c.hash c.fileName c.type c.data)
    rw [i1, h1]

theorem heapInv_empty (heap : ResourceHeap) : HeapInv (heap, []) :=
  ⟨fun e he => by simp at he, by simp, by simp⟩

theorem addResources_append (a b : List ResourceCall) (m : ResourceMap) :
    ResourceMap.addResources (a ++ b) m
      = ResourceMap.addResources b (ResourceMap.addResources a m) := by
  unfold ResourceMap.addResources
  exact List.foldl_append _ _ _ _

theorem growsBy_refl (a : Note) : GrowsBy a a := ⟨[], rfl⟩

theorem growsBy_trans {a b c : Note} (h1 : GrowsBy a b) (h2 : GrowsBy b c) : GrowsBy a c := by
  obtain ⟨l1, e1⟩ := h1
  obtain ⟨l2, e2⟩ := h2
  exact ⟨l1 ++ l2, by rw [addResources_append, ← e1, e2]⟩

theorem addResource_growsBy (fs : FS) (n : Note) (hash fileName type : String)
    (data : QByteArray) : GrowsBy n (Note.addResource fs n hash fileName type data).1 := by
  refine ⟨[⟨hash, fileName, type, data⟩], ?_⟩
  unfold Note.addResource ResourceMap.addResources ResourceMap.addResource
  by_cases hc : ResourceMap.contains n.m_resources hash = true
  · by_cases hd : data = []
    · simp [hc, hd, Note.emit]
    · simp [hc, hd, Note.emit]
  · simp [hc, Note.emit]

theorem foldl_growsBy {α : Type} (f : Note × FS → α → Note × FS)
    (hf : ∀ s x, GrowsBy s.1 (f s x).1) (l : List α) (s : Note × FS) :
    GrowsBy s.1 (l.foldl f s).1 := by
  induction l generalizing s with
  | nil => exact growsBy_refl s.1
  | cons x rest ih => exact growsBy_trans (hf s x) (ih (f s x))

theorem new_growsBy (env : Env) (fs : FS) (guid : String) (usn : Nat) :
    ∃ calls, (Note.new env fs guid usn).1.m_resources = ResourceMap.addResources calls [] := by
  unfold Note.new
  obtain ⟨⟨cf, inf, em, h1⟩, _⟩ := setGuid_initial env fs guid usn
  generalize Note.setGuid env fs (Note.initial usn) guid = s at h1 ⊢
  obtain ⟨c, fs1⟩ := s
  dsimp only [] at h1 ⊢
  subst h1
  obtain ⟨calls, h2⟩ := foldl_growsBy (Note.addStoredResource env)
    (fun s h => addResource_growsBy s.2 s.1 h _ _ []) (childGroups fs1 inf "resources")
    (_, fs1)
  exact ⟨calls, h2⟩

/-- The resources of the clone are those a fresh note gets from the `addResource`
calls of the constructor and of `clone()`. -/
theorem clone_growsBy (env : Env) (fs : FS) (n : Note) :
    ∃ calls, (n.clone env fs).1.m_resources = ResourceMap.addResources calls [] := by
  obtain ⟨l0, h0⟩ := new_growsBy env fs n.m_guid (toUInt32 n.m_updateSequenceNumber)
  unfold Note.clone
  generalize (Note.new env fs n.m_guid (toUInt32 n.m_updateSequenceNumber)) = s at h0 ⊢
  obtain ⟨c0, fs0⟩ := s
  dsimp only [] at h0 ⊢
  have e1 : (c0.setCreated n.m_created).m_resources = c0.m_resources := by
    obtain ⟨em, h⟩ := setCreated_eq c0 n.m_created
    rw [h]
  generalize c0.setCreated n.m_created = c1 at e1 ⊢
  have e2 : (c1.setNotebookGuid n.m_notebookGuid).m_resources = c1.m_resources := by
    obtain ⟨em, h⟩ := setNotebookGuid_eq c1 n.m_notebookGuid
    rw [h]
  generalize c1.setNotebookGuid n.m_notebookGuid = c2 at e2 ⊢
  have e3 : (c2.setTitle n.m_title).m_resources = c2.m_resources := by
    obtain ⟨em, h⟩ := setTitle_eq c2 n.m_title
    rw [h]
  generalize c2.setTitle n.m_title = c3 at e3 ⊢
  have e4 : (c3.setUpdated n.m_updated).m_resources = c3.m_resources := by
    obtain ⟨em, h⟩ := setUpdated_eq c3 n.m_updated
    rw [h]
  generalize c3.setUpdated n.m_updated = c4 at e4 ⊢
  have e5 : (c4.setEnmlContent env n.m_content.enml).m_resources = c4.m_resources := by
    obtain ⟨tl, ncs, em, h⟩ := setEnmlContent_eq env c4 n.m_content.enml
    rw [h]
  generalize c4.setEnmlContent env n.m_content.enml = c5 at e5 ⊢
  have e6 : (c5.setReminderOrder n.m_reminderOrder).m_resources = c5.m_resources := by
    obtain ⟨em, h⟩ := setReminderOrder_eq c5 n.m_reminderOrder
    rw [h]
  generalize c5.setReminderOrder n.m_reminderOrder = c6 at e6 ⊢
  have e7 : (c6.setReminderTime n.m_reminderTime).m_resources = c6.m_resources := by
    obtain ⟨em, h⟩ := setReminderTime_eq c6 n.m_reminderTime
    rw [h]
  generalize c6.setReminderTime n.m_reminderTime = c7 at e7 ⊢
  have e8 : (c7.setReminderDoneTime n.m_reminderDoneTime).m_resources = c7.m_resources := by
    obtain ⟨em, h⟩ := setReminderDoneTime_eq c7 n.m_reminderDoneTime
    rw [h]
  generalize c7.setReminderDoneTime n.m_reminderDoneTime = c8 at e8 ⊢
  have e9 : (c8.setIsSearchResult n.m_isSearchResult).m_resources = c8.m_resources := by
    obtain ⟨em, h⟩ := setIsSearchResult_eq c8 n.m_isSearchResult
    rw [h]
  generalize c8.setIsSearchResult n.m_isSearchResult = c9 at e9 ⊢
  have e10 : (c9.setTagGuids n.m_tagGuids).m_resources = c9.m_resources := by
    obtain ⟨em, h⟩ := setTagGuids_eq c9 n.m_tagGuids
    rw [h]
  generalize c9.setTagGuids n.m_tagGuids = c10 at e10 ⊢
  have e11 : (c10.setUpdateSequenceNumber n.m_updateSequenceNumber).m_resources
      = c10.m_resources := by
    obtain ⟨sy, ncs, em, h⟩ := setUpdateSequenceNumber_eq c10 n.m_updateSequenceNumber
    rw [h]
  generalize c10.setUpdateSequenceNumber n.m_updateSequenceNumber = c11 at e11 ⊢
  have e12 : (c11.setDeleted n.m_deleted).m_resources = c11.m_resources := by
    obtain ⟨em, h⟩ := setDeleted_eq c11 n.m_deleted
    rw [h]
  generalize c11.setDeleted n.m_deleted = c12 at e12 ⊢
  have hc12 : c12.m_resources = ResourceMap.addResources l0 [] := by
    rw [e12, e11, e10, e9, e8, e7, e6, e5, e4, e3, e2, e1, h0]
  obtain ⟨l1, h13⟩ := foldl_growsBy Note.cloneResource
    (fun s r => addResource_growsBy s.2 s.1 r.hash r.fileName r.type r.data) n.resources
    (c12, fs0)
  refine ⟨l0 ++ l1, ?_⟩
  rw [addResources_append, ← hc12]
  exact h13

/-! ### Tokens copied -/

/-- The output for a document with a well-nested body: the header, the root `en-note`
and what the loop writes for the content of the body. -/
theorem html2enml_body (pre inner post : List Token) (attributes : List Attribute)
    (hpre : ∀ t ∈ pre, beforeBody t = true) (hw : wellNested [] inner = true) :
    html2enml (pre ++ Token.startElement "body" attributes ::
        (inner ++ Token.endElement "body" :: post))
      = Converter.start.written ++ Written.startElement "en-note" ::
          (bodyWritten inner ++ [Written.endElement "en-note"]) := by
  have hstart : Converter.start.step (Token.startElement "body" attributes)
      = ({ Converter.start.writeStartElement "en-note" with isBody := true }, false) := by
    simp [Converter.step, Converter.start]
  have hin := run_wellNested inner [] ["en-note"]
    { Converter.start.writeStartElement "en-note" with isBody := true } hw rfl rfl
  simp only [html2enml, Converter.loop, run_beforeBody Converter.start pre _ hpre rfl rfl]
  rw [Converter.run, hstart]
  simp only [Bool.false_eq_true, if_false]
  rw [run_append, hin]
  simp [Converter.run, Converter.step, Converter.writeEndElement, Converter.writeEndDocument,
    Converter.writeStartElement, Converter.start]

theorem bodyWritten_onlyAllowed (inner : List Token) (h : onlyAllowed inner = true) :
    bodyWritten inner = inner.flatMap Token.copied := by
  induction inner with
  | nil => rfl
  | cons t rest ih =>
    rw [List.flatMap_cons]
    cases t with
    | startElement name attributes =>
      simp only [onlyAllowed, Bool.and_eq_true] at h
      simp only [bodyWritten, h.1, if_true, ih h.2, Token.copied, List.cons_append,
        List.nil_append]
    | endElement name =>
      simp only [onlyAllowed, Bool.and_eq_true] at h
      simp only [bodyWritten, h.1, if_true, ih h.2, Token.copied, List.cons_append,
        List.nil_append]
    | characters text =>
      simp only [onlyAllowed] at h
      simp only [bodyWritten, ih h, Token.copied, List.cons_append, List.nil_append]
    | _ => simp [onlyAllowed] at h

theorem tokensOf_copied_append (inner : List Token) (w : List Written)
    (h : onlyAllowed inner = true) :
    tokensOf (inner.flatMap Token.copied ++ w) = inner ++ tokensOf w := by
  induction inner with
  | nil => rfl
  | cons t rest ih =>
    rw [List.flatMap_cons]
    cases t with
    | startElement name attributes =>
      simp only [onlyAllowed, Bool.and_eq_true] at h
      show tokensOf (Written.startElement name :: Written.attributes attributes ::
        (rest.flatMap Token.copied ++ w)) = _
      simp only [tokensOf, ih h.2, List.cons_append]
    | endElement name =>
      simp only [onlyAllowed, Bool.and_eq_true] at h
      show tokensOf (Written.endElement name :: (rest.flatMap Token.copied ++ w)) = _
      simp only [tokensOf, ih h.2, List.cons_append]
    | characters text =>
      simp only [onlyAllowed] at h
      show tokensOf (Written.characters text :: (rest.flatMap Token.copied ++ w)) = _
      simp only [tokensOf, ih h, List.cons_append]
    | _ => simp [onlyAllowed] at h

theorem tokensOf_copied (inner : List Token) (h : onlyAllowed inner = true) :
    tokensOf (inner.flatMap Token.copied) = inner := by
  have := tokensOf_copied_append inner [] h
  simpa [tokensOf] using this

/-! ### Keys of a settings file -/

theorem lookup_filter_append_ne (l : List (String × QVariant)) (k k2 : String) (v : QVariant)
    (h : k2 ≠ k) :
    (l.filter (fun kv => kv.1 != k) ++ [(k, v)]).lookup k2 = l.lookup k2 := by
  induction l with
  | nil =>
    have hb : (k2 == k) = false := by simpa using h
    simp [List.lookup, hb]
  | cons e rest ih =>
    obtain ⟨a, b⟩ := e
    by_cases ha : a = k
    · subst ha
      have hb : (k2 == a) = false := by simpa using h
      simp only [List.filter, bne_self_eq_false, List.lookup, hb]
      exact ih
    · have hne : (a != k) = true := by simpa using ha
      simp only [List.filter, hne, List.cons_append, List.lookup]
      cases hk : (k2 == a) with
      | true => rfl
      | false => exact ih

theorem lookup_filter_append_self (l : List (String × QVariant)) (k : String) (v : QVariant) :
    (l.filter (fun kv => kv.1 != k) ++ [(k, v)]).lookup k = some v := by
  induction l with
  | nil => simp [List.lookup]
  | cons e rest ih =>
    obtain ⟨a, b⟩ := e
    by_cases ha : a = k
    · subst ha
      simp only [List.filter, bne_self_eq_false]
      exact ih
    · have hne : (a != k) = true := by simpa using ha
      have hb : (k == a) = false := by simpa using fun e : k = a => ha e.symm
      simp only [List.filter, hne, List.cons_append, List.lookup, hb]
      exact ih

theorem settingsOf_setValue (fs : FS) (p k : String) (v : QVariant) (hp : p ≠ "") :
    (fs.setValue p k v).settingsOf p
      = (fs.settingsOf p).filter (fun kv => kv.1 != k) ++ [(k, v)] := by
  simp [FS.setValue, FS.settingsOf, FS.put, hp]

/-- A key other than the one written keeps its value. -/
theorem value_setValue_ne (fs : FS) (p k k2 : String) (v : QVariant) (h : k2 ≠ k) :
    (fs.setValue p k v).value p k2 = fs.value p k2 := by
  by_cases hp : p = ""
  · simp [FS.setValue, hp]
  · unfold FS.value
    rw [settingsOf_setValue fs p k v hp]
    exact lookup_filter_append_ne _ k k2 v h

/-- The key written holds the value written. -/
theorem value_setValue_self (fs : FS) (p k : String) (v : QVariant) (hp : p ≠ "") :
    (fs.setValue p k v).value p k = some v := by
  unfold FS.value
  rw [settingsOf_setValue fs p k v hp]
  exact lookup_filter_append_self _ k v

/-- The keys of one file do not depend on another file. -/
theorem value_congr (fs fs2 : FS) (p k : String) (h : fs2 p = fs p) :
    fs2.value p k = fs.value p k := by
  simp [FS.value, FS.settingsOf, h]

theorem value_put_ne (fs : FS) (p q k : String) (d : FileData) (h : p ≠ q) :
    (fs.put q d).value p k = fs.value p k :=
  value_congr fs _ p k (by simp [FS.put, h])

/-- The keys a sequence of `setValue` calls with distinct keys leaves in the file. -/
theorem value_setValues (pairs : List (String × QVariant)) (fs : FS) (p k : String)
    (hp : p ≠ "") (hn : (pairs.map Prod.fst).Nodup) :
    (pairs.foldl (fun fs kv => fs.setValue p kv.1 kv.2) fs).value p k
      = (match pairs.lookup k with
         | some v => some v
         | none => fs.value p k) := by
  induction pairs generalizing fs with
  | nil => rfl
  | cons e rest ih =>
    obtain ⟨a, b⟩ := e
    simp only [List.map_cons, List.nodup_cons] at hn
    rw [List.foldl_cons, ih _ hn.2]
    by_cases hk : k = a
    · subst hk
      have hnone : rest.lookup k = none := by
        rw [List.lookup_eq_none_iff]
        intro e he
        have hmem : e.1 ∈ rest.map Prod.fst := List.mem_map_of_mem _ he
        have hne : k ≠ e.1 := fun heq => hn.1 (by rw [heq]; exact hmem)
        simpa using hne
      simp [List.lookup, hnone, value_setValue_self fs p k b hp]
    · have hb : (k == a) = false := by simpa using hk
      simp only [List.lookup, hb]
      rw [value_setValue_ne fs p a k b hk]

/-! ### What the constructor reads and writes -/

theorem syncToInfoFile_eq_foldl (fs : FS) (n : Note) :
    n.syncToInfoFile fs
      = n.infoEntries.foldl (fun fs kv => fs.setValue n.m_infoFile kv.1 kv.2) fs := rfl

theorem setGuid_initial_infoFile (env : Env) (fs : FS) (guid : String) (usn : Nat) :
    (Note.setGuid env fs (Note.initial usn) guid).1.m_infoFile
      = constructedInfoFile env guid := by
  unfold constructedInfoFile
  by_cases hg : guid = ""
  · subst hg
    have := setGuid_same env fs (Note.initial usn)
    have h0 : (Note.initial usn).m_guid = "" := rfl
    rw [h0] at this
    rw [this]
    rfl
  · have h0 : (Note.initial usn).m_guid ≠ guid := fun e => hg e.symm
    obtain ⟨cf, h1⟩ := setGuid_fst env fs (Note.initial usn) guid h0
    rw [h1]
    simp [hg]

theorem addResource_fs_apply_ne (fs : FS) (n : Note) (hash fileName type : String)
    (data : QByteArray) (q : String) (hq : q ≠ n.m_infoFile) :
    (Note.addResource fs n hash fileName type data).2 q = fs q := by
  unfold Note.addResource
  by_cases hc : ResourceMap.contains n.m_resources hash = true
  · simp [hc]
  · simp [hc, setValue_apply_ne _ _ _ _ _ hq]

theorem addStoredResources_fs_apply_ne (env : Env) (hashes : List String) (s : Note × FS)
    (q : String) (hq : q ≠ s.1.m_infoFile) :
    (Note.addStoredResources env hashes s).2 q = s.2 q := by
  induction hashes generalizing s with
  | nil => rfl
  | cons h rest ih =>
    have hframe : (Note.addStoredResource env s h).1.m_infoFile = s.1.m_infoFile := by
      obtain ⟨rs, em, e⟩ := addResource_frame s.2 s.1 h
        (((s.2.value s.1.m_infoFile ("resources/" ++ h ++ "/" ++ "fileName")).getD
          QVariant.invalid).toString env)
        (((s.2.value s.1.m_infoFile ("resources/" ++ h ++ "/" ++ "type")).getD
          QVariant.invalid).toString env) []
      unfold Note.addStoredResource
      dsimp only []
      rw [e]
    have h1 : (Note.addStoredResource env s h).2 q = s.2 q := by
      unfold Note.addStoredResource
      exact addResource_fs_apply_ne _ _ _ _ _ _ q hq
    show (Note.addStoredResources env rest (Note.addStoredResource env s h)).2 q = s.2 q
    rw [ih _ (by rw [hframe]; exact hq), h1]

/-- The constructor writes to no file but the info file of the guid. -/
theorem new_fs_apply_ne (env : Env) (fs : FS) (guid : String) (usn : Nat) (q : String)
    (hq : q ≠ constructedInfoFile env guid) :
    (Note.new env fs guid usn).2 q = fs q := by
  have hinf := setGuid_initial_infoFile env fs guid usn
  obtain ⟨_, h0⟩ := setGuid_initial env fs guid usn
  unfold Note.new
  generalize Note.setGuid env fs (Note.initial usn) guid = s at hinf h0 ⊢
  obtain ⟨c, fs1⟩ := s
  dsimp only [] at hinf h0 ⊢
  subst h0
  rw [addStoredResources_fs_apply_ne env _ _ q (by dsimp only []; rw [hinf]; exact hq)]

/-- The members the constructor reads from the info file. -/
theorem new_members (env : Env) (fs : FS) (guid : String) (usn : Nat) :
    (Note.new env fs guid usn).1.m_created
      = (((fs.value (constructedInfoFile env guid) "created").getD
          QVariant.invalid).toDateTime env) ∧
    (Note.new env fs guid usn).1.m_title
      = (((fs.value (constructedInfoFile env guid) "title").getD
          QVariant.invalid).toString env) ∧
    (Note.new env fs guid usn).1.m_updated
      = (((fs.value (constructedInfoFile env guid) "updated").getD
          QVariant.invalid).toDateTime env) ∧
    (Note.new env fs guid usn).1.m_notebookGuid
      = (((fs.value (constructedInfoFile env guid) "notebookGuid").getD
          QVariant.invalid).toString env) ∧
    (Note.new env fs guid usn).1.m_tagGuids
      = (((fs.value (constructedInfoFile env guid) "tagGuids").getD
          QVariant.invalid).toStringList) ∧
    (Note.new env fs guid usn).1.m_reminderOrder
      = wrapInt64 (((fs.value (constructedInfoFile env guid) "reminderOrder").getD
          QVariant.invalid).toULongLong env) ∧
    (Note.new env fs guid usn).1.m_reminderTime
      = (((fs.value (constructedInfoFile env guid) "reminderTime").getD
          QVariant.invalid).toDateTime env) ∧
    (Note.new env fs guid usn).1.m_reminderDoneTime
      = (((fs.value (constructedInfoFile env guid) "reminderDoneTime").getD
          QVariant.invalid).toDateTime env) ∧
    (Note.new env fs guid usn).1.m_deleted
      = (((fs.value (constructedInfoFile env guid) "deleted").getD
          QVariant.invalid).toBool) ∧
    (Note.new env fs guid usn).1.m_tagline
      = (((fs.value (constructedInfoFile env guid) "tagline").getD
          QVariant.invalid).toString env) ∧
    (Note.new env fs guid usn).1.m_lastSyncedSequenceNumber
      = wrapInt32 (((fs.value (constructedInfoFile env guid) "lastSyncedSequenceNumber").getD
          (QVariant.int 0)).toUInt env) ∧
    (Note.new env fs guid usn).1.m_needsContentSync
      = (((fs.value (constructedInfoFile env guid) "needsContentSync").getD
          (QVariant.bool false)).toBool) := by
  have hinf := setGuid_initial_infoFile env fs guid usn
  obtain ⟨_, h0⟩ := setGuid_initial env fs guid usn
  unfold Note.new
  generalize Note.setGuid env fs (Note.initial usn) guid = s at hinf h0 ⊢
  obtain ⟨c, fs1⟩ := s
  dsimp only [] at hinf h0 ⊢
  subst h0
  obtain ⟨rs, em2, h2⟩ := addStoredResources_frame env
    (childGroups fs1 c.m_infoFile "resources") _
  rw [h2, hinf]
  exact ⟨rfl, rfl, rfl, rfl, rfl, rfl, rfl, rfl, rfl, rfl, rfl, rfl⟩

/-! ### The cache file read back -/

theorem loadFromCacheFile_readable (env : Env) (fs : FS) (c : Note) (t : String)
    (hf : fs c.m_cacheFile = some (FileData.text t)) (hne : c.m_cacheFile ≠ "")
    (hr : env.canOpenRead c.m_cacheFile = true) :
    (c.loadFromCacheFile env fs).m_content = c.m_content.setEnml (trimmed t) ∧
    (c.loadFromCacheFile env fs).m_tagline
      = left (env.toPlaintext (c.m_content.setEnml (trimmed t))) 100 ∧
    (c.loadFromCacheFile env fs).m_loaded = true := by
  have he : fs.fileExists c.m_cacheFile = true := by simp [FS.fileExists, hne, hf]
  unfold Note.loadFromCacheFile
  simp [he, hr, readAll, hf]

theorem load_fst_of_cached (env : Env) (fs : FS) (c : Note) (priorityHigh : Bool)
    (hl : c.m_loaded = false) (he : fs.fileExists c.m_cacheFile = true) :
    (c.load env fs priorityHigh).1 = c.loadFromCacheFile env fs ∧
    (c.load env fs priorityHigh).2
      = Note.loadResources env fs c.m_guid priorityHigh c.resources := by
  have hcheck : c.loadCheck env fs = c.loadFromCacheFile env fs := by
    simp [Note.loadCheck, hl, Note.isCached, he]
  have hres := loadFromCacheFile_members env fs c
  unfold Note.load
  rw [hcheck]
  simp [loadFromCacheFile_loaded, Note.resources, hres.1, hres.2]

theorem pathsInv_cache_ne_info (env : Env) (n : Note) (h : PathsInv env n) :
    n.m_cacheFile ≠ n.m_infoFile ∧ n.m_cacheFile ≠ "" := by
  obtain ⟨⟨g, hc⟩, hi⟩ := h
  rw [hc]
  refine ⟨?_, cacheFilePath_ne_empty env g⟩
  rcases hi with hi | ⟨g2, hi⟩
  · rw [hi]; exact cacheFilePath_ne_empty env g
  · rw [hi]; exact cacheFilePath_ne_infoFilePath env g g2

theorem cacheFilePath_ne_constructedInfoFile (env : Env) (a b : String) :
    cacheFilePath env a ≠ constructedInfoFile env b := by
  unfold constructedInfoFile
  by_cases hb : b = ""
  · simp [hb, cacheFilePath_ne_empty]
  · simp [hb, cacheFilePath_ne_infoFilePath]

/-! ### The paths of a note -/

theorem new_pathsInv (env : Env) (fs : FS) (guid : String) (usn : Nat) :
    PathsInv env (Note.new env fs guid usn).1 := by
  obtain ⟨h1, h2⟩ := new_paths env fs guid usn
  refine ⟨⟨guid, h1⟩, ?_⟩
  by_cases hg : guid = ""
  · left; rw [h2]; simp [hg]
  · right; exact ⟨guid, by rw [h2]; simp [hg]⟩

theorem setGuid_pathsInv (env : Env) (fs : FS) (n : Note) (guid : String)
    (h : PathsInv env n) : PathsInv env (n.setGuid env fs guid).1 := by
  obtain ⟨⟨g, hc⟩, hi⟩ := h
  by_cases hg : n.m_guid = guid
  · subst hg
    rw [setGuid_same]
    exact ⟨⟨g, hc⟩, hi⟩
  · unfold Note.setGuid PathsInv
    rw [if_pos (by simpa using hg)]
    dsimp only []
    split_ifs <;>
      first
        | exact ⟨⟨guid, rfl⟩, Or.inr ⟨guid, rfl⟩⟩
        | exact ⟨⟨g, hc⟩, Or.inr ⟨guid, rfl⟩⟩

theorem infoEntries_keys_nodup (n : Note) : (n.infoEntries.map Prod.fst).Nodup := by
  simp [Note.infoEntries]

theorem value_empty_path (fs : FS) (k : String) : fs.value "" k = none := by
  simp [FS.value, FS.settingsOf]

/-- A key `syncToInfoFile` does not write keeps its value. -/
theorem syncToInfoFile_value_other (fs : FS) (n : Note) (key : String)
    (hk : key ∉ n.infoEntries.map Prod.fst) :
    (n.syncToInfoFile fs).value n.m_infoFile key = fs.value n.m_infoFile key := by
  by_cases hp : n.m_infoFile = ""
  · rw [hp, value_empty_path, value_empty_path]
  · rw [syncToInfoFile_eq_foldl, value_setValues _ fs _ key hp (infoEntries_keys_nodup n)]
    have hnone : n.infoEntries.lookup key = none := by
      rw [List.lookup_eq_none_iff]
      intro e he
      have hne : key ≠ e.1 := fun heq => hk (by rw [heq]; exact List.mem_map_of_mem _ he)
      simpa using hne
    rw [hnone]

/-- A key `syncToInfoFile` writes holds the value written. -/
theorem syncToInfoFile_value_written (fs : FS) (n : Note) (key : String) (v : QVariant)
    (hp : n.m_infoFile ≠ "") (hk : n.infoEntries.lookup key = some v) :
    (n.syncToInfoFile fs).value n.m_infoFile key = some v := by
  rw [syncToInfoFile_eq_foldl, value_setValues _ fs _ key hp (infoEntries_keys_nodup n), hk]

theorem syncToCacheFile_value_other (env : Env) (fs : FS) (n : Note) (key : String)
    (hci : n.m_cacheFile ≠ n.m_infoFile) (hk : key ≠ "tagline") :
    (n.syncToCacheFile env fs).value n.m_infoFile key = fs.value n.m_infoFile key := by
  unfold Note.syncToCacheFile
  by_cases hw : (n.m_cacheFile != "" && env.canOpenWrite n.m_cacheFile) = true
  · rw [if_pos hw, value_put_ne _ _ _ _ _ (fun e => hci e.symm), value_setValue_ne _ _ _ _ _ hk]
  · rw [if_neg hw, value_setValue_ne _ _ _ _ _ hk]

/-! ### Signed members read through unsigned conversions -/

theorem wrapInt64_toNat_emod (r : Int) : wrapInt64 ((r % 2 ^ 64).toNat : Int) = wrapInt64 r := by
  have h0 : (0 : Int) ≤ r % 2 ^ 64 := Int.emod_nonneg _ (by norm_num)
  rw [Int.toNat_of_nonneg h0]
  unfold wrapInt64
  have h1 : (2 : Int) ^ 64 = 2 ^ 63 + 2 ^ 63 := by norm_num
  omega

theorem wrapInt32_toNat_emod (r : Int) : wrapInt32 ((r % 2 ^ 32).toNat : Int) = wrapInt32 r := by
  have h0 : (0 : Int) ≤ r % 2 ^ 32 := Int.emod_nonneg _ (by norm_num)
  rw [Int.toNat_of_nonneg h0]
  unfold wrapInt32
  omega

/-- The members a fresh note reads from the info file another note of the same guid
has written with `syncToInfoFile`. -/
theorem new_after_syncToInfoFile (env : Env) (fs : FS) (n : Note) (usn : Nat)
    (hg : n.m_guid ≠ "") (hi : n.m_infoFile = infoFilePath env n.m_guid) :
    (Note.new env (n.syncToInfoFile fs) n.m_guid usn).1.m_created = n.m_created ∧
    (Note.new env (n.syncToInfoFile fs) n.m_guid usn).1.m_title = n.m_title ∧
    (Note.new env (n.syncToInfoFile fs) n.m_guid usn).1.m_updated = n.m_updated ∧
    (Note.new env (n.syncToInfoFile fs) n.m_guid usn).1.m_notebookGuid = n.m_notebookGuid ∧
    (Note.new env (n.syncToInfoFile fs) n.m_guid usn).1.m_tagGuids = n.m_tagGuids ∧
    (Note.new env (n.syncToInfoFile fs) n.m_guid usn).1.m_reminderOrder
      = wrapInt64 n.m_reminderOrder ∧
    (Note.new env (n.syncToInfoFile fs) n.m_guid usn).1.m_reminderTime = n.m_reminderTime ∧
    (Note.new env (n.syncToInfoFile fs) n.m_guid usn).1.m_reminderDoneTime
      = n.m_reminderDoneTime ∧
    (Note.new env (n.syncToInfoFile fs) n.m_guid usn).1.m_deleted = n.m_deleted ∧
    (Note.new env (n.syncToInfoFile fs) n.m_guid usn).1.m_lastSyncedSequenceNumber
      = wrapInt32 n.m_lastSyncedSequenceNumber ∧
    (Note.new env (n.syncToInfoFile fs) n.m_guid usn).1.m_needsContentSync
      = n.m_needsContentSync := by
  have hp : n.m_infoFile ≠ "" := by rw [hi]; exact infoFilePath_ne_empty env _
  have hcon : constructedInfoFile env n.m_guid = n.m_infoFile := by
    simp [constructedInfoFile, hg, hi]
  obtain ⟨m1, m2, m3, m4, m5, m6, m7, m8, m9, _, m11, m12⟩ :=
    new_members env (n.syncToInfoFile fs) n.m_guid usn
  rw [hcon] at m1 m2 m3 m4 m5 m6 m7 m8 m9 m11 m12
  have v := fun key v h => syncToInfoFile_value_written fs n key v hp h
  rw [v "created" (QVariant.dateTime n.m_created) rfl] at m1
  rw [v "title" (QVariant.string n.m_title) rfl] at m2
  rw [v "updated" (QVariant.dateTime n.m_updated) rfl] at m3
  rw [v "notebookGuid" (QVariant.string n.m_notebookGuid) rfl] at m4
  rw [v "tagGuids" (QVariant.stringList n.m_tagGuids) rfl] at m5
  rw [v "reminderOrder" (QVariant.longlong n.m_reminderOrder) rfl] at m6
  rw [v "reminderTime" (QVariant.dateTime n.m_reminderTime) rfl] at m7
  rw [v "reminderDoneTime" (QVariant.dateTime n.m_reminderDoneTime) rfl] at m8
  rw [v "deleted" (QVariant.bool n.m_deleted) rfl] at m9
  rw [v "lastSyncedSequenceNumber" (QVariant.int n.m_lastSyncedSequenceNumber) rfl] at m11
  rw [v "needsContentSync" (QVariant.bool n.m_needsContentSync) rfl] at m12
  refine ⟨m1, m2, m3, m4, m5, ?_, m7, m8, m9, ?_, m12⟩
  · rw [m6]; exact wrapInt64_toNat_emod _
  · rw [m11]; exact wrapInt32_toNat_emod _

/-! ### Notifications of the store -/

theorem indexOf_absent (l : List String) (s : String) (h : s ∉ l) : indexOf l s = -1 := by
  induction l with
  | nil => rfl
  | cons x rest ih =>
    simp only [List.mem_cons, not_or] at h
    have hx : ¬ x = s := fun e => h.1 e.symm
    simp [indexOf, hx, ih h.2]

theorem indexOf_first (pre post : List String) (s : String) (h : s ∉ pre) :
    indexOf (pre ++ s :: post) s = pre.length := by
  induction pre with
  | nil => simp [indexOf]
  | cons x rest ih =>
    simp only [List.mem_cons, not_or] at h
    have hx : ¬ x = s := fun e => h.1 e.symm
    have h1 := ih h.2
    have h2 : ¬ ((rest.length : Int) = -1) := by omega
    show indexOf (x :: (rest ++ s :: post)) s = _
    rw [indexOf, if_neg hx, h1, if_neg h2]
    simp

theorem replace_first (pre post : List String) (s v : String) :
    replace (pre ++ s :: post) pre.length v = pre ++ v :: post := by
  unfold replace
  induction pre with
  | nil => rfl
  | cons x rest ih =>
    simp only [List.length_cons, List.cons_append]
    have : ((rest.length + 1 : Nat) : Int).toNat = rest.length + 1 := by simp
    rw [this, List.set_cons_succ]
    simp only [Int.toNat_ofNat] at ih
    rw [ih]

theorem first_occurrence (l : List String) (s : String) (h : s ∈ l) :
    ∃ pre post, l = pre ++ s :: post ∧ s ∉ pre := by
  induction l with
  | nil => simp at h
  | cons x rest ih =>
    by_cases hx : x = s
    · exact ⟨[], rest, by simp [hx], by simp⟩
    · have hr : s ∈ rest := by
        rcases List.mem_cons.1 h with e | e
        · exact absurd e.symm hx
        · exact e
      obtain ⟨pre, post, e1, e2⟩ := ih hr
      refine ⟨x :: pre, post, by simp [e1], ?_⟩
      simp only [List.mem_cons, not_or]
      exact ⟨fun e => hx e.symm, e2⟩

/-- `slotTagGuidChanged` replaces the first occurrence of the old guid. -/
theorem slotTagGuidChanged_first (n : Note) (oldGuid newGuid : String)
    (pre post : List String) (h : n.m_tagGuids = pre ++ oldGuid :: post) (hp : oldGuid ∉ pre) :
    (n.slotTagGuidChanged oldGuid newGuid).m_tagGuids = pre ++ newGuid :: post ∧
    (n.slotTagGuidChanged oldGuid newGuid).emitted = n.emitted ++ [Signal.tagGuidsChanged] := by
  have hi : indexOf n.m_tagGuids oldGuid = pre.length := by rw [h]; exact indexOf_first _ _ _ hp
  have hne : ¬ ((pre.length : Int) = -1) := by omega
  have hr := replace_first pre post oldGuid newGuid
  have hb : (indexOf n.m_tagGuids oldGuid != -1) = true := by
    rw [hi]; simp
  unfold Note.slotTagGuidChanged
  dsimp only []
  rw [if_pos hb, hi, h, hr]
  exact ⟨rfl, rfl⟩

theorem slotTagGuidChanged_absent (n : Note) (oldGuid newGuid : String)
    (h : oldGuid ∉ n.m_tagGuids) : n.slotTagGuidChanged oldGuid newGuid = n := by
  unfold Note.slotTagGuidChanged
  simp [indexOf_absent _ _ h]

/-! ### Signals of the content and of the sequence numbers -/

theorem setEnmlContent_emitted (env : Env) (n : Note) (e : String) :
    (n.setEnmlContent env e).emitted
      = (if n.m_content.enml = e then n.emitted else n.emitted ++ [Signal.contentChanged]) := by
  unfold Note.setEnmlContent
  by_cases h : n.m_content.enml = e
  · simp [h]
  · by_cases hl : n.m_loaded = true <;> simp [h, hl, Note.emit]

theorem setUpdateSequenceNumber_emitted (n : Note) (v : Int) :
    (n.setUpdateSequenceNumber v).emitted
      = (if n.m_updateSequenceNumber = v then n.emitted
         else n.emitted ++ [Signal.syncedChanged]) := by
  unfold Note.setUpdateSequenceNumber
  by_cases h : n.m_updateSequenceNumber = v
  · simp [h]
  · by_cases hs : n.m_lastSyncedSequenceNumber = v
    · simp [h, hs, Note.emit]
    · have hs2 : ¬ v = n.m_lastSyncedSequenceNumber := fun e => hs e.symm
      simp [h, hs2, Note.emit]

theorem setRenderWidth_emitted (n : Note) (w : Int) :
    (n.setRenderWidth w).emitted
      = (if n.m_content.renderWidth = w then n.emitted
         else n.emitted ++ [Signal.contentChanged]) := by
  unfold Note.setRenderWidth
  by_cases h : n.m_content.renderWidth = w <;> simp [h, Note.emit]

theorem load_emitted (env : Env) (fs : FS) (n : Note) (priorityHigh : Bool) :
    (n.load env fs priorityHigh).1.emitted = n.emitted := by
  have h1 : (n.loadFromCacheFile env fs).emitted = n.emitted := by
    unfold Note.loadFromCacheFile
    by_cases h : (fs.fileExists n.m_cacheFile && env.canOpenRead n.m_cacheFile) = true <;>
      simp [h]
  have h2 : (n.loadCheck env fs).emitted = n.emitted := by
    unfold Note.loadCheck
    by_cases h : (!n.m_loaded && n.isCached fs) = true
    · rw [if_pos h, h1]
    · rw [if_neg h]
  unfold Note.load
  by_cases h : (n.loadCheck env fs).m_loaded = true <;> simp [h, h2]

/-! ### The output is one element -/

theorem scan_append (a b : List Written) (st : List String) :
    scan st (a ++ b) = (scan st a).bind (fun s => scan s b) := by
  induction a generalizing st with
  | nil => simp [scan]
  | cons x rest ih =>
    cases st with
    | nil => simp [scan]
    | cons top opened =>
      cases x with
      | endElement name =>
        by_cases h : name = top
        · simp only [List.cons_append, scan, h, if_true]; exact ih opened
        · simp [scan, h]
      | startElement name => simp only [List.cons_append, scan]; exact ih _
      | startDocument => simp only [List.cons_append, scan]; exact ih _
      | dtd t => simp only [List.cons_append, scan]; exact ih _
      | attributes a => simp only [List.cons_append, scan]; exact ih _
      | characters t => simp only [List.cons_append, scan]; exact ih _

theorem scan_close (st : List String) : scan st (st.map Written.endElement) = some [] := by
  induction st with
  | nil => rfl
  | cons t rest ih => simp [scan, ih]

theorem scan_closed (w : List Written) (st0 st : List String) (h : scan st0 w = some st) :
    scan st0 (w ++ st.map Written.endElement) = some [] := by
  rw [scan_append, h]
  exact scan_close st

/-- The output of a converter left inside the body. -/
theorem rooted_of_inBody (c : Converter) (opened : List String) (h : InBody c opened) :
    Rooted c := by
  obtain ⟨_, w, inner, outer, hw, hs, _, _⟩ := h
  refine ⟨w ++ c.openTags.map Written.endElement, ?_, scan_closed w _ _ hs⟩
  simp [Converter.writeEndDocument, hw]

/-- The output of a converter that leaves the body at its end tag. -/
theorem rooted_of_endBody (c : Converter) (opened : List String) (h : InBody c opened) :
    Rooted { c.writeEndElement with isBody := false } := by
  obtain ⟨_, w, inner, outer, hw, hs, _, ho⟩ := h
  refine ⟨w ++ c.openTags.map Written.endElement, ?_, scan_closed w _ _ hs⟩
  cases hot : c.openTags with
  | nil => rw [hot] at ho; simp at ho
  | cons t ts =>
    simp [Converter.writeEndDocument, Converter.writeEndElement, hot, hw]

theorem run_inBody (tokens : List Token) (opened : List String) (c : Converter)
    (hr : readerTokens opened tokens = true) (h : InBody c opened) :
    Rooted (c.run tokens).1 := by
  induction tokens generalizing opened c with
  | nil => exact rooted_of_inBody c opened h
  | cons t rest ih =>
    have hb : c.isBody = true := h.1
    cases t with
    | startDocument =>
      have hs : c.step Token.startDocument = (c, false) := rfl
      rw [run_cons_skip c _ rest hs]
      exact ih opened c (by simpa [readerTokens] using hr) h
    | comment text =>
      have hs : c.step (Token.comment text) = (c, false) := rfl
      rw [run_cons_skip c _ rest hs]
      exact ih opened c (by simpa [readerTokens] using hr) h
    | dtd text =>
      have hs : c.step (Token.dtd text) = (c, false) := rfl
      rw [run_cons_skip c _ rest hs]
      exact ih opened c (by simpa [readerTokens] using hr) h
    | entityReference name =>
      have hs : c.step (Token.entityReference name) = (c, false) := rfl
      rw [run_cons_skip c _ rest hs]
      exact ih opened c (by simpa [readerTokens] using hr) h
    | processingInstruction target =>
      have hs : c.step (Token.processingInstruction target) = (c, false) := rfl
      rw [run_cons_skip c _ rest hs]
      exact ih opened c (by simpa [readerTokens] using hr) h
    | endDocument =>
      have hs : c.run (Token.endDocument :: rest) = (c, true) := by
        simp [Converter.run, Converter.step]
      rw [hs]
      exact rooted_of_inBody c opened h
    | invalid =>
      have hs : c.run (Token.invalid :: rest) = (c, true) := by
        simp [Converter.run, Converter.step]
      rw [hs]
      exact rooted_of_inBody c opened h
    | characters text =>
      have hs : c.step (Token.characters text) = (c.writeCharacters text, false) := by
        simp [Converter.step, hb]
      rw [Converter.run, hs]
      simp only [Bool.false_eq_true, if_false]
      apply ih opened _ (by simpa [readerTokens] using hr)
      obtain ⟨_, w, inner, outer, hw, hsc, ho, hot⟩ := h
      refine ⟨hb, w ++ [Written.characters text], inner, outer, ?_, ?_, ho, hot⟩
      · simp [Converter.writeCharacters, hw]
      · rw [scan_append, hsc]
        show scan (c.writeCharacters text).openTags [Written.characters text] = _
        have : (c.writeCharacters text).openTags = c.openTags := rfl
        rw [this, hot]
        cases inner.filter (fun n => supportedTags.contains n) <;> rfl
    | startElement name attributes =>
      have hr2 : readerTokens (name :: opened) rest = true := by
        simpa [readerTokens] using hr
      obtain ⟨_, w, inner, outer, hw, hsc, ho, hot⟩ := h
      by_cases hsup : name ∈ supportedTags
      · rw [Converter.run, step_startElement_supported c name attributes hsup hb]
        simp only [Bool.false_eq_true, if_false]
        apply ih (name :: opened) _ hr2
        refine ⟨hb, w ++ [Written.startElement name, Written.attributes attributes],
          name :: inner, outer, ?_, ?_, by simp [ho], ?_⟩
        · simp [Converter.writeStartElement, Converter.writeAttributes, hw]
        · rw [scan_append, hsc]
          show scan c.openTags _ = some (name :: c.openTags)
          rw [hot]
          cases inner.filter (fun n => supportedTags.contains n) <;> rfl
        · show name :: c.openTags = _
          rw [hot]
          simp [List.filter, hsup]
      · rw [run_cons_skip c _ rest
          (step_startElement_unsupported c name attributes hsup (Or.inl hb))]
        apply ih (name :: opened) c hr2
        refine ⟨hb, w, name :: inner, outer, hw, hsc, by simp [ho], ?_⟩
        rw [hot]
        simp [List.filter, hsup]
    | endElement name =>
      cases opened with
      | nil => simp [readerTokens] at hr
      | cons top opened2 =>
        simp only [readerTokens, Bool.and_eq_true, beq_iff_eq] at hr
        obtain ⟨hname, hr2⟩ := hr
        subst hname
        by_cases hbody : name = "body"
        · subst hbody
          have hs : c.run (Token.endElement "body" :: rest)
              = ({ c.writeEndElement with isBody := false }, true) := by
            simp [Converter.run, Converter.step]
          rw [hs]
          exact rooted_of_endBody c _ h
        · obtain ⟨_, w, inner, outer, hw, hsc, ho, hot⟩ := h
          cases inner with
          | nil =>
            simp only [List.nil_append, List.cons.injEq] at ho
            exact absurd ho.1 hbody
          | cons i inner2 =>
            simp only [List.cons_append, List.cons.injEq] at ho
            obtain ⟨hi, ho2⟩ := ho
            subst hi
            by_cases hsup : name ∈ supportedTags
            · rw [Converter.run, step_endElement_supported c name hsup]
              simp only [Bool.false_eq_true, if_false]
              apply ih opened2 _ hr2
              have hot2 : c.openTags
                  = name :: (inner2.filter (fun n => supportedTags.contains n) ++ ["en-note"]) := by
                rw [hot]; simp [List.filter, hsup]
              refine ⟨?_, w ++ [Written.endElement name], inner2, outer, ?_, ?_, ho2, ?_⟩
              · simp [Converter.writeEndElement, hot2, hb]
              · simp [Converter.writeEndElement, hot2, hw]
              · rw [scan_append, hsc, hot2]
                simp [Converter.writeEndElement, hot2, scan]
              · simp [Converter.writeEndElement, hot2]
            · rw [run_cons_skip c _ rest (step_endElement_unsupported c name hsup hbody)]
              apply ih opened2 c hr2
              refine ⟨hb, w, inner2, outer, hw, hsc, ho2, ?_⟩
              rw [hot]
              simp [List.filter, hsup]

theorem run_beforeBody_rooted (tokens : List Token) (opened : List String) (c : Converter)
    (hr : readerTokens opened tokens = true) (h : BeforeBody c opened) :
    (hasBody tokens = false ∧ (c.run tokens).1.writeEndDocument.written
        = Converter.start.written) ∨
    (hasBody tokens = true ∧ Rooted (c.run tokens).1) := by
  induction tokens generalizing opened c with
  | nil =>
    left
    obtain ⟨_, hw, ho, _⟩ := h
    exact ⟨rfl, by simp [Converter.run, Converter.writeEndDocument, hw, ho]⟩
  | cons t rest ih =>
    obtain ⟨hb, hw, ho, hnb⟩ := h
    cases t with
    | startDocument =>
      have hs : c.step Token.startDocument = (c, false) := rfl
      rw [run_cons_skip c _ rest hs]
      exact ih opened c (by simpa [readerTokens] using hr) ⟨hb, hw, ho, hnb⟩
    | comment text =>
      have hs : c.step (Token.comment text) = (c, false) := rfl
      rw [run_cons_skip c _ rest hs]
      exact ih opened c (by simpa [readerTokens] using hr) ⟨hb, hw, ho, hnb⟩
    | dtd text =>
      have hs : c.step (Token.dtd text) = (c, false) := rfl
      rw [run_cons_skip c _ rest hs]
      exact ih opened c (by simpa [readerTokens] using hr) ⟨hb, hw, ho, hnb⟩
    | entityReference name =>
      have hs : c.step (Token.entityReference name) = (c, false) := rfl
      rw [run_cons_skip c _ rest hs]
      exact ih opened c (by simpa [readerTokens] using hr) ⟨hb, hw, ho, hnb⟩
    | processingInstruction target =>
      have hs : c.step (Token.processingInstruction target) = (c, false) := rfl
      rw [run_cons_skip c _ rest hs]
      exact ih opened c (by simpa [readerTokens] using hr) ⟨hb, hw, ho, hnb⟩
    | characters text =>
      have hs : c.step (Token.characters text) = (c, false) := by simp [Converter.step, hb]
      rw [run_cons_skip c _ rest hs]
      exact ih opened c (by simpa [readerTokens] using hr) ⟨hb, hw, ho, hnb⟩
    | endDocument =>
      have hrest : rest = [] := by simpa [readerTokens] using hr
      subst hrest
      left
      exact ⟨rfl, by simp [Converter.run, Converter.step, Converter.writeEndDocument, hw, ho]⟩
    | invalid =>
      have hrest : rest = [] := by simpa [readerTokens] using hr
      subst hrest
      left
      exact ⟨rfl, by simp [Converter.run, Converter.step, Converter.writeEndDocument, hw, ho]⟩
    | startElement name attributes =>
      have hr2 : readerTokens (name :: opened) rest = true := by
        simpa [readerTokens] using hr
      by_cases hn : name = "body"
      · subst hn
        right
        refine ⟨by simp [hasBody], ?_⟩
        have hs : c.step (Token.startElement "body" attributes)
            = ({ c.writeStartElement "en-note" with isBody := true }, false) := by
          simp [Converter.step, hb]
        rw [Converter.run, hs]
        simp only [Bool.false_eq_true, if_false]
        apply run_inBody rest ("body" :: opened) _ hr2
        refine ⟨rfl, [], [], opened, ?_, ?_, rfl, ?_⟩
        · simp [Converter.writeStartElement, hw]
        · simp [Converter.writeStartElement, ho, scan]
        · simp [Converter.writeStartElement, ho]
      · rw [run_cons_skip c _ rest
          (step_startElement_unsupported_closed c name attributes hn hb)]
        have hh : hasBody (Token.startElement name attributes :: rest) = hasBody rest := by
          simp [hasBody, hn]
        rw [hh]
        apply ih (name :: opened) c hr2
        refine ⟨hb, hw, ho, ?_⟩
        simp only [List.mem_cons, not_or]
        exact ⟨fun e => hn e.symm, hnb⟩
    | endElement name =>
      cases opened with
      | nil => simp [readerTokens] at hr
      | cons top opened2 =>
        simp only [readerTokens, Bool.and_eq_true, beq_iff_eq] at hr
        obtain ⟨hname, hr2⟩ := hr
        subst hname
        simp only [List.mem_cons, not_or] at hnb
        have hn : name ≠ "body" := fun e => hnb.1 e.symm
        have hs : c.step (Token.endElement name) = (c, false) :=
          step_beforeBody c (Token.endElement name) (by simp [beforeBody, hn]) hb ho
        rw [run_cons_skip c _ rest hs]
        have hh : hasBody (Token.endElement name :: rest) = hasBody rest := by
          simp [hasBody]
        rw [hh]
        exact ih opened2 c hr2 ⟨hb, hw, ho, hnb.2⟩

/-! ## The claims -/

set_option maxRecDepth 8000

/-- Claim C1: in every state reached by constructing a Note (any guid, any initial
update sequence number, any info-file contents) and then calling
setUpdateSequenceNumber / setLastSyncedSequenceNumber any number of times with any
values, synced() is true iff updateSequenceNumber() == lastSyncedSequenceNumber(). -/
theorem synced_iff_sequence_numbers_equal (env : Env) (fs : FS) (guid : String)
    (updateSequenceNumber : Nat) (calls : List SeqCall) :
    (runSeqCalls (Note.new env fs guid updateSequenceNumber).1 calls).synced = true ↔
      (runSeqCalls (Note.new env fs guid updateSequenceNumber).1 calls).updateSequenceNumber
        = (runSeqCalls (Note.new env fs guid
            updateSequenceNumber).1 calls).lastSyncedSequenceNumber := by
  have h := runSeqCalls_syncedInv calls _ (new_syncedInv env fs guid updateSequenceNumber)
  unfold SyncedInv at h
  simp [Note.synced, Note.updateSequenceNumber, Note.lastSyncedSequenceNumber, h]

/-- Claim C2: when setUpdateSequenceNumber(v) or setLastSyncedSequenceNumber(v) is
called with a value different from the one held, needsContentSync is false afterwards
if the resulting state is synced, and keeps its previous value if it is not. -/
theorem needsContentSync_cleared_iff_synced (n : Note) (v : Int) :
    (v ≠ n.updateSequenceNumber →
      ((n.setUpdateSequenceNumber v).synced = true →
        (n.setUpdateSequenceNumber v).needsContentSync = false) ∧
      ((n.setUpdateSequenceNumber v).synced = false →
        (n.setUpdateSequenceNumber v).needsContentSync = n.needsContentSync)) ∧
    (v ≠ n.lastSyncedSequenceNumber →
      ((n.setLastSyncedSequenceNumber v).synced = true →
        (n.setLastSyncedSequenceNumber v).needsContentSync = false) ∧
      ((n.setLastSyncedSequenceNumber v).synced = false →
        (n.setLastSyncedSequenceNumber v).needsContentSync = n.needsContentSync)) := by
  constructor
  · intro hv
    have hv2 : ¬ n.m_updateSequenceNumber = v := fun e => hv e.symm
    unfold Note.setUpdateSequenceNumber
    by_cases hs : n.m_lastSyncedSequenceNumber = v
    · simp [hv2, hs, Note.emit, Note.synced, Note.needsContentSync]
    · have hs2 : ¬ v = n.m_lastSyncedSequenceNumber := fun e => hs e.symm
      simp [hv2, hs2, Note.emit, Note.synced, Note.needsContentSync]
  · intro hv
    have hv2 : ¬ n.m_lastSyncedSequenceNumber = v := fun e => hv e.symm
    unfold Note.setLastSyncedSequenceNumber
    by_cases hs : n.m_updateSequenceNumber = v <;>
      simp [hv2, hs, Note.emit, Note.synced, Note.needsContentSync]

/-- Witness of C2: a note with update sequence number 7 that is set to 5 (not synced
afterwards) and a note with update sequence number 5 whose last synced sequence
number is set to 5 (synced afterwards). -/
theorem needsContentSync_cleared_iff_synced_witness :
    ((5 : Int) ≠ (Note.new sampleEnv emptyFS "g" 7).1.updateSequenceNumber ∧
      (5 : Int) ≠ (Note.new sampleEnv emptyFS "g" 5).1.lastSyncedSequenceNumber) ∧
    ((((Note.new sampleEnv emptyFS "g" 7).1.setUpdateSequenceNumber 5).synced = true →
        ((Note.new sampleEnv emptyFS "g" 7).1.setUpdateSequenceNumber 5).needsContentSync
          = false) ∧
      (((Note.new sampleEnv emptyFS "g" 7).1.setUpdateSequenceNumber 5).synced = false →
        ((Note.new sampleEnv emptyFS "g" 7).1.setUpdateSequenceNumber 5).needsContentSync
          = (Note.new sampleEnv emptyFS "g" 7).1.needsContentSync)) ∧
    ((((Note.new sampleEnv emptyFS "g" 5).1.setLastSyncedSequenceNumber 5).synced = true →
        ((Note.new sampleEnv emptyFS "g" 5).1.setLastSyncedSequenceNumber 5).needsContentSync
          = false) ∧
      (((Note.new sampleEnv emptyFS "g" 5).1.setLastSyncedSequenceNumber 5).synced = false →
        ((Note.new sampleEnv emptyFS "g" 5).1.setLastSyncedSequenceNumber 5).needsContentSync
          = (Note.new sampleEnv emptyFS "g" 5).1.needsContentSync)) :=
  ⟨⟨by decide, by decide⟩,
    (needsContentSync_cleared_iff_synced (Note.new sampleEnv emptyFS "g" 7).1 5).1 (by decide),
    (needsContentSync_cleared_iff_synced (Note.new sampleEnv emptyFS "g" 5).1 5).2 (by decide)⟩

/-- Claim C3: starting from a Note whose tagline is the first 100 characters of the
plaintext of its canonical source, after any sequence of setEnmlContent,
setRichTextContent, insertText and insertLink calls the tagline is again the first 100
characters of the plaintext of the current source: the whole plaintext when that has
at most 100 characters, exactly 100 characters when it is longer. -/
theorem tagline_is_plaintext_left_100 (env : Env) (n : Note) (calls : List ContentCall)
    (h : n.tagline = left (n.plaintextContent env) 100) :
    (runContentCalls env n calls).tagline
        = left ((runContentCalls env n calls).plaintextContent env) 100 ∧
      (((runContentCalls env n calls).plaintextContent env).length ≤ 100 →
        (runContentCalls env n calls).tagline
          = (runContentCalls env n calls).plaintextContent env) ∧
      (100 < ((runContentCalls env n calls).plaintextContent env).length →
        (runContentCalls env n calls).tagline.length = 100) := by
  have key : (runContentCalls env n calls).tagline
      = left ((runContentCalls env n calls).plaintextContent env) 100 :=
    runContentCalls_taglineInv env calls n h
  refine ⟨key, fun hle => ?_, fun hlt => ?_⟩
  · rw [key, left_of_length_le _ _ hle]
  · rw [key, left_length]
    omega

/-- Witness of C3: the sample edits applied to a fresh note. -/
theorem tagline_is_plaintext_left_100_witness :
    sampleNote.tagline = left (sampleNote.plaintextContent sampleEnv) 100 ∧
      (runContentCalls sampleEnv sampleNote sampleCalls).tagline
        = left ((runContentCalls sampleEnv sampleNote sampleCalls).plaintextContent
            sampleEnv) 100 :=
  ⟨by decide, (tagline_is_plaintext_left_100 sampleEnv sampleNote sampleCalls (by decide)).1⟩

/-- Claim C4 (the code departs from it): attachFile never assigns the tagline. The
tagline after the call is the one before it, for every note, position and file; for
the note `g` read from an info file with the tagline "summer plans" and not yet
loaded, the tagline is still "summer plans" after an image was attached although the
plaintext of the new source is empty. -/
theorem attachFile_keeps_stale_tagline :
    (∀ (env : Env) (fs : FS) (n : Note) (position : Int) (fileName : String),
      (n.attachFile env fs position fileName).1.tagline = n.tagline) ∧
    staleFS.fileExists "/home/u/a.png" = true ∧
    ((Note.new sampleEnv staleFS "g" 0).1.attachFile sampleEnv
        (Note.new sampleEnv staleFS "g" 0).2 0 "/home/u/a.png").1.tagline = "summer plans" ∧
    ((Note.new sampleEnv staleFS "g" 0).1.attachFile sampleEnv
        (Note.new sampleEnv staleFS "g" 0).2 0 "/home/u/a.png").1.enmlContent
      = "<en-media/>" ∧
    left (((Note.new sampleEnv staleFS "g" 0).1.attachFile sampleEnv
        (Note.new sampleEnv staleFS "g" 0).2 0 "/home/u/a.png").1.plaintextContent
          sampleEnv) 100 = "" := by
  refine ⟨?_, by decide, by decide, by decide, by decide⟩
  intro env fs n position fileName
  unfold Note.attachFile
  by_cases h : fs.fileExists fileName = true <;> simp [h, Note.emit, Note.tagline]

/-- Counterexample to C5: a freshly constructed note has the empty source and is not
loaded; setEnmlContent with the empty source marks it as loaded. -/
theorem setEnmlContent_same_source_sets_loaded :
    sampleNote.enmlContent = "" ∧ sampleNote.loaded = false ∧
      (sampleNote.setEnmlContent sampleEnv "").loaded = true := by
  decide

/-- Claim C5, amended: setEnmlContent(e) with e textually equal to the current
canonical source changes nothing but the loaded flag, which is true afterwards: the
canonical source, the tagline and needsContentSync are unchanged and no signal is
emitted. -/
theorem setEnmlContent_same_source (env : Env) (n : Note) :
    n.setEnmlContent env n.enmlContent = { n with m_loaded := true } ∧
      (n.setEnmlContent env n.enmlContent).enmlContent = n.enmlContent ∧
      (n.setEnmlContent env n.enmlContent).tagline = n.tagline ∧
      (n.setEnmlContent env n.enmlContent).needsContentSync = n.needsContentSync ∧
      (n.setEnmlContent env n.enmlContent).emissions Signal.contentChanged
        = n.emissions Signal.contentChanged ∧
      (n.setEnmlContent env n.enmlContent).loaded = true := by
  have h : n.setEnmlContent env n.enmlContent = { n with m_loaded := true } := by
    simp [Note.setEnmlContent, Note.enmlContent]
  rw [h]
  simp [Note.enmlContent, Note.tagline, Note.needsContentSync, Note.loaded, Note.emissions]

/-- Claim C6: for a Note with reminderOrder() == 0 and a clock after the epoch,
setReminder(true) makes reminder() true and reminderOrder() positive, and a following
setReminder(false) makes reminder() false and reminderOrder() zero. -/
theorem setReminder_scenario (n : Note) (now later : Int) (h0 : n.reminderOrder = 0)
    (hnow : 0 < now) :
    (n.setReminder true now).reminder = true ∧
      0 < (n.setReminder true now).reminderOrder ∧
      ((n.setReminder true now).setReminder false later).reminder = false ∧
      ((n.setReminder true now).setReminder false later).reminderOrder = 0 := by
  have h0' : n.m_reminderOrder = 0 := h0
  have h1 : n.setReminder true now
      = { n with m_reminderOrder := now }.emit Signal.reminderChanged := by
    simp [Note.setReminder, h0']
  rw [h1]
  simp [Note.setReminder, Note.reminder, Note.reminderOrder, Note.emit, hnow]

/-- Witness of C6: a fresh note and a clock in the year 2014. -/
theorem setReminder_scenario_witness :
    sampleNote.reminderOrder = 0 ∧ (0 : Int) < 1400000000000 ∧
      (sampleNote.setReminder true 1400000000000).reminder = true ∧
      0 < (sampleNote.setReminder true 1400000000000).reminderOrder ∧
      ((sampleNote.setReminder true 1400000000000).setReminder false
        1400000000001).reminder = false ∧
      ((sampleNote.setReminder true 1400000000000).setReminder false
        1400000000001).reminderOrder = 0 :=
  ⟨by decide, by decide,
    setReminder_scenario sampleNote 1400000000000 1400000000001 (by decide) (by decide)⟩

/-- Claim C7 (the code departs from it): with a negative reminderOrder, here -1 set
through setReminderOrder, setReminder(false) leaves reminderOrder at -1 and
setReminder(true) leaves reminder() false. -/
theorem setReminder_negative_reminderOrder :
    ((sampleNote.setReminderOrder (-1)).setReminder false 1400000000000).reminderOrder
        = -1 ∧
      ((sampleNote.setReminderOrder (-1)).setReminder true 1400000000000).reminder
        = false ∧
      ((sampleNote.setReminderOrder (-1)).setReminder true 1400000000000).reminderOrder
        = -1 := by
  decide

/-- Claim C8: addResource with a hash the note holds already keeps the number of
resources and the fileName and type of the existing resource, whose payload becomes
the new data when that is not empty and stays as it was otherwise; with a hash not
yet present the number of resources grows by one and resource(hash) has the given
fileName, type and data. -/
theorem addResource_deduplicates (fs : FS) (n : Note) (hash fileName type : String)
    (data : QByteArray) :
    (∀ r, n.resource hash = some r →
      (n.addResource fs hash fileName type data).1.resources.length = n.resources.length ∧
      (n.addResource fs hash fileName type data).1.resource hash
        = some { r with data := if data.isEmpty then r.data else data }) ∧
    (n.resource hash = none →
      (n.addResource fs hash fileName type data).1.resources.length
        = n.resources.length + 1 ∧
      (n.addResource fs hash fileName type data).1.resource hash
        = some { hash := hash, fileName := fileName, type := type, data := data }) := by
  constructor
  · intro r hr
    have hr' : ResourceMap.value n.m_resources hash = some r := hr
    have hc : ResourceMap.contains n.m_resources hash = true := by
      rw [ResourceMap.contains_eq_isSome, hr']; rfl
    unfold Note.addResource
    by_cases hd : data.isEmpty = true
    · simp [hc, hd, Note.emit, Note.resources, Note.resource, hr']
    · refine ⟨?_, ?_⟩
      · simp [hc, hd, Note.emit, Note.resources, ResourceMap.modify]
      · simp [hc, hd, Note.emit, Note.resource, ResourceMap.value_modify, hr',
          Resource.setData]
  · intro hr
    have hr' : ResourceMap.value n.m_resources hash = none := hr
    have hc : ResourceMap.contains n.m_resources hash = false := by
      rw [ResourceMap.contains_eq_isSome, hr']; rfl
    unfold Note.addResource
    simp [hc, Note.emit, Note.resources, Note.resource, ResourceMap.insert,
      ResourceMap.value_append_new _ _ _ hr']

/-- Witness of C8: a resource is added to a fresh note, then a second one with the
same hash, another file name and a new payload. -/
theorem addResource_deduplicates_witness :
    (sampleNote.resource "0a1b" = none ∧
      (sampleNote.addResource emptyFS "0a1b" "a.png" "image/png" [1, 2]).1.resources.length
        = sampleNote.resources.length + 1 ∧
      (sampleNote.addResource emptyFS "0a1b" "a.png" "image/png" [1, 2]).1.resource "0a1b"
        = some { hash := "0a1b", fileName := "a.png", type := "image/png", data := [1, 2] }) ∧
    (noteWithResource.resource "0a1b"
        = some { hash := "0a1b", fileName := "a.png", type := "image/png", data := [1, 2] } ∧
      (noteWithResource.addResource emptyFS "0a1b" "b.jpg" "image/jpeg" [3]).1.resources.length
        = noteWithResource.resources.length ∧
      (noteWithResource.addResource emptyFS "0a1b" "b.jpg" "image/jpeg" [3]).1.resource "0a1b"
        = some { hash := "0a1b", fileName := "a.png", type := "image/png", data := [3] }) :=
  ⟨⟨by decide,
      (addResource_deduplicates emptyFS sampleNote "0a1b" "a.png" "image/png" [1, 2]).2
        (by decide)⟩,
    ⟨by decide,
      (addResource_deduplicates emptyFS noteWithResource "0a1b" "b.jpg" "image/jpeg" [3]).1
        { hash := "0a1b", fileName := "a.png", type := "image/png", data := [1, 2] }
        (by decide)⟩⟩

/-- Claim C9 (the code departs from it): clone() never assigns the last synced
sequence number. The clone has the value its constructor read from the info file of
the guid, whatever the original holds; for a note without info file whose last synced
sequence number was set to 5, the clone has 0. -/
theorem clone_lastSynced_from_info_file :
    (∀ (env : Env) (fs : FS) (n : Note),
      (n.clone env fs).1.lastSyncedSequenceNumber
        = wrapInt32 (((fs.value (n.clone env fs).1.m_infoFile
            "lastSyncedSequenceNumber").getD (QVariant.int 0)).toUInt env)) ∧
    (sampleNote.setLastSyncedSequenceNumber 5).lastSyncedSequenceNumber = 5 ∧
    ((sampleNote.setLastSyncedSequenceNumber 5).clone sampleEnv
      emptyFS).1.lastSyncedSequenceNumber = 0 := by
  refine ⟨?_, by decide, by decide⟩
  intro env fs n
  obtain ⟨⟨_, h2, _, h4, _⟩, _⟩ := clone_frame env fs n
  show (n.clone env fs).1.m_lastSyncedSequenceNumber = _
  rw [h2, h4]
  exact new_lastSynced env fs n.m_guid (toUInt32 n.m_updateSequenceNumber)

/-- Claim C10 (the code departs from it): clone() never assigns conflicting,
syncError, conflictingNote and renderWidth, and it always marks the clone as loaded.
Whatever the original holds, the clone is not conflicting, has no sync error and no
conflicting note, has the render width -1 and is loaded; the original may be
conflicting, with a sync error, a conflicting note and the render width 300, and not
loaded. -/
theorem clone_drops_sync_state :
    (∀ (env : Env) (fs : FS) (n : Note),
      (n.clone env fs).1.conflicting = false ∧ (n.clone env fs).1.syncError = false ∧
      (n.clone env fs).1.conflictingNote = none ∧ (n.clone env fs).1.renderWidth = -1 ∧
      (n.clone env fs).1.loaded = true ∧ (n.clone env fs).1.loading = false ∧
      (n.clone env fs).1.guid = n.guid) ∧
    (conflictedNote.conflicting = true ∧ conflictedNote.syncError = true ∧
      conflictedNote.conflictingNote = some 1 ∧ conflictedNote.renderWidth = 300 ∧
      conflictedNote.loaded = false) ∧
    ((conflictedNote.clone sampleEnv emptyFS).1.conflicting = false ∧
      (conflictedNote.clone sampleEnv emptyFS).1.syncError = false ∧
      (conflictedNote.clone sampleEnv emptyFS).1.conflictingNote = none ∧
      (conflictedNote.clone sampleEnv emptyFS).1.renderWidth = -1 ∧
      (conflictedNote.clone sampleEnv emptyFS).1.loaded = true) := by
  refine ⟨?_, ⟨by decide, by decide, by decide, by decide, by decide⟩,
    ⟨by decide, by decide, by decide, by decide, by decide⟩⟩
  intro env fs n
  obtain ⟨⟨h1, _, _, _, h5, h6, h7, h8, h9, _⟩, hl⟩ := clone_frame env fs n
  obtain ⟨d1, d2, _, d4, d5, d6, d7, _⟩ :=
    new_defaults env fs n.m_guid (toUInt32 n.m_updateSequenceNumber)
  refine ⟨h7.trans d5, h6.trans d4, h8.trans d6, ?_, hl, h5.trans d2, h1.trans d1⟩
  show (n.clone env fs).1.m_content.renderWidth = -1
  rw [h9, d7]
  rfl

/-- Claim C11: mutating a clone never affects the original. With the `Resource`
objects of the original `n` on a heap (`own` holds the valid pointers of `n`), the
clone `c = n.clone()` holds no pointer of `n`: its `m_conflictingNote` is null and its
resources are objects that `addResource` allocated for it at fresh addresses, first
in the constructor and then in the loop of `clone()`. Any later sequence of
`addResource` calls on the clone, whether the hash is present in `n` or not, acts on
the resources of `c` as `addResource` does and leaves the heap below the addresses of
the clone as it was, so `n` finds the same number of resources with the same
payloads through its pointers. The other members of `n` are values stored in the
object `n` itself, and the setters and `addResource` only assign members of the
object they are called on. -/
theorem clone_shares_no_object (env : Env) (fs : FS) (n : Note) (heap : ResourceHeap)
    (own : PointerMap) (hown : ∀ e ∈ own, e.2 < heap.length) :
    (n.clone env fs).1.m_conflictingNote = none ∧
    ∃ calls : List ResourceCall,
      PointerMap.deref (addResourcesOnHeap calls (heap, [])).1
        (addResourcesOnHeap calls (heap, [])).2 = (n.clone env fs).1.m_resources ∧
      (∀ e ∈ (addResourcesOnHeap calls (heap, [])).2, heap.length ≤ e.2) ∧
      ∀ later : List ResourceCall,
        (addResourcesOnHeap later (addResourcesOnHeap calls (heap, []))).1.take heap.length
          = heap ∧
        PointerMap.objects (addResourcesOnHeap later (addResourcesOnHeap calls (heap, []))).1
          own = PointerMap.objects heap own ∧
        PointerMap.deref (addResourcesOnHeap later (addResourcesOnHeap calls (heap, []))).1
          (addResourcesOnHeap later (addResourcesOnHeap calls (heap, []))).2
          = ResourceMap.addResources later (n.clone env fs).1.m_resources := by
  refine ⟨?_, ?_⟩
  · have h1 := (clone_frame env fs n).1.2.2.2.2.2.2.2.1
    rw [h1]
    exact (new_defaults env fs n.m_guid (toUInt32 n.m_updateSequenceNumber)).2.2.2.2.2.1
  · obtain ⟨calls, hcalls⟩ := clone_growsBy env fs n
    obtain ⟨d1, d2⟩ := addResourcesOnHeap_deref calls (heap, []) (heapInv_empty heap)
    obtain ⟨a1, a2, a3⟩ := addResourcesOnHeap_above calls (heap, []) heap.length
      (Nat.le_refl _) (fun e he => by simp at he)
    refine ⟨calls, ?_, a3, ?_⟩
    · rw [d1, hcalls]; rfl
    · intro later
      obtain ⟨b1, _, _⟩ := addResourcesOnHeap_above later
        (addResourcesOnHeap calls (heap, [])) heap.length a2 a3
      have htake : (addResourcesOnHeap later (addResourcesOnHeap calls (heap, []))).1.take
          heap.length = heap := by
        rw [b1, a1]
        exact List.take_length heap
      refine ⟨htake, objects_of_take heap _ own hown htake, ?_⟩
      rw [(addResourcesOnHeap_deref later _ d2).1, d1, hcalls]
      rfl

theorem clone_shares_no_object_witness :
    PointerMap.deref sampleHeap samplePointers = heapNote.m_resources ∧
    (∀ e ∈ samplePointers, e.2 < sampleHeap.length) ∧
    ((heapNote.clone sampleEnv emptyFS).1.m_conflictingNote = none ∧
    ∃ calls : List ResourceCall,
      PointerMap.deref (addResourcesOnHeap calls (sampleHeap, [])).1
        (addResourcesOnHeap calls (sampleHeap, [])).2
          = (heapNote.clone sampleEnv emptyFS).1.m_resources ∧
      (∀ e ∈ (addResourcesOnHeap calls (sampleHeap, [])).2, sampleHeap.length ≤ e.2) ∧
      ∀ later : List ResourceCall,
        (addResourcesOnHeap later (addResourcesOnHeap calls (sampleHeap, []))).1.take
          sampleHeap.length = sampleHeap ∧
        PointerMap.objects
          (addResourcesOnHeap later (addResourcesOnHeap calls (sampleHeap, []))).1
          samplePointers = PointerMap.objects sampleHeap samplePointers ∧
        PointerMap.deref
          (addResourcesOnHeap later (addResourcesOnHeap calls (sampleHeap, []))).1
          (addResourcesOnHeap later (addResourcesOnHeap calls (sampleHeap, []))).2
          = ResourceMap.addResources later (heapNote.clone sampleEnv emptyFS).1.m_resources) :=
  ⟨by decide, by decide,
    clone_shares_no_object sampleEnv emptyFS heapNote sampleHeap samplePointers (by decide)⟩

/-- Counterexample to C12: the note `g` was loaded from its cache file and edited in
memory; after setGuid the cache file of the new guid holds the edited source and not
the content the cache file of `g` had. -/
theorem setGuid_rewrites_cache_file :
    cachedFS "/store/note-g.enml" = some (FileData.text "<en-note>kept</en-note>") ∧
    (loadedNote.insertText sampleEnv 9 "not ").guid = "g" ∧
    ((loadedNote.insertText sampleEnv 9 "not ").setGuid sampleEnv cachedFS "h").2
        "/store/note-h.enml" = some (FileData.text "<en-note>not kept</en-note>") := by
  decide

/-- Claim C12, amended: for a loaded Note with guid A whose cache-file and info-file
paths are those of A, whose cache file exists, and with no file at the cache path of
B != A:
after setGuid(B) no file remains at the cache path and at the info path of A, a cache
file exists at the cache path of B, and guidChanged is emitted exactly once. The
cache file of B holds the in-memory canonical source when it can be opened for
writing, and the renamed content otherwise; it is identical to the content at the
path of A when that content is the in-memory canonical source. -/
theorem setGuid_moves_cache_file (env : Env) (fs : FS) (n : Note) (guid : String)
    (hA : n.m_guid ≠ guid) (_hl : n.loaded = true)
    (hc : n.m_cacheFile = cacheFilePath env n.m_guid)
    (hi : n.m_infoFile = infoFilePath env n.m_guid)
    (hex : fs.fileExists (cacheFilePath env n.m_guid) = true)
    (hfree : fs.fileExists (cacheFilePath env guid) = false) :
    (n.setGuid env fs guid).2 (cacheFilePath env n.m_guid) = none ∧
    (n.setGuid env fs guid).2 (infoFilePath env n.m_guid) = none ∧
    (n.setGuid env fs guid).2 (cacheFilePath env guid)
      = (if env.canOpenWrite (cacheFilePath env guid)
          then some (FileData.text n.enmlContent) else fs (cacheFilePath env n.m_guid)) ∧
    ((n.setGuid env fs guid).2).fileExists (cacheFilePath env guid) = true ∧
    (fs (cacheFilePath env n.m_guid) = some (FileData.text n.enmlContent) →
      (n.setGuid env fs guid).2 (cacheFilePath env guid) = fs (cacheFilePath env n.m_guid)) ∧
    (n.setGuid env fs guid).1.emissions Signal.guidChanged
      = n.emissions Signal.guidChanged + 1 ∧
    (n.setGuid env fs guid).1.guid = guid := by
  have hci : cacheFilePath env n.m_guid ≠ infoFilePath env n.m_guid :=
    cacheFilePath_ne_infoFilePath env _ _
  have hcB : cacheFilePath env n.m_guid ≠ cacheFilePath env guid :=
    fun e => hA (cacheFilePath_injective env _ _ e)
  have hiB : infoFilePath env n.m_guid ≠ infoFilePath env guid :=
    fun e => hA (infoFilePath_injective env _ _ e)
  have hic : infoFilePath env n.m_guid ≠ cacheFilePath env guid :=
    fun e => cacheFilePath_ne_infoFilePath env _ _ e.symm
  have hcBi : cacheFilePath env guid ≠ infoFilePath env guid :=
    cacheFilePath_ne_infoFilePath env _ _
  have hcAiB : cacheFilePath env n.m_guid ≠ infoFilePath env guid :=
    cacheFilePath_ne_infoFilePath env _ _
  have hcBiA : cacheFilePath env guid ≠ infoFilePath env n.m_guid :=
    cacheFilePath_ne_infoFilePath env _ _
  have hex2 : (fs.remove n.m_infoFile).fileExists n.m_cacheFile = true := by
    rw [hc, hi, fileExists_remove_ne _ _ _ hci]; exact hex
  have hfree2 : (fs.remove n.m_infoFile).fileExists (cacheFilePath env guid) = false := by
    rw [hi, fileExists_remove_ne _ _ _ hcBiA]; exact hfree
  have hi0 : n.m_infoFile ≠ "" := by rw [hi]; exact infoFilePath_ne_empty env _
  have hr : ((fs.remove n.m_infoFile).rename n.m_cacheFile (cacheFilePath env guid)).1
      = fun p => if p = cacheFilePath env guid then (fs.remove n.m_infoFile) n.m_cacheFile
          else if p = n.m_cacheFile then none else (fs.remove n.m_infoFile) p := by
    simp [FS.rename, hex2, hfree2, cacheFilePath_ne_empty]
  have hset := setGuid_snd_renamed env fs n guid hA hi0 hex2 hfree2
  obtain ⟨m, hm⟩ : ∃ m : Note, m = n.regrouped env guid := ⟨_, rfl⟩
  rw [← hm] at hset
  have mi : m.m_infoFile = infoFilePath env guid := by rw [hm]; rfl
  have mc : m.m_cacheFile = cacheFilePath env guid := by rw [hm]; rfl
  have me : m.m_content = n.m_content := by rw [hm]; rfl
  have mg : m.m_guid = guid := by rw [hm]; rfl
  have mem : m.emitted = n.emitted := by rw [hm]; rfl
  have h1 : (n.setGuid env fs guid).1 = m.emit Signal.guidChanged := by rw [hset]
  have h2 : (n.setGuid env fs guid).2 = Note.syncToCacheFile env (Note.syncToInfoFile
      ((fs.remove n.m_infoFile).rename n.m_cacheFile (cacheFilePath env guid)).1 m) m := by
    rw [hset]
  rw [h1, h2]
  have hB : (Note.syncToCacheFile env (Note.syncToInfoFile
      ((fs.remove n.m_infoFile).rename n.m_cacheFile (cacheFilePath env guid)).1 m) m)
        (cacheFilePath env guid)
      = (if env.canOpenWrite (cacheFilePath env guid)
          then some (FileData.text n.enmlContent) else fs (cacheFilePath env n.m_guid)) := by
    have e := syncToCacheFile_apply_cache env (Note.syncToInfoFile
      ((fs.remove n.m_infoFile).rename n.m_cacheFile (cacheFilePath env guid)).1 m) m
      (by rw [mi, mc]; exact hcBi) (by rw [mc]; exact cacheFilePath_ne_empty env guid)
    rw [mc] at e
    rw [e, syncToInfoFile_apply_ne _ _ _ (by rw [mi]; exact hcBi), hr, me]
    simp [hc, hi, FS.remove, hci, Note.enmlContent]
  refine ⟨?_, ?_, hB, ?_, ?_, ?_, ?_⟩
  · rw [syncToCacheFile_apply_ne env _ _ _ (by rw [mi]; exact hcAiB) (by rw [mc]; exact hcB),
      syncToInfoFile_apply_ne _ _ _ (by rw [mi]; exact hcAiB), hr]
    simp [hc, hcB]
  · rw [syncToCacheFile_apply_ne env _ _ _ (by rw [mi]; exact hiB) (by rw [mc]; exact hic),
      syncToInfoFile_apply_ne _ _ _ (by rw [mi]; exact hiB), hr]
    simp [hc, hi, hic, FS.remove, hci.symm]
  · have hsome : (fs (cacheFilePath env n.m_guid)).isSome = true := by
      simpa [FS.fileExists, cacheFilePath_ne_empty] using hex
    simp only [FS.fileExists, hB]
    by_cases hw : env.canOpenWrite (cacheFilePath env guid) = true
    · simp [hw, cacheFilePath_ne_empty]
    · simp [hw, cacheFilePath_ne_empty, hsome]
  · intro hsame
    rw [hB, hsame]
    simp
  · simp [Note.emissions, Note.emit, List.count_append, mem]
  · simp [Note.guid, Note.emit, mg]

/-- Witness of C12: the loaded note `g`, whose cache file holds its source, gets the
guid `h`. -/
theorem setGuid_moves_cache_file_witness :
    (loadedNote.m_guid ≠ "h" ∧ loadedNote.loaded = true ∧
      loadedNote.m_cacheFile = cacheFilePath sampleEnv loadedNote.m_guid ∧
      loadedNote.m_infoFile = infoFilePath sampleEnv loadedNote.m_guid ∧
      cachedFS.fileExists (cacheFilePath sampleEnv loadedNote.m_guid) = true ∧
      cachedFS.fileExists (cacheFilePath sampleEnv "h") = false ∧
      cachedFS (cacheFilePath sampleEnv loadedNote.m_guid)
        = some (FileData.text loadedNote.enmlContent)) ∧
    (loadedNote.setGuid sampleEnv cachedFS "h").2 (cacheFilePath sampleEnv loadedNote.m_guid)
      = none ∧
    (loadedNote.setGuid sampleEnv cachedFS "h").2 (infoFilePath sampleEnv loadedNote.m_guid)
      = none ∧
    (loadedNote.setGuid sampleEnv cachedFS "h").2 (cacheFilePath sampleEnv "h")
      = cachedFS (cacheFilePath sampleEnv loadedNote.m_guid) ∧
    (loadedNote.setGuid sampleEnv cachedFS "h").1.emissions Signal.guidChanged
      = loadedNote.emissions Signal.guidChanged + 1 :=
  ⟨⟨by decide, by decide, by decide, by decide, by decide, by decide, by decide⟩,
    (setGuid_moves_cache_file sampleEnv cachedFS loadedNote "h" (by decide) (by decide)
      (by decide) (by decide) (by decide) (by decide)).1,
    (setGuid_moves_cache_file sampleEnv cachedFS loadedNote "h" (by decide) (by decide)
      (by decide) (by decide) (by decide) (by decide)).2.1,
    (setGuid_moves_cache_file sampleEnv cachedFS loadedNote "h" (by decide) (by decide)
      (by decide) (by decide) (by decide) (by decide)).2.2.2.2.1 (by decide),
    (setGuid_moves_cache_file sampleEnv cachedFS loadedNote "h" (by decide) (by decide)
      (by decide) (by decide) (by decide) (by decide)).2.2.2.2.2.1⟩

/-- Claim C13 (the code departs from it): the constructor gives every note the cache
path of its guid, but the info path only when the guid is not empty: for the empty
guid the call of setGuid in the constructor does nothing and the info path stays
empty. And setGuid keeps the old cache path when a file exists already at the cache
path of the new guid, as for the note `g` renamed to `h`. -/
theorem paths_not_always_of_guid :
    (∀ (env : Env) (fs : FS) (guid : String) (usn : Nat),
      (Note.new env fs guid usn).1.m_cacheFile = cacheFilePath env guid ∧
      (Note.new env fs guid usn).1.m_infoFile
        = (if guid = "" then "" else infoFilePath env guid)) ∧
    ((Note.new sampleEnv emptyFS "" 0).1.m_infoFile = "" ∧
      infoFilePath sampleEnv "" = "/store/note-.info") ∧
    ((cachedNote.setGuid sampleEnv crowdedFS "h").1.guid = "h" ∧
      (cachedNote.setGuid sampleEnv crowdedFS "h").1.m_cacheFile = "/store/note-g.enml" ∧
      cacheFilePath sampleEnv "h" = "/store/note-h.enml") := by
  refine ⟨new_paths, ⟨by decide, by decide⟩, by decide, by decide, by decide⟩

/-- Counterexample to C14: for the note `g` neither an info file nor a cache file
exists; setGuid to `h` creates both files of `h`. -/
theorem setGuid_persists_without_files :
    (emptyFS.fileExists sampleNote.m_infoFile = false ∧
      emptyFS.fileExists sampleNote.m_cacheFile = false) ∧
    (sampleNote.setGuid sampleEnv emptyFS "h").2.fileExists "/store/note-h.info" = true ∧
    (sampleNote.setGuid sampleEnv emptyFS "h").2.fileExists "/store/note-h.enml" = true := by
  decide

/-- Claim C14, amended: setGuid re-persists whenever the note has an info-file path,
whether or not a file exists: for a Note with a non-empty info-file path setGuid(B)
with B != A leaves an info file at the info path of B; for a Note with an empty
info-file path and without cache file it leaves the file system unchanged; and
setGuid(A) with the guid already held changes nothing and emits no guidChanged. -/
theorem setGuid_persists_when_info_path_set :
    (∀ (env : Env) (fs : FS) (n : Note), n.setGuid env fs n.guid = (n, fs)) ∧
    (∀ (env : Env) (fs : FS) (n : Note) (guid : String), guid ≠ n.guid →
      n.m_infoFile = "" → fs.fileExists n.m_cacheFile = false →
      (n.setGuid env fs guid).2 = fs) ∧
    (∀ (env : Env) (fs : FS) (n : Note) (guid : String), guid ≠ n.guid →
      n.m_infoFile ≠ "" →
      (n.setGuid env fs guid).2.fileExists (infoFilePath env guid) = true) := by
  refine ⟨setGuid_same, ?_, ?_⟩
  · intro env fs n guid _ hi hc
    exact setGuid_snd_unsynced env fs n guid hi hc
  · intro env fs n guid hg hi
    obtain ⟨fs1, m, h1, h2⟩ := setGuid_snd_synced env fs n guid (fun e => hg e.symm) hi
    have hp : m.m_infoFile ≠ "" := by rw [h2]; exact infoFilePath_ne_empty env guid
    have h3 := syncToCacheFile_isSome env _ m _ (syncToInfoFile_apply_self fs1 m hp)
    rw [h2] at h3
    simp [FS.fileExists, h1, h3, infoFilePath_ne_empty]

/-- Witness of C14: a note constructed with the empty guid has no info-file path and
setGuid writes nothing; the note `g` has one and setGuid writes the info file of `h`. -/
theorem setGuid_persists_when_info_path_set_witness :
    ("h" ≠ (Note.new sampleEnv emptyFS "" 0).1.guid ∧
      (Note.new sampleEnv emptyFS "" 0).1.m_infoFile = "" ∧
      emptyFS.fileExists (Note.new sampleEnv emptyFS "" 0).1.m_cacheFile = false) ∧
    ((Note.new sampleEnv emptyFS "" 0).1.setGuid sampleEnv emptyFS "h").2 = emptyFS ∧
    ("h" ≠ sampleNote.guid ∧ sampleNote.m_infoFile ≠ "") ∧
    (sampleNote.setGuid sampleEnv emptyFS "h").2.fileExists (infoFilePath sampleEnv "h")
      = true :=
  ⟨⟨by decide, by decide, by decide⟩,
    setGuid_persists_when_info_path_set.2.1 sampleEnv emptyFS
      (Note.new sampleEnv emptyFS "" 0).1 "h" (by decide) (by decide) (by decide),
    ⟨by decide, by decide⟩,
    setGuid_persists_when_info_path_set.2.2 sampleEnv emptyFS sampleNote "h" (by decide)
      (by decide)⟩

/-- Claim C15: load(priorityHigh) first loads the content from the cache file when the
note is not loaded and the cache file exists. It then issues a request if and only if
the note is still not loaded or a resource is not cached: one content fetch when the
note is not loaded, one resources-only fetch when it is loaded and some resource is
not cached, however many are, and none when it is loaded and all are cached. -/
theorem load_requests (env : Env) (fs : FS) (n : Note) (priorityHigh : Bool) :
    (n.load env fs priorityHigh).1
      = (if n.loaded = false ∧ n.isCached fs = true then n.loadFromCacheFile env fs else n) ∧
    (n.load env fs priorityHigh).2.length ≤ 1 ∧
    ((n.load env fs priorityHigh).2 ≠ [] ↔
      (n.load env fs priorityHigh).1.loaded = false ∨
        ∃ r ∈ n.resources, env.resourceIsCached fs r = false) ∧
    ((n.load env fs priorityHigh).1.loaded = false →
      (n.load env fs priorityHigh).2
        = [{ guid := n.guid, what := LoadWhat.LoadContent,
             priority := Note.contentPriority priorityHigh }]) ∧
    ((n.load env fs priorityHigh).1.loaded = true →
      (∃ r ∈ n.resources, env.resourceIsCached fs r = false) →
      (n.load env fs priorityHigh).2
        = [{ guid := n.guid, what := LoadWhat.LoadResources,
             priority := Note.resourcesPriority priorityHigh }]) ∧
    ((n.load env fs priorityHigh).1.loaded = true →
      (∀ r ∈ n.resources, env.resourceIsCached fs r = true) →
      (n.load env fs priorityHigh).2 = []) := by
  have hfst : (n.load env fs priorityHigh).1 = n.loadCheck env fs := by
    unfold Note.load
    by_cases h : (n.loadCheck env fs).m_loaded = true <;> simp [h]
  have hcheck : n.loadCheck env fs
      = (if n.loaded = false ∧ n.isCached fs = true then n.loadFromCacheFile env fs else n) := by
    unfold Note.loadCheck Note.loaded
    by_cases h1 : n.m_loaded = true <;> by_cases h2 : n.isCached fs = true <;> simp [h1, h2]
  obtain ⟨hres, hguid⟩ := loadCheck_members env fs n
  obtain ⟨hnil, hone⟩ := loadResources_nil_iff env fs n.m_guid priorityHigh n.resources
  have hsnd : (n.load env fs priorityHigh).2
      = (if (n.loadCheck env fs).m_loaded = true
          then Note.loadResources env fs n.m_guid priorityHigh n.resources
          else [{ guid := n.m_guid, what := LoadWhat.LoadContent,
                  priority := Note.contentPriority priorityHigh }]) := by
    unfold Note.load
    by_cases h : (n.loadCheck env fs).m_loaded = true <;> simp [h, hres, hguid]
  rw [hfst, hsnd, ← hcheck]
  by_cases hl : (n.loadCheck env fs).m_loaded = true
  · simp only [hl, if_true, Note.loaded, Bool.true_eq_false, false_or, false_implies, true_implies,
      true_and]
    refine ⟨?_, ?_, ?_, ?_⟩
    · rcases hone with h | h <;> simp [h]
    · rw [Ne, hnil]
      simp
    · intro hex
      rcases hone with h | h
      · obtain ⟨r, hr, hc⟩ := hex
        have := hnil.1 h r hr
        simp [hc] at this
      · exact h
    · intro hall
      exact hnil.2 hall
  · have hl2 : (n.loadCheck env fs).m_loaded = false := by simpa using hl
    simp [hl2, Note.loaded, Note.guid]

/-- Witness of C15: a note without cache file, a loaded note with a resource that is
not cached, and a loaded note without resources. -/
theorem load_requests_witness :
    ((sampleNote.load sampleEnv emptyFS false).1.loaded = false ∧
      (sampleNote.load sampleEnv emptyFS false).2
        = [{ guid := sampleNote.guid, what := LoadWhat.LoadContent,
             priority := Note.contentPriority false }]) ∧
    ((uncachedNote.load sampleEnv cachedFS true).1.loaded = true ∧
      (∃ r ∈ uncachedNote.resources, sampleEnv.resourceIsCached cachedFS r = false) ∧
      (uncachedNote.load sampleEnv cachedFS true).2
        = [{ guid := uncachedNote.guid, what := LoadWhat.LoadResources,
             priority := Note.resourcesPriority true }]) ∧
    ((loadedNote.load sampleEnv cachedFS true).1.loaded = true ∧
      (∀ r ∈ loadedNote.resources, sampleEnv.resourceIsCached cachedFS r = true) ∧
      (loadedNote.load sampleEnv cachedFS true).2 = []) :=
  ⟨⟨by decide,
      (load_requests sampleEnv emptyFS sampleNote false).2.2.2.1 (by decide)⟩,
    ⟨by decide, by decide,
      (load_requests sampleEnv cachedFS uncachedNote true).2.2.2.2.1 (by decide) (by decide)⟩,
    ⟨by decide, by decide,
      (load_requests sampleEnv cachedFS loadedNote true).2.2.2.2.2 (by decide) (by decide)⟩⟩

/-- Counterexample to C16: with priorityHigh set, load requests the content fetch and
the resources-only fetch at the same priority, JobPriorityHigh. -/
theorem load_priorityHigh_same_priority :
    (sampleNote.load sampleEnv emptyFS true).2
      = [{ guid := "g", what := LoadWhat.LoadContent,
           priority := JobPriority.JobPriorityHigh }] ∧
    (uncachedNote.load sampleEnv cachedFS true).2
      = [{ guid := "g", what := LoadWhat.LoadResources,
           priority := JobPriority.JobPriorityHigh }] ∧
    ¬ JobPriority.JobPriorityHigh.rank < JobPriority.JobPriorityHigh.rank := by
  decide

/-- Claim C16, amended: the priority at which load(priorityHigh) requests a content
fetch is never lower than the priority at which it requests a resources-only fetch,
and it is strictly higher when priorityHigh is false; with priorityHigh set both are
JobPriorityHigh. -/
theorem load_content_priority_not_lower (env env2 : Env) (fs fs2 : FS) (n m : Note)
    (priorityHigh : Bool) (q1 q2 : FetchRequest)
    (h1 : q1 ∈ (n.load env fs priorityHigh).2) (hc : q1.what = LoadWhat.LoadContent)
    (h2 : q2 ∈ (m.load env2 fs2 priorityHigh).2) (hr : q2.what = LoadWhat.LoadResources) :
    q2.priority.rank ≤ q1.priority.rank ∧
    (priorityHigh = false → q2.priority.rank < q1.priority.rank) ∧
    (priorityHigh = true → q1.priority = JobPriority.JobPriorityHigh ∧
      q2.priority = JobPriority.JobPriorityHigh) := by
  have e1 := (load_request_priority env fs n priorityHigh q1 h1).1 hc
  have e2 := (load_request_priority env2 fs2 m priorityHigh q2 h2).2 hr
  rw [e1, e2]
  cases priorityHigh <;> simp [Note.contentPriority, Note.resourcesPriority, JobPriority.rank]

/-- Witness of C16: the content fetch of a note without cache file and the
resources-only fetch of a loaded note, both without priorityHigh. -/
theorem load_content_priority_not_lower_witness :
    (({ guid := "g", what := LoadWhat.LoadContent,
        priority := JobPriority.JobPriorityMedium } : FetchRequest)
        ∈ (sampleNote.load sampleEnv emptyFS false).2 ∧
      ({ guid := "g", what := LoadWhat.LoadResources,
         priority := JobPriority.JobPriorityLow } : FetchRequest)
        ∈ (uncachedNote.load sampleEnv cachedFS false).2) ∧
    JobPriority.JobPriorityLow.rank ≤ JobPriority.JobPriorityMedium.rank ∧
    (false = false → JobPriority.JobPriorityLow.rank < JobPriority.JobPriorityMedium.rank) :=
  ⟨⟨by decide, by decide⟩,
    (load_content_priority_not_lower sampleEnv sampleEnv emptyFS cachedFS sampleNote
      uncachedNote false
      { guid := "g", what := LoadWhat.LoadContent, priority := JobPriority.JobPriorityMedium }
      { guid := "g", what := LoadWhat.LoadResources, priority := JobPriority.JobPriorityLow }
      (by decide) rfl (by decide) rfl).1,
    (load_content_priority_not_lower sampleEnv sampleEnv emptyFS cachedFS sampleNote
      uncachedNote false
      { guid := "g", what := LoadWhat.LoadContent, priority := JobPriority.JobPriorityMedium }
      { guid := "g", what := LoadWhat.LoadResources, priority := JobPriority.JobPriorityLow }
      (by decide) rfl (by decide) rfl).2.1⟩

/-- Claim C17 (the code departs from it): loadFromCacheFile marks the note as loaded
also when the cache file cannot be opened. For the note `g`, not loaded, whose cache
file exists but cannot be opened for reading, load leaves the note loaded with an
empty source and issues no request; only when the cache file is missing, as for the
sample note, the note stays not loaded and a content fetch is requested. -/
theorem load_unreadable_cache_marks_loaded :
    (∀ (env : Env) (fs : FS) (n : Note), (n.loadFromCacheFile env fs).loaded = true) ∧
    (cachedNote.loaded = false ∧ cachedNote.isCached cachedFS = true ∧
      lockedEnv.canOpenRead cachedNote.m_cacheFile = false) ∧
    ((cachedNote.load lockedEnv cachedFS false).1.loaded = true ∧
      (cachedNote.load lockedEnv cachedFS false).1.enmlContent = "" ∧
      (cachedNote.load lockedEnv cachedFS false).2 = []) ∧
    ((sampleNote.load sampleEnv emptyFS false).1.loaded = false ∧
      (sampleNote.load sampleEnv emptyFS false).2
        = [{ guid := "g", what := LoadWhat.LoadContent,
             priority := JobPriority.JobPriorityMedium }]) := by
  refine ⟨fun env fs n => rfl, by decide, by decide, by decide⟩

/-- Claim C18: an element of the body whose name is not on the allow-list is
unwrapped. Leaving out its start and end tag does not change the output, so its text
and its child elements are converted as if they stood in its place; no tag other than
those of the root `en-note` and of allow-listed elements is ever written; text read
inside the body is written, and so is an allow-listed element with its attributes,
whatever elements are open around them. The conversion is a total function: it
returns an output for every input. -/
theorem html2enml_unwraps_unsupported :
    (∀ (pre mid post : List Token) (name : String) (attributes : List Attribute),
      name ∉ supportedTags → name ≠ "body" →
      html2enml (pre ++ Token.startElement name attributes ::
          (mid ++ Token.endElement name :: post))
        = html2enml (pre ++ (mid ++ post))) ∧
    (∀ (tokens : List Token) (w : Written), w ∈ html2enml tokens → w.tagAllowed = true) ∧
    (∀ (pre post : List Token) (d : Converter) (text : String),
      Converter.start.run pre = (d, false) → d.isBody = true →
      ∃ l, html2enml (pre ++ Token.characters text :: post)
        = d.written ++ Written.characters text :: l) ∧
    (∀ (pre post : List Token) (d : Converter) (name : String) (attributes : List Attribute),
      Converter.start.run pre = (d, false) → d.isBody = true → name ∈ supportedTags →
      ∃ l, html2enml (pre ++ Token.startElement name attributes :: post)
        = d.written ++ Written.startElement name :: Written.attributes attributes :: l) := by
  refine ⟨?_, tagsAllowed_html2enml, ?_, ?_⟩
  · intro pre mid post name attributes hs hb
    have e1 : Converter.start.run (pre ++ Token.startElement name attributes ::
        (mid ++ Token.endElement name :: post))
        = Converter.start.run (pre ++ (mid ++ Token.endElement name :: post)) :=
      run_skip _ pre _ _ (fun d => step_startElement_unsupported d name attributes hs (Or.inr hb))
    have e2 : Converter.start.run ((pre ++ mid) ++ Token.endElement name :: post)
        = Converter.start.run ((pre ++ mid) ++ post) :=
      run_skip _ (pre ++ mid) _ _ (fun d => step_endElement_unsupported d name hs hb)
    simp only [List.append_assoc] at e2
    simp only [html2enml, Converter.loop, e1, e2]
  · intro pre post d text h hb
    obtain ⟨l1, h1⟩ := html2enml_written pre (Token.characters text :: post) d h
    have hstep : d.step (Token.characters text) = (d.writeCharacters text, false) := by
      simp [Converter.step, hb]
    obtain ⟨l2, h2⟩ := run_written post (d.writeCharacters text)
    refine ⟨l2 ++ l1, ?_⟩
    rw [h1, Converter.run, hstep]
    simp only [Bool.false_eq_true, if_false]
    rw [h2]
    simp [Converter.writeCharacters]
  · intro pre post d name attributes h hb hs
    obtain ⟨l1, h1⟩ := html2enml_written pre (Token.startElement name attributes :: post) d h
    obtain ⟨l2, h2⟩ := run_written post ((d.writeStartElement name).writeAttributes attributes)
    refine ⟨l2 ++ l1, ?_⟩
    rw [h1, Converter.run, step_startElement_supported d name attributes hs hb]
    simp only [Bool.false_eq_true, if_false]
    rw [h2]
    simp [Converter.writeStartElement, Converter.writeAttributes]

/-- Witness of C18: the sample document, in which a `script` element around text and a
`b` element stands inside a `p` element of the body. -/
theorem html2enml_unwraps_unsupported_witness :
    ("script" ∉ supportedTags ∧ "script" ≠ "body" ∧ "b" ∈ supportedTags) ∧
    html2enml ([Token.startElement "body" [], Token.characters "Hello "] ++
        Token.startElement "script" [] :: ([Token.characters "alert(1)"] ++
          Token.endElement "script" :: [Token.endElement "body"]))
      = html2enml ([Token.startElement "body" [], Token.characters "Hello "] ++
        ([Token.characters "alert(1)"] ++ [Token.endElement "body"])) ∧
    (Written.startElement "en-note" ∈ html2enml sampleTokens ∧
      (Written.startElement "en-note").tagAllowed = true) ∧
    (∃ l, html2enml ([Token.startElement "body" [], Token.startElement "script" []] ++
        Token.characters "alert(1)" :: [Token.endElement "script"])
      = (Converter.start.run [Token.startElement "body" [],
          Token.startElement "script" []]).1.written ++ Written.characters "alert(1)" :: l) ∧
    (∃ l, html2enml ([Token.startElement "body" [], Token.startElement "script" []] ++
        Token.startElement "b" [{ name := "id", value := "k" }] :: [Token.endElement "b"])
      = (Converter.start.run [Token.startElement "body" [],
          Token.startElement "script" []]).1.written ++ Written.startElement "b" ::
            Written.attributes [{ name := "id", value := "k" }] :: l) :=
  ⟨⟨by decide, by decide, by decide⟩,
    html2enml_unwraps_unsupported.1 [Token.startElement "body" [], Token.characters "Hello "]
      [Token.characters "alert(1)"] [Token.endElement "body"] "script" [] (by decide)
      (by decide),
    ⟨by decide, html2enml_unwraps_unsupported.2.1 sampleTokens (Written.startElement "en-note")
      (by decide)⟩,
    html2enml_unwraps_unsupported.2.2.1 [Token.startElement "body" [],
      Token.startElement "script" []] [Token.endElement "script"] _ "alert(1)" rfl (by decide),
    html2enml_unwraps_unsupported.2.2.2 [Token.startElement "body" [],
      Token.startElement "script" []] [Token.endElement "b"] _ "b"
      [{ name := "id", value := "k" }] rfl (by decide) (by decide)⟩

/-- Claim C19: tokens before the opening tag of the body write nothing, tokens after the
closing tag of the body write nothing, and the body itself is written as the root
element `en-note` around what its content writes. -/
theorem html2enml_only_body :
    (∀ (pre rest : List Token), (∀ t ∈ pre, beforeBody t = true) →
      html2enml (pre ++ rest) = html2enml rest) ∧
    (∀ (tokens post : List Token),
      html2enml (tokens ++ Token.endElement "body" :: post)
        = html2enml (tokens ++ [Token.endElement "body"])) ∧
    (∀ (pre inner post : List Token) (attributes : List Attribute),
      (∀ t ∈ pre, beforeBody t = true) → wellNested [] inner = true →
      html2enml (pre ++ Token.startElement "body" attributes ::
          (inner ++ Token.endElement "body" :: post))
        = Converter.start.written ++ Written.startElement "en-note" ::
            (bodyWritten inner ++ [Written.endElement "en-note"])) := by
  refine ⟨?_, ?_, ?_⟩
  · intro pre rest hpre
    simp only [html2enml, Converter.loop, run_beforeBody Converter.start pre rest hpre rfl rfl]
  · intro tokens post
    simp only [html2enml, Converter.loop, run_endBody]
  · intro pre inner post attributes hpre hw
    have hstart : Converter.start.step (Token.startElement "body" attributes)
        = ({ Converter.start.writeStartElement "en-note" with isBody := true }, false) := by
      simp [Converter.step, Converter.start]
    have hin := run_wellNested inner [] ["en-note"]
      { Converter.start.writeStartElement "en-note" with isBody := true } hw rfl rfl
    simp only [html2enml, Converter.loop, run_beforeBody Converter.start pre _ hpre rfl rfl]
    rw [Converter.run, hstart]
    simp only [Bool.false_eq_true, if_false]
    rw [run_append, hin]
    simp [Converter.run, Converter.step, Converter.writeEndElement, Converter.writeEndDocument,
      Converter.writeStartElement, Converter.start]

/-- Witness of C19: the sample document, with a head before the body and text after it. -/
theorem html2enml_only_body_witness :
    ((∀ t ∈ sampleTokens.take 7, beforeBody t = true) ∧
      wellNested [] ((sampleTokens.drop 8).take 9) = true) ∧
    html2enml (sampleTokens.take 7 ++ sampleTokens.drop 7)
      = html2enml (sampleTokens.drop 7) ∧
    html2enml (sampleTokens.take 7 ++
        Token.startElement "body" [{ name := "class", value := "x" }] ::
          ((sampleTokens.drop 8).take 9 ++ Token.endElement "body" :: sampleTokens.drop 18))
      = Converter.start.written ++ Written.startElement "en-note" ::
          (bodyWritten ((sampleTokens.drop 8).take 9) ++ [Written.endElement "en-note"]) :=
  ⟨⟨by decide, by decide⟩,
    html2enml_only_body.1 (sampleTokens.take 7) (sampleTokens.drop 7) (by decide),
    html2enml_only_body.2.2 (sampleTokens.take 7) ((sampleTokens.drop 8).take 9)
      (sampleTokens.drop 18) [{ name := "class", value := "x" }] (by decide) (by decide)⟩

/-- Counterexample to C20: the allow-list of the code, which is the list the claim
spells out, has 63 names and not 64. -/
theorem supportedTags_has_63_names :
    supportedTags = specAllowList ∧ specAllowList.length = 63 ∧
      ¬ supportedTags.length = 64 := by
  decide

/-- Claim C20, amended: an element inside the body is copied to the output, start tag
with all its attributes and end tag, if and only if its name is one of exactly the 63
names of the allow-list; matching is case-sensitive. -/
theorem supportedTags_decides_copy :
    (∀ name, name ∈ supportedTags ↔ name ∈ specAllowList) ∧
    supportedTags.length = 63 ∧ supportedTags.Nodup ∧
    ("P" ∉ supportedTags ∧ "Div" ∉ supportedTags ∧ "body" ∉ supportedTags) ∧
    (∀ (d : Converter) (name : String) (attributes : List Attribute), d.isBody = true →
      (name ∈ supportedTags →
        (d.step (Token.startElement name attributes)).1.written
          = d.written ++ [Written.startElement name, Written.attributes attributes] ∧
        (d.step (Token.endElement name)).1 = d.writeEndElement) ∧
      (name ∉ supportedTags →
        (d.step (Token.startElement name attributes)).1 = d ∧
        (name ≠ "body" → (d.step (Token.endElement name)).1 = d))) := by
  refine ⟨fun name => by rw [show supportedTags = specAllowList by decide], by decide,
    by decide, by decide, ?_⟩
  intro d name attributes hb
  refine ⟨fun hs => ⟨?_, ?_⟩, fun hs => ⟨?_, fun hn => ?_⟩⟩
  · rw [step_startElement_supported d name attributes hs hb]
    simp [Converter.writeStartElement, Converter.writeAttributes]
  · rw [step_endElement_supported d name hs]
  · rw [step_startElement_unsupported d name attributes hs (Or.inl hb)]
  · rw [step_endElement_unsupported d name hs hn]

/-- Witness of C20: inside the body a `p` element is copied and a `script` element is
not. -/
theorem supportedTags_decides_copy_witness :
    ((Converter.start.run [Token.startElement "body" []]).1.isBody = true ∧
      "p" ∈ supportedTags ∧ "script" ∉ supportedTags ∧ "script" ≠ "body") ∧
    (((Converter.start.run [Token.startElement "body" []]).1.step
        (Token.startElement "p" [{ name := "style", value := "x" }])).1.written
      = (Converter.start.run [Token.startElement "body" []]).1.written ++
          [Written.startElement "p", Written.attributes [{ name := "style", value := "x" }]] ∧
      ((Converter.start.run [Token.startElement "body" []]).1.step (Token.endElement "p")).1
        = (Converter.start.run [Token.startElement "body" []]).1.writeEndElement) ∧
    (((Converter.start.run [Token.startElement "body" []]).1.step
        (Token.startElement "script" [])).1
      = (Converter.start.run [Token.startElement "body" []]).1 ∧
      ((Converter.start.run [Token.startElement "body" []]).1.step
        (Token.endElement "script")).1
      = (Converter.start.run [Token.startElement "body" []]).1) :=
  ⟨⟨by decide, by decide, by decide, by decide⟩,
    (supportedTags_decides_copy.2.2.2.2 (Converter.start.run [Token.startElement "body" []]).1
      "p" [{ name := "style", value := "x" }] (by decide)).1 (by decide),
    ((supportedTags_decides_copy.2.2.2.2 (Converter.start.run [Token.startElement "body" []]).1
      "script" [] (by decide)).2 (by decide)).1,
    ((supportedTags_decides_copy.2.2.2.2 (Converter.start.run [Token.startElement "body" []]).1
      "script" [] (by decide)).2 (by decide)).2 (by decide)⟩

/-- Claim C21: for a well-formed document whose body holds only allow-listed elements
and text, what html2enml writes inside `en-note` is the content of the body copied
token for token: every start tag with its name and attributes, every text run and
every end tag, in the order of the input; read back, the output gives the tokens of
the body, with nothing dropped, added or reordered. -/
theorem html2enml_copies_allowed_body (pre inner post : List Token)
    (attributes : List Attribute) (hpre : ∀ t ∈ pre, beforeBody t = true)
    (hw : wellNested [] inner = true) (ha : onlyAllowed inner = true) :
    html2enml (pre ++ Token.startElement "body" attributes ::
        (inner ++ Token.endElement "body" :: post))
      = Converter.start.written ++ Written.startElement "en-note" ::
          (inner.flatMap Token.copied ++ [Written.endElement "en-note"]) ∧
    tokensOf (inner.flatMap Token.copied) = inner ∧
    tokensOf (html2enml (pre ++ Token.startElement "body" attributes ::
        (inner ++ Token.endElement "body" :: post)))
      = Token.startElement "en-note" [] :: (inner ++ [Token.endElement "en-note"]) := by
  have h1 := html2enml_body pre inner post attributes hpre hw
  rw [bodyWritten_onlyAllowed inner ha] at h1
  refine ⟨h1, tokensOf_copied inner ha, ?_⟩
  rw [h1]
  have h2 := tokensOf_copied_append inner [Written.endElement "en-note"] ha
  cases inner with
  | nil => simp [Converter.start, tokensOf]
  | cons t rest =>
    cases t with
    | startElement name attributes =>
      rw [List.flatMap_cons] at h2 ⊢
      simp only [Converter.start, Token.copied, List.cons_append, List.nil_append, tokensOf]
        at h2 ⊢
      rw [h2]
    | endElement name =>
      rw [List.flatMap_cons] at h2 ⊢
      simp only [Converter.start, Token.copied, List.cons_append, List.nil_append, tokensOf]
        at h2 ⊢
      rw [h2]
    | characters text =>
      rw [List.flatMap_cons] at h2 ⊢
      simp only [Converter.start, Token.copied, List.cons_append, List.nil_append, tokensOf]
        at h2 ⊢
      rw [h2]
    | _ => simp [onlyAllowed] at ha

/-- Witness of C21: a document with a head, a body of allow-listed elements and text,
and text after the body. -/
theorem html2enml_copies_allowed_body_witness :
    ((∀ t ∈ sampleTokens.take 7, beforeBody t = true) ∧ wellNested [] allowedBody = true ∧
      onlyAllowed allowedBody = true) ∧
    tokensOf (html2enml (sampleTokens.take 7 ++ Token.startElement "body" [] ::
        (allowedBody ++ Token.endElement "body" :: sampleTokens.drop 18)))
      = Token.startElement "en-note" [] :: (allowedBody ++ [Token.endElement "en-note"]) :=
  ⟨⟨by decide, by decide, by decide⟩,
    (html2enml_copies_allowed_body (sampleTokens.take 7) allowedBody (sampleTokens.drop 18) []
      (by decide) (by decide) (by decide)).2.2⟩

/-- Claim C22 (the code departs from it), in three parts. The resources are written to
the info file only when they are added; `setGuid` removes the info file and writes a
new one with `syncToInfoFile`, which writes no resource: the sample note, given a
resource and then the guid `h`, still holds the resource, but a note freshly
constructed for `h` after syncToInfoFile() has none (without the change of guid the
resource reappears). The constructor reads the signed members reminderOrder and
lastSyncedSequenceNumber through `toULongLong` and `toUInt`: the values -5 and -3 come
back while `QSettings` still holds the numbers it was given, and as 0 once the file
has been parsed again, since the conversion of the text of a negative number fails.
The eleven members syncToInfoFile() writes do come back, for a note with a guid and
the info file of its guid and for all values in the range of their type, when the
values are read as they were stored. -/
theorem info_file_round_trip_fails :
    (∀ (fs : FS) (n : Note) (key : String), key ∉ n.infoEntries.map Prod.fst →
      (n.syncToInfoFile fs).value n.m_infoFile key = fs.value n.m_infoFile key) ∧
    (renamedNote.1.guid = "h" ∧
      renamedNote.1.resources
        = [{ hash := "0a1b", fileName := "a.png", type := "image/png", data := [1, 2] }] ∧
      (Note.new sampleEnv (renamedNote.1.syncToInfoFile renamedNote.2) "h" 0).1.resources
        = []) ∧
    ((Note.new sampleEnv resourceFS "g" 0).1.resources
        = [{ hash := "0a1b", fileName := "a.png", type := "image/png", data := [] }]) ∧
    (negativeNote.reminderOrder = -5 ∧ negativeNote.lastSyncedSequenceNumber = -3 ∧
      (Note.new qtEnv (negativeNote.syncToInfoFile emptyFS) "g" 0).1.reminderOrder = -5 ∧
      (Note.new qtEnv (FS.reread qtEnv (negativeNote.syncToInfoFile emptyFS)) "g"
        0).1.reminderOrder = 0 ∧
      (Note.new qtEnv (FS.reread qtEnv (negativeNote.syncToInfoFile emptyFS)) "g"
        0).1.lastSyncedSequenceNumber = 0) ∧
    (∀ (env : Env) (fs : FS) (n : Note) (usn : Nat),
      n.guid ≠ "" → n.m_infoFile = infoFilePath env n.guid →
      wrapInt64 n.reminderOrder = n.reminderOrder →
      wrapInt32 n.lastSyncedSequenceNumber = n.lastSyncedSequenceNumber →
      (Note.new env (n.syncToInfoFile fs) n.guid usn).1.created = n.created ∧
      (Note.new env (n.syncToInfoFile fs) n.guid usn).1.title = n.title ∧
      (Note.new env (n.syncToInfoFile fs) n.guid usn).1.updated = n.updated ∧
      (Note.new env (n.syncToInfoFile fs) n.guid usn).1.notebookGuid = n.notebookGuid ∧
      (Note.new env (n.syncToInfoFile fs) n.guid usn).1.tagGuids = n.tagGuids ∧
      (Note.new env (n.syncToInfoFile fs) n.guid usn).1.reminderOrder = n.reminderOrder ∧
      (Note.new env (n.syncToInfoFile fs) n.guid usn).1.reminderTime = n.reminderTime ∧
      (Note.new env (n.syncToInfoFile fs) n.guid usn).1.reminderDoneTime
        = n.reminderDoneTime ∧
      (Note.new env (n.syncToInfoFile fs) n.guid usn).1.deleted = n.deleted ∧
      (Note.new env (n.syncToInfoFile fs) n.guid usn).1.lastSyncedSequenceNumber
        = n.lastSyncedSequenceNumber ∧
      (Note.new env (n.syncToInfoFile fs) n.guid usn).1.needsContentSync
        = n.needsContentSync) := by
  refine ⟨syncToInfoFile_value_other, by decide, by decide, by decide, ?_⟩
  intro env fs n usn hg hi hr hl
  obtain ⟨m1, m2, m3, m4, m5, m6, m7, m8, m9, m10, m11⟩ :=
    new_after_syncToInfoFile env fs n usn hg hi
  exact ⟨m1, m2, m3, m4, m5, m6.trans hr, m7, m8, m9, m10.trans hl, m11⟩

/-- Witness of C22: the sample note with a negative reminder order and a negative last
synced sequence number, read back as stored. -/
theorem info_file_round_trip_fails_witness :
    (negativeNote.guid ≠ "" ∧
      negativeNote.m_infoFile = infoFilePath sampleEnv negativeNote.guid ∧
      wrapInt64 negativeNote.reminderOrder = negativeNote.reminderOrder ∧
      wrapInt32 negativeNote.lastSyncedSequenceNumber
        = negativeNote.lastSyncedSequenceNumber) ∧
    (Note.new sampleEnv (negativeNote.syncToInfoFile emptyFS) negativeNote.guid
        0).1.reminderOrder = negativeNote.reminderOrder ∧
    (Note.new sampleEnv (negativeNote.syncToInfoFile emptyFS) negativeNote.guid
        0).1.lastSyncedSequenceNumber = negativeNote.lastSyncedSequenceNumber :=
  ⟨⟨by decide, by decide, by decide, by decide⟩,
    (info_file_round_trip_fails.2.2.2.2 sampleEnv emptyFS negativeNote 0 (by decide)
      (by decide) (by decide) (by decide)).2.2.2.2.2.1,
    (info_file_round_trip_fails.2.2.2.2 sampleEnv emptyFS negativeNote 0 (by decide)
      (by decide) (by decide) (by decide)).2.2.2.2.2.2.2.2.2.1⟩

/-- Counterexample to C23: the note holds a source that ends with a line break; the
cache file gets the source as it is, but the fresh note that loads it holds the
source without the line break. -/
theorem cache_round_trip_trims :
    spacedNote.enmlContent = "<en-note>kept</en-note>\n" ∧
    (spacedNote.syncToCacheFile sampleEnv emptyFS) "/store/note-g.enml"
      = some (FileData.text "<en-note>kept</en-note>\n") ∧
    (Note.new sampleEnv (spacedNote.syncToCacheFile sampleEnv emptyFS) "g" 0).1.loaded
      = false ∧
    (((Note.new sampleEnv (spacedNote.syncToCacheFile sampleEnv emptyFS) "g" 0).1.load
        sampleEnv (Note.new sampleEnv (spacedNote.syncToCacheFile sampleEnv emptyFS) "g" 0).2
        false).1.enmlContent = "<en-note>kept</en-note>") := by
  decide

/-- Claim C23, amended: a Note holding the source e, whose cache file is the one of its
guid and can be written and read, writes exactly e to the cache file with
syncToCacheFile(); a fresh Note with the same guid is not loaded, and after load() it
is loaded, its source is e without the white space at its start and end, its tagline
is the first 100 characters of the plaintext of that source, and no content fetch is
requested. The source is e itself when e neither starts nor ends with white space. -/
theorem cache_round_trip (env : Env) (fs : FS) (n : Note) (usn : Nat) (priorityHigh : Bool)
    (hp : PathsInv env n) (hc : n.m_cacheFile = cacheFilePath env n.m_guid)
    (hw : env.canOpenWrite (cacheFilePath env n.m_guid) = true)
    (hr : env.canOpenRead (cacheFilePath env n.m_guid) = true) :
    (n.syncToCacheFile env fs) (cacheFilePath env n.m_guid)
      = some (FileData.text n.enmlContent) ∧
    (Note.new env (n.syncToCacheFile env fs) n.m_guid usn).1.loaded = false ∧
    (((Note.new env (n.syncToCacheFile env fs) n.m_guid usn).1.load env
        (Note.new env (n.syncToCacheFile env fs) n.m_guid usn).2 priorityHigh).1.enmlContent
      = trimmed n.enmlContent) ∧
    (((Note.new env (n.syncToCacheFile env fs) n.m_guid usn).1.load env
        (Note.new env (n.syncToCacheFile env fs) n.m_guid usn).2 priorityHigh).1.loaded
      = true) ∧
    (((Note.new env (n.syncToCacheFile env fs) n.m_guid usn).1.load env
        (Note.new env (n.syncToCacheFile env fs) n.m_guid usn).2 priorityHigh).1.tagline
      = left (env.toPlaintext (EnmlDocument.empty.setEnml (trimmed n.enmlContent))) 100) ∧
    (∀ q ∈ ((Note.new env (n.syncToCacheFile env fs) n.m_guid usn).1.load env
        (Note.new env (n.syncToCacheFile env fs) n.m_guid usn).2 priorityHigh).2,
      q.what ≠ LoadWhat.LoadContent) ∧
    (trimmed n.enmlContent = n.enmlContent →
      ((Note.new env (n.syncToCacheFile env fs) n.m_guid usn).1.load env
        (Note.new env (n.syncToCacheFile env fs) n.m_guid usn).2 priorityHigh).1.enmlContent
      = n.enmlContent) := by
  obtain ⟨hci, hce⟩ := pathsInv_cache_ne_info env n hp
  have h1 : (n.syncToCacheFile env fs) (cacheFilePath env n.m_guid)
      = some (FileData.text n.enmlContent) := by
    have := syncToCacheFile_apply_cache env fs n hci hce
    rw [hc] at this
    rw [this, hw]
    rfl
  have hpaths := new_paths env (n.syncToCacheFile env fs) n.m_guid usn
  have hdef := new_defaults env (n.syncToCacheFile env fs) n.m_guid usn
  have hfs := new_fs_apply_ne env (n.syncToCacheFile env fs) n.m_guid usn
    (cacheFilePath env n.m_guid) (cacheFilePath_ne_constructedInfoFile env _ _)
  generalize Note.new env (n.syncToCacheFile env fs) n.m_guid usn = F at hpaths hdef hfs ⊢
  obtain ⟨c, fs2⟩ := F
  dsimp only [] at hpaths hdef hfs ⊢
  obtain ⟨hcc, _⟩ := hpaths
  obtain ⟨_, _, hl, _, _, _, hcont, _⟩ := hdef
  have hf : fs2 c.m_cacheFile = some (FileData.text n.enmlContent) := by
    rw [hcc, hfs, h1]
  have hne : c.m_cacheFile ≠ "" := by rw [hcc]; exact cacheFilePath_ne_empty env _
  have he : fs2.fileExists c.m_cacheFile = true := by simp [FS.fileExists, hne, hf]
  obtain ⟨l1, l2⟩ := load_fst_of_cached env fs2 c priorityHigh hl he
  obtain ⟨r1, r2, r3⟩ := loadFromCacheFile_readable env fs2 c n.enmlContent hf hne
    (by rw [hcc]; exact hr)
  rw [hcont] at r1 r2
  have henml : (c.load env fs2 priorityHigh).1.enmlContent = trimmed n.enmlContent := by
    rw [l1, Note.enmlContent, r1]; rfl
  refine ⟨h1, hl, henml, ?_, ?_, ?_, ?_⟩
  · rw [l1]; exact r3
  · rw [l1]; exact r2
  · intro q hq
    rw [l2] at hq
    rcases (loadResources_nil_iff env fs2 c.m_guid priorityHigh c.resources).2 with h | h
    · rw [h] at hq; simp at hq
    · rw [h] at hq
      simp only [List.mem_singleton] at hq
      subst hq
      simp
  · intro ht
    rw [henml, ht]

/-- Witness of C23: the loaded note `g`, whose source has no white space around it. -/
theorem cache_round_trip_witness :
    (PathsInv sampleEnv loadedNote ∧
      loadedNote.m_cacheFile = cacheFilePath sampleEnv loadedNote.m_guid ∧
      loadedNote.enmlContent = "<en-note>kept</en-note>") ∧
    (((Note.new sampleEnv (loadedNote.syncToCacheFile sampleEnv emptyFS) loadedNote.m_guid
        0).1.load sampleEnv
        (Note.new sampleEnv (loadedNote.syncToCacheFile sampleEnv emptyFS) loadedNote.m_guid
          0).2 false).1.enmlContent = loadedNote.enmlContent) :=
  ⟨⟨⟨⟨"g", by decide⟩, Or.inr ⟨"g", by decide⟩⟩, by decide, by decide⟩,
    (cache_round_trip sampleEnv emptyFS loadedNote 0 false
      ⟨⟨"g", by decide⟩, Or.inr ⟨"g", by decide⟩⟩ (by decide) (by decide)
      (by decide)).2.2.2.2.2.2 (by decide)⟩

/-- Claim C24: the two persistence operations are independent. For a note with the
paths the constructor and setGuid assign, syncToInfoFile() leaves the cache file, every
other file and the stored tagline untouched, as every key it does not write (the
resources among them); syncToCacheFile() changes no file but the cache file and the
info file, and in the info file no key but the tagline. Both only write files: in
the embedding they yield the file system and have no Note state to change. -/
theorem sync_operations_independent (env : Env) (fs : FS) (n : Note)
    (hp : PathsInv env n) :
    n.syncToInfoFile fs n.m_cacheFile = fs n.m_cacheFile ∧
    (∀ q, q ≠ n.m_infoFile → n.syncToInfoFile fs q = fs q) ∧
    (n.syncToInfoFile fs).value n.m_infoFile "tagline" = fs.value n.m_infoFile "tagline" ∧
    (∀ key, key ∉ n.infoEntries.map Prod.fst →
      (n.syncToInfoFile fs).value n.m_infoFile key = fs.value n.m_infoFile key) ∧
    (∀ q, q ≠ n.m_cacheFile → q ≠ n.m_infoFile → n.syncToCacheFile env fs q = fs q) ∧
    (∀ key, key ≠ "tagline" →
      (n.syncToCacheFile env fs).value n.m_infoFile key = fs.value n.m_infoFile key) := by
  obtain ⟨hci, _⟩ := pathsInv_cache_ne_info env n hp
  refine ⟨syncToInfoFile_apply_ne fs n _ hci, fun q hq => syncToInfoFile_apply_ne fs n q hq,
    syncToInfoFile_value_other fs n "tagline" (by simp [Note.infoEntries]),
    fun key hk => syncToInfoFile_value_other fs n key hk,
    fun q h1 h2 => syncToCacheFile_apply_ne env fs n q h2 h1,
    fun key hk => syncToCacheFile_value_other env fs n key hci hk⟩

/-- Witness of C24: the note `g` on the file system that holds its info file with a
stored tagline. -/
theorem sync_operations_independent_witness :
    PathsInv sampleEnv sampleNote ∧
    (sampleNote.syncToInfoFile staleFS).value sampleNote.m_infoFile "tagline"
      = some (QVariant.string "summer plans") ∧
    sampleNote.syncToInfoFile staleFS sampleNote.m_cacheFile = none :=
  ⟨new_pathsInv sampleEnv emptyFS "g" 0,
    ((sync_operations_independent sampleEnv staleFS sampleNote
      (new_pathsInv sampleEnv emptyFS "g" 0)).2.2.1).trans (by decide),
    ((sync_operations_independent sampleEnv staleFS sampleNote
      (new_pathsInv sampleEnv emptyFS "g" 0)).1).trans (by decide)⟩

/-- Counterexample to C25: the tag `t1` occurs twice in the tag list; after the rename
of `t1` to `t2` the second occurrence is still there. -/
theorem slotTagGuidChanged_keeps_second_occurrence :
    (sampleNote.setTagGuids ["t1", "x", "t1"]).tagGuids = ["t1", "x", "t1"] ∧
    ((sampleNote.setTagGuids ["t1", "x", "t1"]).slotTagGuidChanged "t1" "t2").tagGuids
      = ["t2", "x", "t1"] := by
  decide

/-- Claim C25, amended: slotTagGuidChanged(old, new) replaces the first occurrence of
old in the tag list by new and leaves all other entries and the length of the list
unchanged; a list without old is left as it is. When old occurs at most once, as in
a list that holds every tag once, and old != new, no occurrence of old remains.
slotNotebookGuidChanged(old, new) sets the notebook reference to new if it was old
and leaves it unchanged otherwise. -/
theorem slotTagGuidChanged_replaces_first (n : Note) (oldGuid newGuid : String) :
    (oldGuid ∉ n.tagGuids → n.slotTagGuidChanged oldGuid newGuid = n) ∧
    (∀ pre post : List String, n.tagGuids = pre ++ oldGuid :: post → oldGuid ∉ pre →
      (n.slotTagGuidChanged oldGuid newGuid).tagGuids = pre ++ newGuid :: post) ∧
    (n.slotTagGuidChanged oldGuid newGuid).tagGuids.length = n.tagGuids.length ∧
    (oldGuid ≠ newGuid → n.tagGuids.count oldGuid ≤ 1 →
      oldGuid ∉ (n.slotTagGuidChanged oldGuid newGuid).tagGuids) ∧
    (n.slotNotebookGuidChanged oldGuid newGuid).notebookGuid
      = (if n.notebookGuid = oldGuid then newGuid else n.notebookGuid) := by
  refine ⟨slotTagGuidChanged_absent n oldGuid newGuid,
    fun pre post h hp => (slotTagGuidChanged_first n oldGuid newGuid pre post h hp).1, ?_, ?_, ?_⟩
  · by_cases hm : oldGuid ∈ n.m_tagGuids
    · obtain ⟨pre, post, e1, e2⟩ := first_occurrence _ _ hm
      simp only [Note.tagGuids]
      rw [(slotTagGuidChanged_first n oldGuid newGuid pre post e1 e2).1, e1]
      simp
    · rw [slotTagGuidChanged_absent n oldGuid newGuid hm]
  · intro hne hc
    by_cases hm : oldGuid ∈ n.m_tagGuids
    · obtain ⟨pre, post, e1, e2⟩ := first_occurrence _ _ hm
      simp only [Note.tagGuids] at hc ⊢
      rw [(slotTagGuidChanged_first n oldGuid newGuid pre post e1 e2).1]
      rw [e1, List.count_append, List.count_cons_self] at hc
      have hpost : List.count oldGuid post = 0 := by omega
      have hpost2 : oldGuid ∉ post := List.count_eq_zero.1 hpost
      simp only [List.mem_append, List.mem_cons, not_or]
      exact ⟨e2, hne, hpost2⟩
    · rw [slotTagGuidChanged_absent n oldGuid newGuid hm]
      exact hm
  · unfold Note.slotNotebookGuidChanged Note.notebookGuid
    by_cases h : n.m_notebookGuid = oldGuid
    · simp [h, Note.emit]
    · simp [h]

/-- Witness of C25: the tag list of the counterexample without the second occurrence,
and a notebook renamed. -/
theorem slotTagGuidChanged_replaces_first_witness :
    ("t1" ≠ "t2" ∧ (sampleNote.setTagGuids ["t1", "x"]).tagGuids.count "t1" ≤ 1) ∧
    "t1" ∉ ((sampleNote.setTagGuids ["t1", "x"]).slotTagGuidChanged "t1" "t2").tagGuids ∧
    ((sampleNote.setNotebookGuid "nb").slotNotebookGuidChanged "nb" "nb2").notebookGuid
      = "nb2" :=
  ⟨⟨by decide, by decide⟩,
    (slotTagGuidChanged_replaces_first (sampleNote.setTagGuids ["t1", "x"]) "t1" "t2").2.2.2.1
      (by decide) (by decide),
    ((slotTagGuidChanged_replaces_first (sampleNote.setNotebookGuid "nb") "nb" "nb2").2.2.2.2
      ).trans (by decide)⟩

/-- Counterexample to C26: a snapshot is attached to the sample note, which is not
marked as conflicting; conflicting() is still false. -/
theorem setConflictingNote_leaves_flag :
    sampleNote.conflicting = false ∧
    (sampleNote.setConflictingNote (some 1)).conflictingNote = some 1 ∧
    (sampleNote.setConflictingNote (some 1)).conflicting = false := by
  decide

/-- Claim C26, amended: after setConflictingNote(s) the note's conflictingNote() is s,
whatever snapshot was attached before, conflictingNoteChanged is emitted once and
conflicting() is what it was; the flag is set by setConflicting(true), after which
conflicting() is true and the snapshot attached is still s. -/
theorem setConflictingNote_replaces_snapshot (n : Note) (s : Option Nat) :
    (n.setConflictingNote s).conflictingNote = s ∧
    (n.setConflictingNote s).conflicting = n.conflicting ∧
    (n.setConflictingNote s).emissions Signal.conflictingNoteChanged
      = n.emissions Signal.conflictingNoteChanged + 1 ∧
    ((n.setConflictingNote s).setConflicting true).conflicting = true ∧
    ((n.setConflictingNote s).setConflicting true).conflictingNote = s := by
  refine ⟨rfl, rfl, ?_, ?_, ?_⟩
  · simp [Note.setConflictingNote, Note.emissions, Note.emit, List.count_append]
  · unfold Note.setConflicting Note.conflicting
    by_cases h : (n.setConflictingNote s).m_conflicting = true
    · simp [h]
    · simp [h, Note.emit]
  · unfold Note.setConflicting Note.conflictingNote
    by_cases h : (n.setConflictingNote s).m_conflicting = true
    · simp [h]; rfl
    · simp [h, Note.emit]; rfl

/-- Claim C27 (the code departs from it): no method of the Note emits loadedChanged,
updateSequenceNumberChanged or renderWidthChanged, the notifications note.h declares
for the properties loaded, updateSequenceNumber and renderWidth. setEnmlContent and
load() leave the count of loadedChanged as it is, also when they turn loaded() from
false to true; setUpdateSequenceNumber(v) with a new value emits syncedChanged only,
and setRenderWidth(w) with a new value emits contentChanged only. -/
theorem declared_notifications_not_emitted :
    (∀ (env : Env) (n : Note) (e : String),
      (n.setEnmlContent env e).emissions Signal.loadedChanged
        = n.emissions Signal.loadedChanged) ∧
    (∀ (env : Env) (fs : FS) (n : Note) (priorityHigh : Bool),
      (n.load env fs priorityHigh).1.emissions Signal.loadedChanged
        = n.emissions Signal.loadedChanged) ∧
    (∀ (n : Note) (v : Int),
      (n.setUpdateSequenceNumber v).emissions Signal.updateSequenceNumberChanged
        = n.emissions Signal.updateSequenceNumberChanged) ∧
    (∀ (n : Note) (w : Int),
      (n.setRenderWidth w).emissions Signal.renderWidthChanged
        = n.emissions Signal.renderWidthChanged) ∧
    (sampleNote.loaded = false ∧
      (sampleNote.setEnmlContent sampleEnv "<en-note>x</en-note>").loaded = true ∧
      (sampleNote.setEnmlContent sampleEnv "<en-note>x</en-note>").emitted
        = sampleNote.emitted ++ [Signal.contentChanged]) ∧
    (cachedNote.loaded = false ∧
      (cachedNote.load sampleEnv cachedFS false).1.loaded = true ∧
      (cachedNote.load sampleEnv cachedFS false).1.emitted = cachedNote.emitted) ∧
    (sampleNote.updateSequenceNumber = 0 ∧
      (sampleNote.setUpdateSequenceNumber 5).updateSequenceNumber = 5 ∧
      (sampleNote.setUpdateSequenceNumber 5).emitted
        = sampleNote.emitted ++ [Signal.syncedChanged]) ∧
    (sampleNote.renderWidth = -1 ∧ (sampleNote.setRenderWidth 300).renderWidth = 300 ∧
      (sampleNote.setRenderWidth 300).emitted
        = sampleNote.emitted ++ [Signal.contentChanged]) := by
  refine ⟨?_, ?_, ?_, ?_, by decide, by decide, by decide, by decide⟩
  · intro env n e
    unfold Note.emissions
    rw [setEnmlContent_emitted]
    by_cases h : n.m_content.enml = e <;> simp [h, List.count_append]
  · intro env fs n priorityHigh
    unfold Note.emissions
    rw [load_emitted]
  · intro n v
    unfold Note.emissions
    rw [setUpdateSequenceNumber_emitted]
    by_cases h : n.m_updateSequenceNumber = v <;> simp [h, List.count_append]
  · intro n w
    unfold Note.emissions
    rw [setRenderWidth_emitted]
    by_cases h : n.m_content.renderWidth = w <;> simp [h, List.count_append]

/-- Claim C28 (the code departs from it): the loop ends at the first end tag named
`body`, whatever follows it. For the well-formed document in which a second `body`
element with the text "two " stands inside the body, followed by a `b` element with
the text "three" and by the text " four", the output ends after "two ": the end tag
of the inner element closes `en-note`, and neither the `b` element nor the two texts
after the inner element are written. -/
theorem html2enml_stops_at_inner_body :
    (∀ (tokens post : List Token),
      html2enml (tokens ++ Token.endElement "body" :: post)
        = html2enml (tokens ++ [Token.endElement "body"])) ∧
    (readerTokens [] nestedBodyTokens = true ∧
      html2enml nestedBodyTokens
        = Converter.start.written ++
          [Written.startElement "en-note", Written.characters "one ",
           Written.characters "two ", Written.endElement "en-note"] ∧
      Written.startElement "b" ∉ html2enml nestedBodyTokens ∧
      Written.characters "three" ∉ html2enml nestedBodyTokens ∧
      Written.characters " four" ∉ html2enml nestedBodyTokens) := by
  refine ⟨?_, by decide⟩
  intro tokens post
  simp only [html2enml, Converter.loop, run_endBody]

/-- Claim C29: for the tokens the reader delivers for any input string, well formed
or not, html2enml writes the XML declaration and the en-note DOCTYPE and then either
nothing or one element `en-note` whose tags are balanced and properly nested: the
element when the input has a start tag named `body`, nothing when it has none. -/
theorem html2enml_output_single_root (tokens : List Token)
    (h : readerTokens [] tokens = true) :
    Converter.start.written
      = [Written.startDocument,
         Written.dtd "<!DOCTYPE en-note SYSTEM \"http://xml.evernote.com/pub/enml2.dtd\">"] ∧
    ∃ w : List Written, html2enml tokens = Converter.start.written ++ w ∧
      singleRoot "en-note" w = true ∧
      (hasBody tokens = true → ∃ l, w = Written.startElement "en-note" :: l) ∧
      (hasBody tokens = false → w = []) := by
  refine ⟨rfl, ?_⟩
  rcases run_beforeBody_rooted tokens [] Converter.start h
    ⟨rfl, rfl, rfl, by simp⟩ with ⟨hb, hw⟩ | ⟨hb, w, hw, hs⟩
  · refine ⟨[], ?_, rfl, ?_, fun _ => rfl⟩
    · simp only [html2enml, Converter.loop, hw, List.append_nil]
    · intro hc; rw [hb] at hc; exact absurd hc (by simp)
  · refine ⟨Written.startElement "en-note" :: w, ?_, ?_, fun _ => ⟨w, rfl⟩, ?_⟩
    · simp only [html2enml, Converter.loop, hw]
    · simp [singleRoot, hs]
    · intro hc; rw [hb] at hc; exact absurd hc (by simp)

/-- Witness of C29: the sample document, and an input that breaks off inside an
element of the body. -/
theorem html2enml_output_single_root_witness :
    (readerTokens [] sampleTokens = true ∧
      readerTokens []
        [Token.startElement "body" [], Token.startElement "b" [], Token.characters "x",
         Token.invalid] = true) ∧
    (∃ w : List Written, html2enml sampleTokens = Converter.start.written ++ w ∧
      singleRoot "en-note" w = true ∧
      (hasBody sampleTokens = true → ∃ l, w = Written.startElement "en-note" :: l) ∧
      (hasBody sampleTokens = false → w = [])) ∧
    html2enml
        [Token.startElement "body" [], Token.startElement "b" [], Token.characters "x",
         Token.invalid]
      = Converter.start.written ++
        [Written.startElement "en-note", Written.startElement "b", Written.attributes [],
         Written.characters "x", Written.endElement "b", Written.endElement "en-note"] :=
  ⟨⟨by decide, by decide⟩, (html2enml_output_single_root sampleTokens (by decide)).2,
    by decide⟩

/-- Claim C30: setEnmlContent(e) leaves needsContentSync as it is when the note was
not loaded and when e is the current source, sets it when the note was loaded and e
differs from the current source, and always leaves the note loaded.
setRichTextContent and attachFile set needsContentSync whenever they change the
content, whether the note is loaded or not: setRichTextContent when the rich text
differs from the current one, attachFile when the file exists; otherwise they change
nothing. -/
theorem needsContentSync_after_content_edit (env : Env) (fs : FS) (n : Note) :
    (∀ e : String,
      (n.loaded = false →
        (n.setEnmlContent env e).needsContentSync = n.needsContentSync) ∧
      (n.loaded = true → e ≠ n.enmlContent →
        (n.setEnmlContent env e).needsContentSync = true) ∧
      (e = n.enmlContent →
        (n.setEnmlContent env e).needsContentSync = n.needsContentSync) ∧
      (n.setEnmlContent env e).loaded = true) ∧
    (∀ t : String,
      (t ≠ n.richTextContent env → (n.setRichTextContent env t).needsContentSync = true) ∧
      (t = n.richTextContent env → n.setRichTextContent env t = n) ∧
      ((n.setRichTextContent env t).m_content ≠ n.m_content →
        (n.setRichTextContent env t).needsContentSync = true)) ∧
    (∀ (position : Int) (fileName : String),
      (fs.fileExists fileName = true →
        (n.attachFile env fs position fileName).1.needsContentSync = true) ∧
      (fs.fileExists fileName = false → n.attachFile env fs position fileName = (n, fs)) ∧
      ((n.attachFile env fs position fileName).1.m_content ≠ n.m_content →
        (n.attachFile env fs position fileName).1.needsContentSync = true)) := by
  refine ⟨?_, ?_, ?_⟩
  · intro e
    unfold Note.setEnmlContent Note.needsContentSync Note.loaded Note.enmlContent
    by_cases h : n.m_content.enml = e
    · have h2 : ¬ e ≠ n.m_content.enml := fun c => c h.symm
      simp [h]
    · have h2 : ¬ e = n.m_content.enml := fun c => h c.symm
      by_cases hl : n.m_loaded = true <;> simp [h, h2, hl, Note.emit]
  · intro t
    have hsame : t = n.richTextContent env → n.setRichTextContent env t = n := by
      intro h
      unfold Note.setRichTextContent
      unfold Note.richTextContent at h
      simp [h]
    have hdiff : t ≠ n.richTextContent env →
        (n.setRichTextContent env t).needsContentSync = true := by
      intro h
      unfold Note.richTextContent at h
      have h2 : ¬ env.toRichText n.m_content n.m_guid = t := fun c => h c.symm
      unfold Note.setRichTextContent Note.needsContentSync
      simp [h2]
    refine ⟨hdiff, hsame, ?_⟩
    intro hc
    by_cases h : t = n.richTextContent env
    · rw [hsame h] at hc
      exact absurd rfl hc
    · exact hdiff h
  · intro position fileName
    have hex : fs.fileExists fileName = true →
        (n.attachFile env fs position fileName).1.needsContentSync = true := by
      intro h
      unfold Note.attachFile Note.needsContentSync
      simp [h]
    have hno : fs.fileExists fileName = false →
        n.attachFile env fs position fileName = (n, fs) := by
      intro h
      unfold Note.attachFile
      simp [h]
    refine ⟨hex, hno, ?_⟩
    intro hc
    by_cases h : fs.fileExists fileName = true
    · exact hex h
    · have h2 : fs.fileExists fileName = false := by simpa using h
      rw [hno h2] at hc
      exact absurd rfl hc

/-- Witness of C30: the loaded note `g` given a new source, the sample note, not
loaded, given its first source, and a file attached to the sample note. -/
theorem needsContentSync_after_content_edit_witness :
    (loadedNote.loaded = true ∧ "<en-note>new</en-note>" ≠ loadedNote.enmlContent ∧
      loadedNote.needsContentSync = false) ∧
    (loadedNote.setEnmlContent sampleEnv "<en-note>new</en-note>").needsContentSync = true ∧
    (sampleNote.loaded = false ∧
      (sampleNote.setEnmlContent sampleEnv "<en-note>new</en-note>").needsContentSync
        = sampleNote.needsContentSync) ∧
    (staleFS.fileExists "/home/u/a.png" = true ∧
      (sampleNote.attachFile sampleEnv staleFS 0 "/home/u/a.png").1.needsContentSync = true) :=
  ⟨⟨by decide, by decide, by decide⟩,
    ((needsContentSync_after_content_edit sampleEnv cachedFS loadedNote).1
      "<en-note>new</en-note>").2.1 (by decide) (by decide),
    ⟨by decide,
      ((needsContentSync_after_content_edit sampleEnv emptyFS sampleNote).1
        "<en-note>new</en-note>").1 (by decide)⟩,
    ⟨by decide,
      ((needsContentSync_after_content_edit sampleEnv staleFS sampleNote).2.2 0
        "/home/u/a.png").1 (by decide)⟩⟩

/-- Claim C31: for every Note state, position and argument, insertText and insertLink
assign the content the edit of the document yields and the tagline recomputed from
it, emit contentChanged exactly once and nothing else, and leave every other member
as it is: needsContentSync, loaded, synced, both sequence numbers, the resources and
all metadata fields. A local edit made through them does not mark the note as needing
a content sync: the loaded note `g`, which needs none, needs none after an edit. -/
theorem insert_edits_frame (env : Env) (n : Note) (position : Int) (arg : String) :
    (n.insertText env position arg
        = { n with m_content := env.insertText n.m_content position arg,
                   m_tagline := left (env.toPlaintext
                     (env.insertText n.m_content position arg)) 100,
                   emitted := n.emitted ++ [Signal.contentChanged] } ∧
      n.insertLink env position arg
        = { n with m_content := env.insertLink n.m_content position arg,
                   m_tagline := left (env.toPlaintext
                     (env.insertLink n.m_content position arg)) 100,
                   emitted := n.emitted ++ [Signal.contentChanged] }) ∧
    ((n.insertText env position arg).tagline
        = left ((n.insertText env position arg).plaintextContent env) 100 ∧
      (n.insertLink env position arg).tagline
        = left ((n.insertLink env position arg).plaintextContent env) 100) ∧
    ((n.insertText env position arg).emissions Signal.contentChanged
        = n.emissions Signal.contentChanged + 1 ∧
      (n.insertLink env position arg).emissions Signal.contentChanged
        = n.emissions Signal.contentChanged + 1) ∧
    (ContentEditFrame n (n.insertText env position arg) ∧
      ContentEditFrame n (n.insertLink env position arg)) ∧
    (loadedNote.loaded = true ∧ loadedNote.needsContentSync = false ∧
      (loadedNote.insertText sampleEnv 9 "not ").enmlContent = "<en-note>not kept</en-note>" ∧
      (loadedNote.insertText sampleEnv 9 "not ").tagline = "not kept" ∧
      (loadedNote.insertText sampleEnv 9 "not ").needsContentSync = false) := by
  refine ⟨⟨rfl, rfl⟩, ⟨rfl, rfl⟩, ⟨?_, ?_⟩, ⟨?_, ?_⟩, by decide⟩
  · simp [Note.insertText, Note.emissions, Note.emit, List.count_append]
  · simp [Note.insertLink, Note.emissions, Note.emit, List.count_append]
  · exact ⟨rfl, rfl, rfl, rfl, rfl, rfl, rfl, rfl, rfl, rfl, rfl, rfl, rfl, rfl, rfl, rfl,
      rfl, rfl, rfl, rfl, rfl, rfl, rfl⟩
  · exact ⟨rfl, rfl, rfl, rfl, rfl, rfl, rfl, rfl, rfl, rfl, rfl, rfl, rfl, rfl, rfl, rfl,
      rfl, rfl, rfl, rfl, rfl, rfl, rfl⟩

end NotesApp
